import Mathlib

/-!
Signal acquisition and protocol codec engine (infrared and sub-GHz)

A shallow embedding of `src/src/IRModule.cpp` and `src/src/RFModule.cpp`
(with `src/include/IRModule.h`, `src/include/RFModule.h`).

Conventions of the embedding

* A module object is a record with the fields of the C++ class; a member
  function is a function from the record (and its arguments) to the record
  after the call (and its return value).
* `int` values are `Int`, C's `%` is `Int.tmod`; unsigned values are `Nat`,
  reduced modulo `2 ^ w` where the code can wrap.  `unsigned long` is 32 bits
  wide on the target.
* A pointer argument that the code tests against null is an `Option`.
* `new T[n]` appends an array to the free store `heap`; the pointer is the
  position of the array in the store.  Nothing in the two modules frees or
  writes an array after the `memcpy` that fills it.
* `millis()` is an input: every call of a member function receives the
  successive readings it makes of the clock as arguments.
* Output on a pin is a list of `PinEvent`s in program order.
-/

set_option autoImplicit false

/-! ## Shared pieces -/

/-- The free store: the arrays allocated by `new[]`, in order of allocation. -/
abbrev Heap := List (List Nat)

/-- Unsigned 32-bit subtraction `a - b` (both operands below `2 ^ 32`). -/
def usub32 (a b : Nat) : Nat := (a + 2 ^ 32 - b % 2 ^ 32) % 2 ^ 32

/-- The first `n` elements read from `src` by `memcpy`. -/
def memcpy (src : List Nat) (n : Nat) : List Nat :=
  (List.range n).map (fun i => src.getD i 0)

/-- What a member function does to the output pin and the busy-wait timer. -/
inductive PinEvent where
  | digitalWrite (pin : Nat) (level : Bool)
  | delayMicroseconds (us : Nat)
  deriving DecidableEq, Repr

/-- The member functions `update()` calls, recorded in program order. -/
inductive Call where
  | decodeSignal
  | addToHistory
  | stopReceiving
  deriving DecidableEq, Repr

/-! ## Infrared: `IRModule.h` -/

def IR_RECEIVER_PIN : Nat := 7

def IR_LED_PIN : Nat := 8

/-- The enumeration `IRProtocol` of `IRModule.h`. -/
inductive IRProtocol where
  | IR_UNKNOWN
  | IR_NEC
  | IR_SONY
  | IR_RC5
  | IR_RC6
  | IR_SAMSUNG
  | IR_LG
  | IR_RAW
  deriving DecidableEq, Repr

/-- The record `struct IRSignal`; `rawData` is a pointer into the free store. -/
structure IRSignal where
  protocol : IRProtocol
  name : String
  command : Nat
  address : Nat
  rawData : Option Nat
  rawLength : Nat
  frequency : Nat
  timestamp : Nat
  deriving DecidableEq, Repr

/-- The value `IRSignal()`: every scalar zero, the pointer null, the name empty. -/
def IRSignal.zero : IRSignal :=
  { protocol := IRProtocol.IR_UNKNOWN, name := "", command := 0, address := 0,
    rawData := none, rawLength := 0, frequency := 0, timestamp := 0 }

/-- The object state of `class IRModule` together with the free store. -/
structure IRModule where
  irInitialized : Bool
  currentSignal : IRSignal
  signalReceived : Bool
  isReceivingSignal : Bool
  isTransmittingSignal : Bool
  lastReceiveTime : Nat
  rawBuffer : List Nat
  rawIndex : Nat
  lastEdgeTime : Nat
  history : List IRSignal
  historyCount : Int
  historyIndex : Int
  heap : Heap
  deriving DecidableEq, Repr

/-- The capacity `IRModule::MAX_RAW_LENGTH`. -/
def IRModule.MAX_RAW_LENGTH : Nat := 300

/-- The capacity `IRModule::MAX_HISTORY`. -/
def IRModule.MAX_HISTORY : Int := 50

/-- The constructor `IRModule::IRModule()` run on the zero-initialised global
object `irModule`. -/
def IRModule.new : IRModule :=
  { irInitialized := false
    currentSignal := IRSignal.zero
    signalReceived := false
    isReceivingSignal := false
    isTransmittingSignal := false
    lastReceiveTime := 0
    rawBuffer := List.replicate 300 0
    rawIndex := 0
    lastEdgeTime := 0
    history := List.replicate 50 IRSignal.zero
    historyCount := 0
    historyIndex := 0
    heap := [] }

/-- The member `IRModule::init()` (its pin set-up is not recorded). -/
def IRModule.init (m : IRModule) : Bool × IRModule :=
  (true, { m with rawBuffer := List.replicate 300 0, irInitialized := true })

/-- The member `IRModule::addToHistory(const IRSignal* signal)`. -/
def IRModule.addToHistory (m : IRModule) (signal : Option IRSignal) : IRModule :=
  match signal with
  | none => m
  | some s =>
    { m with
      history := m.history.set m.historyIndex.toNat s
      historyIndex := (m.historyIndex + 1).tmod IRModule.MAX_HISTORY
      historyCount :=
        if m.historyCount < IRModule.MAX_HISTORY then m.historyCount + 1 else m.historyCount }

/-- The member `IRModule::clearHistory()`. -/
def IRModule.clearHistory (m : IRModule) : IRModule :=
  { m with historyCount := 0, historyIndex := 0 }

/-- The member `IRModule::getHistoryCount()`. -/
def IRModule.getHistoryCount (m : IRModule) : Int := m.historyCount

/-- The member `IRModule::getHistoryItem(int index)`. -/
def IRModule.getHistoryItem (m : IRModule) (index : Int) : IRSignal :=
  if 0 ≤ index ∧ index < m.historyCount then
    let realIndex :=
      (m.historyIndex - m.historyCount + index + IRModule.MAX_HISTORY).tmod IRModule.MAX_HISTORY
    m.history.getD realIndex.toNat IRSignal.zero
  else IRSignal.zero

/-- The member `IRModule::isReceiving()`. -/
def IRModule.isReceiving (m : IRModule) : Bool := m.isReceivingSignal

/-- The member `IRModule::isTransmitting()`. -/
def IRModule.isTransmitting (m : IRModule) : Bool := m.isTransmittingSignal

/-- The member `IRModule::getProtocolString`. -/
def IRModule.getProtocolString (protocol : IRProtocol) : String :=
  match protocol with
  | IRProtocol.IR_NEC => "NEC"
  | IRProtocol.IR_SONY => "Sony"
  | IRProtocol.IR_RC5 => "RC5"
  | IRProtocol.IR_RC6 => "RC6"
  | IRProtocol.IR_SAMSUNG => "Samsung"
  | IRProtocol.IR_LG => "LG"
  | IRProtocol.IR_RAW => "RAW"
  | IRProtocol.IR_UNKNOWN => "Unknown"

/-- The member `IRModule::generateSignalName`; `now` is the reading of
`millis()`, `String(command, HEX)` is the lower-case hexadecimal numeral. -/
def IRModule.generateSignalName (protocol : IRProtocol) (command : Nat) (now : Nat) : String :=
  let protocolName := IRModule.getProtocolString protocol
  if protocol = IRProtocol.IR_RAW then
    protocolName ++ "_" ++ toString (now % 10000)
  else
    protocolName ++ "_0x" ++ String.mk (Nat.toDigits 16 command)

/-- The member `IRModule::startReceiving()`; `now` is the reading of `millis()`. -/
def IRModule.startReceiving (m : IRModule) (now : Nat) : IRModule :=
  if !m.irInitialized then m
  else { m with rawIndex := 0, signalReceived := false, isReceivingSignal := true,
                lastEdgeTime := now }

/-- The member `IRModule::stopReceiving()`. -/
def IRModule.stopReceiving (m : IRModule) : IRModule :=
  { m with isReceivingSignal := false }

/-- The member `IRModule::receiveSignal()`. -/
def IRModule.receiveSignal (m : IRModule) (now : Nat) : Bool × IRModule :=
  if !m.irInitialized then (false, m)
  else (true, m.startReceiving now)

/-- The member `IRModule::captureRawData()`; `now` is the reading of `micros()`.
The assignment to `uint16_t duration` keeps the low 16 bits. -/
def IRModule.captureRawData (m : IRModule) (now : Nat) : IRModule :=
  if m.rawIndex < IRModule.MAX_RAW_LENGTH - 1 then
    let currentTime := now
    let duration := (usub32 currentTime m.lastEdgeTime) % 2 ^ 16
    { m with rawBuffer := m.rawBuffer.set m.rawIndex duration
             rawIndex := m.rawIndex + 1
             lastEdgeTime := currentTime }
  else m

/-- The handler `IRModule::irInterruptHandler()` for the instance `m`. -/
def IRModule.irInterruptHandler (m : IRModule) (now : Nat) : IRModule :=
  if m.isReceivingSignal then m.captureRawData now else m

/-- One of the two bit loops of `IRModule::decodeNEC`, after `n` iterations:
`none` when an iteration executed `return false`, else the field accumulated so
far.  The pulse of iteration `i` is at `base + i * 2` (`base` is 2 in the
address loop and 34 in the command loop). -/
def IRModule.decodeNECBits (m : IRModule) (base : Nat) : Nat → Option Nat
  | 0 => some 0
  | i + 1 =>
    match IRModule.decodeNECBits m base i with
    | none => none
    | some field =>
      let pulseIndex := base + i * 2
      let spaceIndex := pulseIndex + 1
      if spaceIndex ≥ m.rawIndex then none
      else if m.rawBuffer.getD pulseIndex 0 < 400 ∨ m.rawBuffer.getD pulseIndex 0 > 700 then none
      else if m.rawBuffer.getD spaceIndex 0 > 1200 then some (field ||| (1 <<< i))
      else some field

/-- The member `IRModule::decodeNEC(IRSignal* signal)`: the return value and the
record `*signal` after the call; `now` is the reading of `millis()`. -/
def IRModule.decodeNEC (m : IRModule) (signal : IRSignal) (now : Nat) : Bool × IRSignal :=
  if m.rawIndex < 68 then (false, signal)
  else if m.rawBuffer.getD 0 0 < 8000 ∨ m.rawBuffer.getD 0 0 > 10000 then (false, signal)
  else if m.rawBuffer.getD 1 0 < 4000 ∨ m.rawBuffer.getD 1 0 > 5000 then (false, signal)
  else
    match IRModule.decodeNECBits m 2 16 with
    | none => (false, signal)
    | some address =>
      match IRModule.decodeNECBits m 34 16 with
      | none => (false, signal)
      | some command =>
        (true, { signal with
                 address := address
                 command := command
                 frequency := 38000
                 name := IRModule.generateSignalName IRProtocol.IR_NEC command now
                 timestamp := now })

/-- The member `IRModule::decodeSony`. -/
def IRModule.decodeSony (_m : IRModule) (signal : IRSignal) : Bool × IRSignal := (false, signal)

/-- The member `IRModule::decodeRC5`. -/
def IRModule.decodeRC5 (_m : IRModule) (signal : IRSignal) : Bool × IRSignal := (false, signal)

/-- The member `IRModule::decodeRC6`. -/
def IRModule.decodeRC6 (_m : IRModule) (signal : IRSignal) : Bool × IRSignal := (false, signal)

/-- The member `IRModule::decodeSamsung`. -/
def IRModule.decodeSamsung (_m : IRModule) (signal : IRSignal) : Bool × IRSignal := (false, signal)

/-- The member `IRModule::decodeLG`. -/
def IRModule.decodeLG (_m : IRModule) (signal : IRSignal) : Bool × IRSignal := (false, signal)

/-- The member `IRModule::decodeSignal(IRSignal* signal)`: the return value, the
record `*signal` after the call and the module (its free store) after the call.
`t1`, `t2` are the first and second reading of `millis()` made by the call. -/
def IRModule.decodeSignal (m : IRModule) (signal : Option IRSignal) (t1 t2 : Nat) :
    Bool × Option IRSignal × IRModule :=
  match signal with
  | none => (false, none, m)
  | some s =>
    if m.rawIndex < 10 then (false, some s, m)
    else
      let r1 := m.decodeNEC s t1
      if r1.1 then (true, some { r1.2 with protocol := IRProtocol.IR_NEC }, m)
      else
        let r2 := m.decodeSony r1.2
        if r2.1 then (true, some { r2.2 with protocol := IRProtocol.IR_SONY }, m)
        else
          let r3 := m.decodeRC5 r2.2
          if r3.1 then (true, some { r3.2 with protocol := IRProtocol.IR_RC5 }, m)
          else
            let r4 := m.decodeRC6 r3.2
            if r4.1 then (true, some { r4.2 with protocol := IRProtocol.IR_RC6 }, m)
            else
              let r5 := m.decodeSamsung r4.2
              if r5.1 then (true, some { r5.2 with protocol := IRProtocol.IR_SAMSUNG }, m)
              else
                let r6 := m.decodeLG r5.2
                if r6.1 then (true, some { r6.2 with protocol := IRProtocol.IR_LG }, m)
                else
                  (true,
                   some { r6.2 with
                          protocol := IRProtocol.IR_RAW
                          rawLength := m.rawIndex
                          rawData := some m.heap.length
                          frequency := 38000
                          name := IRModule.generateSignalName IRProtocol.IR_RAW 0 t1
                          timestamp := t2 },
                   { m with heap := m.heap ++ [memcpy m.rawBuffer m.rawIndex] })

/-- The member `IRModule::update()`: the module after the tick and the member
functions the tick called, in order.  `currentTime` is the reading of `millis()`
at the top of the tick, `t1`, `t2` are the readings made by `decodeSignal`. -/
def IRModule.update (m : IRModule) (currentTime t1 t2 : Nat) : IRModule × List Call :=
  if !m.irInitialized then (m, [])
  else if m.isReceivingSignal ∧ usub32 currentTime m.lastEdgeTime > 100 then
    let r :=
      if m.rawIndex > 10 then
        let m1 := { m with signalReceived := true }
        match m1.decodeSignal (some m1.currentSignal) t1 t2 with
        | (ok, sig, m2) =>
          let m3 := { m2 with currentSignal := sig.getD m2.currentSignal }
          if ok then (m3.addToHistory (some m3.currentSignal), [Call.decodeSignal, Call.addToHistory])
          else (m3, [Call.decodeSignal])
      else (m, [])
    (r.1.stopReceiving, r.2 ++ [Call.stopReceiving])
  else (m, [])

/-- The carrier loop of the transmit functions: `cycles` periods, each the pin
high for `pulseWidth` microseconds and low for `pulseWidth` microseconds. -/
def IRModule.carrier (cycles pulseWidth : Nat) : List PinEvent :=
  (List.replicate cycles
    [PinEvent.digitalWrite IR_LED_PIN true, PinEvent.delayMicroseconds pulseWidth,
     PinEvent.digitalWrite IR_LED_PIN false, PinEvent.delayMicroseconds pulseWidth]).flatten

/-- One of the two bit loops of `IRModule::transmitNEC`, after `n` iterations:
iteration `i` sends a carrier pulse and then waits 1690 or 560 microseconds
according to `value & (1 << i)`. -/
def IRModule.transmitNECBits (value carrierFreq pulseWidth : Nat) : Nat → List PinEvent
  | 0 => []
  | i + 1 =>
    IRModule.transmitNECBits value carrierFreq pulseWidth i ++
      (IRModule.carrier (560 * carrierFreq / 1000000) pulseWidth ++
        [PinEvent.delayMicroseconds (if value &&& (1 <<< i) ≠ 0 then 1690 else 560)])

/-- The member `IRModule::transmitNEC(address, command)`: the return value and
what the call does to the pin. -/
def IRModule.transmitNEC (m : IRModule) (address command : Nat) : Bool × List PinEvent :=
  if !m.irInitialized then (false, [])
  else
    let carrierFreq := 38000
    let pulseWidth := 1000000 / carrierFreq / 2
    (true,
      IRModule.carrier (9000 * carrierFreq / 1000000) pulseWidth ++
      [PinEvent.delayMicroseconds 4500] ++
      IRModule.transmitNECBits address carrierFreq pulseWidth 16 ++
      IRModule.transmitNECBits command carrierFreq pulseWidth 16 ++
      IRModule.carrier (560 * carrierFreq / 1000000) pulseWidth)

/-- The interval sequence of a pin trace, as a receiver times it: a pulse is a
maximal run of carrier periods and lasts the sum of the delays programmed in
it (a delay that directly follows a `digitalWrite`); a delay that directly
follows another delay is a space.  `pulse` is the length of the pulse being
read, `afterWrite` tells whether the previous event was a `digitalWrite`. -/
def intervalsFrom (pulse : Option Nat) (afterWrite : Bool) : List PinEvent → List Nat
  | [] => pulse.toList
  | PinEvent.digitalWrite _ _ :: rest => intervalsFrom (some (pulse.getD 0)) true rest
  | PinEvent.delayMicroseconds us :: rest =>
    if afterWrite then intervalsFrom (some (pulse.getD 0 + us)) false rest
    else pulse.toList ++ us :: intervalsFrom none false rest

/-- The interval sequence of a whole pin trace. -/
def intervals (trace : List PinEvent) : List Nat := intervalsFrom none false trace

/-- The module with the interval sequence `seq` placed in the raw edge buffer
(the unused entries zero) and `rawIndex` equal to the length of the sequence. -/
def IRModule.withCapture (m : IRModule) (seq : List Nat) : IRModule :=
  { m with rawBuffer := seq ++ List.replicate (IRModule.MAX_RAW_LENGTH - seq.length) 0
           rawIndex := seq.length }

/-! ## Sub-GHz: `RFModule.h` -/

def RF_RECEIVER_PIN : Nat := 12

def RF_TRANSMITTER_PIN : Nat := 13

/-- The enumeration `RFProtocol` of `RFModule.h`. -/
inductive RFProtocol where
  | RF_UNKNOWN
  | RF_ASK_OOK
  | RF_FSK
  | RF_MANCHESTER
  | RF_PWM
  | RF_RAW
  deriving DecidableEq, Repr

/-- The record `struct RFSignal`; `rawData` is a pointer into the free store. -/
structure RFSignal where
  protocol : RFProtocol
  name : String
  frequency : Nat
  bitrate : Nat
  data : Nat
  rawData : Option Nat
  rawLength : Nat
  modulation : Nat
  timestamp : Nat
  deriving DecidableEq, Repr

/-- The value `RFSignal()`: every scalar zero, the pointer null, the name empty. -/
def RFSignal.zero : RFSignal :=
  { protocol := RFProtocol.RF_UNKNOWN, name := "", frequency := 0, bitrate := 0, data := 0,
    rawData := none, rawLength := 0, modulation := 0, timestamp := 0 }

/-- The object state of `class RFModule` together with the free store. -/
structure RFModule where
  rfInitialized : Bool
  currentSignal : RFSignal
  signalReceived : Bool
  isReceivingSignal : Bool
  isTransmittingSignal : Bool
  frequencyScanning : Bool
  currentFrequency : Nat
  scanStartFreq : Nat
  scanEndFreq : Nat
  lastReceiveTime : Nat
  rawBuffer : List Nat
  rawIndex : Nat
  lastEdgeTime : Nat
  history : List RFSignal
  historyCount : Int
  historyIndex : Int
  heap : Heap
  deriving DecidableEq, Repr

/-- The capacity `RFModule::MAX_RAW_LENGTH`. -/
def RFModule.MAX_RAW_LENGTH : Nat := 1000

/-- The capacity `RFModule::MAX_HISTORY`. -/
def RFModule.MAX_HISTORY : Int := 50

/-- The constructor `RFModule::RFModule()` (the complete definition, line 31 of
`RFModule.cpp`) run on the zero-initialised global object `rfModule`. -/
def RFModule.new : RFModule :=
  { rfInitialized := false
    currentSignal := RFSignal.zero
    signalReceived := false
    isReceivingSignal := false
    isTransmittingSignal := false
    frequencyScanning := false
    currentFrequency := 433920000
    scanStartFreq := 300000000
    scanEndFreq := 928000000
    lastReceiveTime := 0
    rawBuffer := List.replicate 1000 0
    rawIndex := 0
    lastEdgeTime := 0
    history := List.replicate 50 RFSignal.zero
    historyCount := 0
    historyIndex := 0
    heap := [] }

/-- The member `RFModule::setFrequency`. -/
def RFModule.setFrequency (m : RFModule) (frequency : Nat) : RFModule :=
  { m with currentFrequency := frequency }

/-- The member `RFModule::init()` (its pin set-up is not recorded). -/
def RFModule.init (m : RFModule) : Bool × RFModule :=
  (true, { ({ m with rawBuffer := List.replicate 1000 0 }).setFrequency 433920000 with
           rfInitialized := true })

/-- The member `RFModule::addToHistory(const RFSignal* signal)`. -/
def RFModule.addToHistory (m : RFModule) (signal : Option RFSignal) : RFModule :=
  match signal with
  | none => m
  | some s =>
    { m with
      history := m.history.set m.historyIndex.toNat s
      historyIndex := (m.historyIndex + 1).tmod RFModule.MAX_HISTORY
      historyCount :=
        if m.historyCount < RFModule.MAX_HISTORY then m.historyCount + 1 else m.historyCount }

/-- The member `RFModule::clearHistory()`. -/
def RFModule.clearHistory (m : RFModule) : RFModule :=
  { m with historyCount := 0, historyIndex := 0 }

/-- The member `RFModule::getHistoryCount()`. -/
def RFModule.getHistoryCount (m : RFModule) : Int := m.historyCount

/-- The member `RFModule::getHistoryItem(int index)`. -/
def RFModule.getHistoryItem (m : RFModule) (index : Int) : RFSignal :=
  if 0 ≤ index ∧ index < m.historyCount then
    let realIndex :=
      (m.historyIndex - m.historyCount + index + RFModule.MAX_HISTORY).tmod RFModule.MAX_HISTORY
    m.history.getD realIndex.toNat RFSignal.zero
  else RFSignal.zero

/-- The member `RFModule::isReceiving()`. -/
def RFModule.isReceiving (m : RFModule) : Bool := m.isReceivingSignal

/-- The member `RFModule::isTransmitting()`. -/
def RFModule.isTransmitting (m : RFModule) : Bool := m.isTransmittingSignal

/-- The member `RFModule::getCurrentScanFrequency()`. -/
def RFModule.getCurrentScanFrequency (m : RFModule) : Nat := m.currentFrequency

/-- The member `RFModule::getProtocolString`. -/
def RFModule.getProtocolString (protocol : RFProtocol) : String :=
  match protocol with
  | RFProtocol.RF_ASK_OOK => "ASK/OOK"
  | RFProtocol.RF_FSK => "FSK"
  | RFProtocol.RF_MANCHESTER => "Manchester"
  | RFProtocol.RF_PWM => "PWM"
  | RFProtocol.RF_RAW => "RAW"
  | RFProtocol.RF_UNKNOWN => "Unknown"

/-- The member `RFModule::generateSignalName`; `now` is the reading of
`millis()`.  The library conversion `String(frequency / 1000000.0, 2)` of a
floating-point quotient is the parameter `freqStr`. -/
def RFModule.generateSignalName (freqStr : Nat → String) (protocol : RFProtocol)
    (frequency : Nat) (now : Nat) : String :=
  let protocolName := RFModule.getProtocolString protocol
  let freqStr := freqStr frequency ++ "MHz"
  protocolName ++ "_" ++ freqStr ++ "_" ++ toString (now % 10000)

/-- The member `RFModule::startReceiving()`; `now` is the reading of `millis()`. -/
def RFModule.startReceiving (m : RFModule) (now : Nat) : RFModule :=
  if !m.rfInitialized then m
  else { m with rawIndex := 0, signalReceived := false, isReceivingSignal := true,
                lastEdgeTime := now }

/-- The member `RFModule::stopReceiving()`. -/
def RFModule.stopReceiving (m : RFModule) : RFModule :=
  { m with isReceivingSignal := false }

/-- The member `RFModule::receiveSignal()`. -/
def RFModule.receiveSignal (m : RFModule) (now : Nat) : Bool × RFModule :=
  if !m.rfInitialized then (false, m)
  else (true, m.startReceiving now)

/-- The member `RFModule::captureRawData()`; `now` is the reading of `micros()`. -/
def RFModule.captureRawData (m : RFModule) (now : Nat) : RFModule :=
  if m.rawIndex < RFModule.MAX_RAW_LENGTH - 1 then
    let currentTime := now
    let duration := min 255 (usub32 currentTime m.lastEdgeTime / 10)
    { m with rawBuffer := m.rawBuffer.set m.rawIndex duration
             rawIndex := m.rawIndex + 1
             lastEdgeTime := currentTime }
  else m

/-- The handler `RFModule::rfInterruptHandler()` for the instance `m`. -/
def RFModule.rfInterruptHandler (m : RFModule) (now : Nat) : RFModule :=
  if m.isReceivingSignal then m.captureRawData now else m

/-- The member `RFModule::startFrequencyScan`; `now` is the reading of `millis()`. -/
def RFModule.startFrequencyScan (m : RFModule) (startFreq endFreq : Nat) (now : Nat) : RFModule :=
  if !m.rfInitialized then m
  else
    ({ m with scanStartFreq := startFreq, scanEndFreq := endFreq, currentFrequency := startFreq,
              frequencyScanning := true }).startReceiving now

/-- The member `RFModule::stopFrequencyScan()`. -/
def RFModule.stopFrequencyScan (m : RFModule) : RFModule :=
  ({ m with frequencyScanning := false }).stopReceiving

/-- The loop of `RFModule::decodeASK` started at index `i` with the locals
`data` and `validBits`: the locals when the loop exits.  `fuel` bounds the
number of iterations; the loop makes at most `rawIndex - i` of them. -/
def RFModule.decodeASKLoop (m : RFModule) : Nat → Nat → Nat → Nat → Nat × Nat
  | 0, _, data, validBits => (data, validBits)
  | fuel + 1, i, data, validBits =>
    let threshold := 50
    if i < m.rawIndex ∧ validBits < 32 then
      if m.rawBuffer.getD i 0 > threshold then
        RFModule.decodeASKLoop m fuel (i + 1) (((data <<< 1) ||| 1) % 2 ^ 32) (validBits + 1)
      else if m.rawBuffer.getD i 0 > 10 then
        RFModule.decodeASKLoop m fuel (i + 1) (((data <<< 1) ||| 0) % 2 ^ 32) (validBits + 1)
      else RFModule.decodeASKLoop m fuel (i + 1) data validBits
    else (data, validBits)

/-- The member `RFModule::decodeASK(RFSignal* signal)`: the return value and the
record `*signal` after the call; `t1`, `t2` are the readings of `millis()`. -/
def RFModule.decodeASK (freqStr : Nat → String) (m : RFModule) (signal : RFSignal)
    (t1 t2 : Nat) : Bool × RFSignal :=
  if m.rawIndex < 32 then (false, signal)
  else
    let r := m.decodeASKLoop m.rawIndex 0 0 0
    let data := r.1
    let validBits := r.2
    if validBits ≥ 8 then
      (true, { signal with
               data := data
               frequency := m.currentFrequency
               bitrate := 4800
               modulation := 0
               name := RFModule.generateSignalName freqStr RFProtocol.RF_ASK_OOK
                         m.currentFrequency t1
               timestamp := t2 })
    else (false, signal)

/-- The member `RFModule::decodeFSK`. -/
def RFModule.decodeFSK (_m : RFModule) (signal : RFSignal) : Bool × RFSignal := (false, signal)

/-- The loop of `RFModule::decodeManchester` started at index `i` with the
locals `data` and `validBits`: the locals when the loop exits.  `fuel` bounds
the number of iterations; the loop makes at most `(rawIndex - i) / 2` of them. -/
def RFModule.decodeManchesterLoop (m : RFModule) : Nat → Nat → Nat → Nat → Nat × Nat
  | 0, _, data, validBits => (data, validBits)
  | fuel + 1, i, data, validBits =>
    if i < m.rawIndex - 1 ∧ validBits < 32 then
      let firstHalf := m.rawBuffer.getD i 0
      let secondHalf := m.rawBuffer.getD (i + 1) 0
      if firstHalf < secondHalf then
        RFModule.decodeManchesterLoop m fuel (i + 2) (((data <<< 1) ||| 0) % 2 ^ 32) (validBits + 1)
      else if firstHalf > secondHalf then
        RFModule.decodeManchesterLoop m fuel (i + 2) (((data <<< 1) ||| 1) % 2 ^ 32) (validBits + 1)
      else RFModule.decodeManchesterLoop m fuel (i + 2) data validBits
    else (data, validBits)

/-- The member `RFModule::decodeManchester(RFSignal* signal)`: the return value
and the record `*signal` after the call; `t1`, `t2` are the readings of
`millis()`. -/
def RFModule.decodeManchester (freqStr : Nat → String) (m : RFModule) (signal : RFSignal)
    (t1 t2 : Nat) : Bool × RFSignal :=
  if m.rawIndex < 16 then (false, signal)
  else
    let r := m.decodeManchesterLoop m.rawIndex 0 0 0
    let data := r.1
    let validBits := r.2
    if validBits ≥ 8 then
      (true, { signal with
               data := data
               frequency := m.currentFrequency
               bitrate := 2400
               modulation := 1
               name := RFModule.generateSignalName freqStr RFProtocol.RF_MANCHESTER
                         m.currentFrequency t1
               timestamp := t2 })
    else (false, signal)

/-- The member `RFModule::decodePWM`. -/
def RFModule.decodePWM (_m : RFModule) (signal : RFSignal) : Bool × RFSignal := (false, signal)

/-- The member `RFModule::decodeSignal(RFSignal* signal)`: the return value, the
record `*signal` after the call and the module (its free store) after the call.
`t1`, `t2` are the first and second reading of `millis()` made by the call. -/
def RFModule.decodeSignal (freqStr : Nat → String) (m : RFModule) (signal : Option RFSignal)
    (t1 t2 : Nat) : Bool × Option RFSignal × RFModule :=
  match signal with
  | none => (false, none, m)
  | some s =>
    if m.rawIndex < 10 then (false, some s, m)
    else
      let r1 := RFModule.decodeASK freqStr m s t1 t2
      if r1.1 then (true, some { r1.2 with protocol := RFProtocol.RF_ASK_OOK }, m)
      else
        let r2 := m.decodeFSK r1.2
        if r2.1 then (true, some { r2.2 with protocol := RFProtocol.RF_FSK }, m)
        else
          let r3 := RFModule.decodeManchester freqStr m r2.2 t1 t2
          if r3.1 then (true, some { r3.2 with protocol := RFProtocol.RF_MANCHESTER }, m)
          else
            let r4 := m.decodePWM r3.2
            if r4.1 then (true, some { r4.2 with protocol := RFProtocol.RF_PWM }, m)
            else
              (true,
               some { r4.2 with
                      protocol := RFProtocol.RF_RAW
                      rawLength := m.rawIndex
                      rawData := some m.heap.length
                      frequency := m.currentFrequency
                      bitrate := 4800
                      name := RFModule.generateSignalName freqStr RFProtocol.RF_RAW
                                m.currentFrequency t1
                      timestamp := t2 },
               { m with heap := m.heap ++ [memcpy m.rawBuffer m.rawIndex] })

/-- The block `// Handle frequency scanning` of `RFModule::update()`: the
32-bit `currentFrequency += 100000`, the wrap to `scanStartFreq` and the call
of `setFrequency`. -/
def RFModule.scanStep (m : RFModule) : RFModule :=
  if m.frequencyScanning then
    let stepped := { m with currentFrequency := (m.currentFrequency + 100000) % 2 ^ 32 }
    let wrapped :=
      if stepped.currentFrequency > stepped.scanEndFreq then
        { stepped with currentFrequency := stepped.scanStartFreq }
      else stepped
    wrapped.setFrequency wrapped.currentFrequency
  else m

/-- The member `RFModule::update()`: the module after the tick and the member
functions the tick called, in order.  `currentTime` is the reading of `millis()`
at the top of the tick, `t1`, `t2` are the readings made by `decodeSignal`. -/
def RFModule.update (freqStr : Nat → String) (m : RFModule) (currentTime t1 t2 : Nat) :
    RFModule × List Call :=
  if !m.rfInitialized then (m, [])
  else
    let m0 := m.scanStep
    if m0.isReceivingSignal ∧ usub32 currentTime m0.lastEdgeTime > 200 then
      let r :=
        if m0.rawIndex > 10 then
          let m1 := { m0 with signalReceived := true }
          match RFModule.decodeSignal freqStr m1 (some m1.currentSignal) t1 t2 with
          | (ok, sig, m2) =>
            let m3 := { m2 with currentSignal := sig.getD m2.currentSignal }
            if ok then
              (m3.addToHistory (some m3.currentSignal), [Call.decodeSignal, Call.addToHistory])
            else (m3, [Call.decodeSignal])
        else (m0, [])
      (r.1.stopReceiving, r.2 ++ [Call.stopReceiving])
    else (m0, [])

/-- The module with the samples `seq` placed in the raw buffer (the unused
entries zero) and `rawIndex` equal to the number of samples. -/
def RFModule.withCapture (m : RFModule) (seq : List Nat) : RFModule :=
  { m with rawBuffer := seq ++ List.replicate (RFModule.MAX_RAW_LENGTH - seq.length) 0
           rawIndex := seq.length }

/-! ## The history ring shared by the two modules -/

/-- The three history fields of a module (`history`, `historyCount`,
`historyIndex`), for a signal type `σ`. -/
structure HistoryRing (σ : Type) where
  slots : List σ
  count : Int
  cursor : Int

/-- The body of `addToHistory` on the three history fields. -/
def HistoryRing.push {σ : Type} (r : HistoryRing σ) (s : σ) : HistoryRing σ :=
  { slots := r.slots.set r.cursor.toNat s
    cursor := (r.cursor + 1).tmod 50
    count := if r.count < 50 then r.count + 1 else r.count }

/-- The body of `getHistoryItem` on the three history fields. -/
def HistoryRing.get {σ : Type} (r : HistoryRing σ) (zero : σ) (index : Int) : σ :=
  if 0 ≤ index ∧ index < r.count then
    r.slots.getD ((r.cursor - r.count + index + 50).tmod 50).toNat zero
  else zero

/-- The history fields of an infrared module. -/
def IRModule.ring (m : IRModule) : HistoryRing IRSignal :=
  { slots := m.history, count := m.historyCount, cursor := m.historyIndex }

/-- The history fields of a sub-GHz module. -/
def RFModule.ring (m : RFModule) : HistoryRing RFSignal :=
  { slots := m.history, count := m.historyCount, cursor := m.historyIndex }

/-- The infrared module after `addToHistory` of each signal of `sigs`, in order. -/
def IRModule.addAllToHistory (m : IRModule) (sigs : List IRSignal) : IRModule :=
  sigs.foldl (fun acc s => acc.addToHistory (some s)) m

/-- The sub-GHz module after `addToHistory` of each signal of `sigs`, in order. -/
def RFModule.addAllToHistory (m : RFModule) (sigs : List RFSignal) : RFModule :=
  sigs.foldl (fun acc s => acc.addToHistory (some s)) m

/-- What the pushes of the list `l` into an empty ring leave in the ring. -/
def HistoryRing.Holds {σ : Type} (r : HistoryRing σ) (l : List σ) : Prop :=
  r.slots.length = 50 ∧ r.count = min l.length 50 ∧ r.cursor = ((l.length % 50 : Nat) : Int) ∧
    ∀ k, k < l.length → l.length ≤ k + 50 → r.slots[k % 50]? = l[k]?

/-- The framing that `decodeNEC` accepts. -/
def IRModule.necFraming (m : IRModule) : Prop :=
  68 ≤ m.rawIndex ∧
  (8000 ≤ m.rawBuffer.getD 0 0 ∧ m.rawBuffer.getD 0 0 ≤ 10000) ∧
  (4000 ≤ m.rawBuffer.getD 1 0 ∧ m.rawBuffer.getD 1 0 ≤ 5000) ∧
  ∀ k, k < 32 → 400 ≤ m.rawBuffer.getD (2 + 2 * k) 0 ∧ m.rawBuffer.getD (2 + 2 * k) 0 ≤ 700

instance (m : IRModule) : Decidable m.necFraming := by
  unfold IRModule.necFraming
  infer_instance

/-- An infrared module after `init()`. -/
def IRModule.ready : IRModule := (IRModule.new.init).2

/-- A sub-GHz module after `init()`. -/
def RFModule.ready : RFModule := (RFModule.new.init).2

/-- The array a signal's `rawData` points to in the free store of `m`, if any. -/
def IRModule.rawPayload (m : IRModule) (s : IRSignal) : Option (List Nat) :=
  s.rawData.bind (fun p => m.heap[p]?)

/-- The array a signal's `rawData` points to in the free store of `m`, if any. -/
def RFModule.rawPayload (m : RFModule) (s : RFSignal) : Option (List Nat) :=
  s.rawData.bind (fun p => m.heap[p]?)

/-! ## The decoders of the sub-GHz channel, as the specification words them -/

/-- The bit an ASK sample yields: 1 above the on-threshold 50, 0 above the noise
floor 10 and not above the on-threshold, none for a shorter sample. -/
def askBit (sample : Nat) : Option Bool :=
  if sample > 50 then some true else if sample > 10 then some false else none

/-- The bit a Manchester pair yields: 0 when the first half is shorter than the
second, 1 when it is longer, none when the halves are equal. -/
def manchesterBit (first second : Nat) : Option Bool :=
  if first < second then some false else if first > second then some true else none

/-- The bits an ASK scan of the first `rawIndex` samples emits, in order,
stopping after 32 bits. -/
def askEmitted (buf : List Nat) (rawIndex : Nat) : List Bool :=
  ((List.range rawIndex).filterMap (fun i => askBit (buf.getD i 0))).take 32

/-- The bits a Manchester scan of the pairs `(buf[2k], buf[2k+1])` with
`2k+1 < rawIndex` emits, in order, stopping after 32 bits. -/
def manchesterEmitted (buf : List Nat) (rawIndex : Nat) : List Bool :=
  ((List.range (rawIndex / 2)).filterMap
    (fun k => manchesterBit (buf.getD (2 * k) 0) (buf.getD (2 * k + 1) 0))).take 32

/-- The number a list of bits spells, the first bit most significant. -/
def bitsValue : List Bool → Nat
  | [] => 0
  | b :: rest => b.toNat * 2 ^ rest.length + bitsValue rest

/-- The infrared module after the edge interrupts at the `micros()` readings
`times`, in order. -/
def IRModule.edges (m : IRModule) (times : List Nat) : IRModule :=
  times.foldl IRModule.irInterruptHandler m

/-- The sub-GHz module after the edge interrupts at the `micros()` readings
`times`, in order. -/
def RFModule.edges (m : RFModule) (times : List Nat) : RFModule :=
  times.foldl RFModule.rfInterruptHandler m

/-- An infrared capture session of `n` edges: `init()`, `receiveSignal()` at
`millis() = 1000`, then `n` edges 600 microseconds apart, the first at
`micros() = 1000600`. -/
def IRModule.session (n : Nat) : IRModule :=
  (IRModule.ready.receiveSignal 1000).2.edges ((List.range n).map (fun k => 1000600 + 600 * k))

/-- A sub-GHz capture session of `n` edges: `init()`, `receiveSignal()` at
`millis() = 1000`, then `n` edges 600 microseconds apart, the first at
`micros() = 1000600`. -/
def RFModule.session (n : Nat) : RFModule :=
  (RFModule.ready.receiveSignal 1000).2.edges ((List.range n).map (fun k => 1000600 + 600 * k))

/-- The space that follows the pulse of bit `i` of `value` in an NEC frame. -/
def necSpace (value i : Nat) : Nat := if value &&& (1 <<< i) ≠ 0 then 1690 else 560

/-- The first `n` bit cells of an NEC field as intervals: a pulse of 546
microseconds (21 carrier periods of 26) and the space of the bit. -/
def necCells (value : Nat) : Nat → List Nat
  | 0 => []
  | i + 1 => necCells value i ++ [546, necSpace value i]

/-- The interval sequence of the NEC frame for an address and a command: lead
pulse (342 carrier periods of 26 microseconds), lead space, 32 bit cells, final
pulse. -/
def necFrame (address command : Nat) : List Nat :=
  [8892, 4500] ++ necCells address 16 ++ necCells command 16 ++ [546]

/-! ## Sequences of calls -/

/-- The infrared module after the `update()` ticks whose clock readings
(`currentTime`, `t1`, `t2`) are `clock`, in order. -/
def IRModule.ticks (m : IRModule) (clock : List (Nat × Nat × Nat)) : IRModule :=
  clock.foldl (fun acc c => (acc.update c.1 c.2.1 c.2.2).1) m

/-- The sub-GHz module after the `update()` ticks whose clock readings
(`currentTime`, `t1`, `t2`) are `clock`, in order. -/
def RFModule.ticks (freqStr : Nat → String) (m : RFModule) (clock : List (Nat × Nat × Nat)) :
    RFModule :=
  clock.foldl (fun acc c => (RFModule.update freqStr acc c.1 c.2.1 c.2.2).1) m

/-! ## Transmission -/

/-- The value of a C `int` expression whose mathematical value is `x`, on the
32-bit two's complement target (an overflowing signed product wraps). -/
def toInt32 (x : Int) : Int := (x + 2 ^ 31) % 2 ^ 32 - 2 ^ 31

/-- The data loop of `IRModule::transmitSony`, after `n` iterations: iteration
`i` sends a carrier pulse of 1200 or 600 microseconds according to
`data & (1 << i)` and waits 600 microseconds. -/
def IRModule.transmitSonyBits (data carrierFreq pulseWidth : Nat) : Nat → List PinEvent
  | 0 => []
  | i + 1 =>
    IRModule.transmitSonyBits data carrierFreq pulseWidth i ++
      (let pulseTime := if data &&& (1 <<< i) ≠ 0 then 1200 else 600
       IRModule.carrier (pulseTime * carrierFreq / 1000000) pulseWidth ++
        [PinEvent.delayMicroseconds 600])

/-- The member `IRModule::transmitSony(data, nbits)`: the return value and what
the call does to the pin. -/
def IRModule.transmitSony (m : IRModule) (data nbits : Nat) : Bool × List PinEvent :=
  if !m.irInitialized then (false, [])
  else
    let carrierFreq := 40000
    let pulseWidth := 1000000 / carrierFreq / 2
    (true,
      IRModule.carrier (2400 * carrierFreq / 1000000) pulseWidth ++
      [PinEvent.delayMicroseconds 600] ++
      IRModule.transmitSonyBits data carrierFreq pulseWidth nbits)

/-- The loop of `IRModule::transmitRaw`, after `n` iterations: an even index
sends `data[i] * frequency / 1000000` carrier periods (`int` arithmetic), an odd
index waits `data[i]` microseconds. -/
def IRModule.transmitRawLoop (data : List Nat) (frequency pulseWidth : Nat) : Nat → List PinEvent
  | 0 => []
  | i + 1 =>
    IRModule.transmitRawLoop data frequency pulseWidth i ++
      (if i % 2 = 0 then
        IRModule.carrier
          ((toInt32 ((data.getD i 0 : Nat) * (frequency : Nat))).tdiv 1000000).toNat pulseWidth
       else [PinEvent.delayMicroseconds (data.getD i 0)])

/-- The member `IRModule::transmitRaw(data, length, frequency)`: `none` when the
call divides by zero (`1000000 / frequency` with `frequency = 0`), else the
return value and what the call does to the pin.  `data` is a pointer into the
free store. -/
def IRModule.transmitRaw (m : IRModule) (data : Option Nat) (length frequency : Nat) :
    Option (Bool × List PinEvent) :=
  match data with
  | none => some (false, [])
  | some p =>
    if !m.irInitialized then some (false, [])
    else if frequency = 0 then none
    else
      let pulseWidth := 1000000 / frequency / 2
      some (true, IRModule.transmitRawLoop (m.heap.getD p []) frequency pulseWidth length)

/-- The member `IRModule::transmitSignal(const IRSignal* signal)`: `none` when
the call divides by zero, else the return value, what the call does to the pin
and the module after the call. -/
def IRModule.transmitSignal (m : IRModule) (signal : Option IRSignal) :
    Option (Bool × List PinEvent × IRModule) :=
  match signal with
  | none => some (false, [], m)
  | some s =>
    if !m.irInitialized then some (false, [], m)
    else
      let m1 := { m with isTransmittingSignal := true }
      let r : Option (Bool × List PinEvent) :=
        match s.protocol with
        | IRProtocol.IR_NEC => some (m1.transmitNEC s.address s.command)
        | IRProtocol.IR_SONY => some (m1.transmitSony s.command 12)
        | IRProtocol.IR_RAW => m1.transmitRaw s.rawData s.rawLength s.frequency
        | _ => some (false, [])
      match r with
      | none => none
      | some (success, trace) => some (success, trace, { m1 with isTransmittingSignal := false })

/-- The preamble loop of `RFModule::transmitASK`: `n` periods, the pin high and
low for half a bit each. -/
def RFModule.transmitASKPreamble (bitDuration : Nat) (n : Nat) : List PinEvent :=
  (List.replicate n
    [PinEvent.digitalWrite RF_TRANSMITTER_PIN true, PinEvent.delayMicroseconds (bitDuration / 2),
     PinEvent.digitalWrite RF_TRANSMITTER_PIN false,
     PinEvent.delayMicroseconds (bitDuration / 2)]).flatten

/-- The data loop of `RFModule::transmitASK` from `i = n - 1` down to 0: a long
pulse for a 1, a short pulse for a 0. -/
def RFModule.transmitASKBits (data bitDuration : Nat) : Nat → List PinEvent
  | 0 => []
  | i + 1 =>
    (if data &&& (1 <<< i) ≠ 0 then
      [PinEvent.digitalWrite RF_TRANSMITTER_PIN true,
       PinEvent.delayMicroseconds (bitDuration * 3 / 4),
       PinEvent.digitalWrite RF_TRANSMITTER_PIN false,
       PinEvent.delayMicroseconds (bitDuration / 4)]
     else
      [PinEvent.digitalWrite RF_TRANSMITTER_PIN true,
       PinEvent.delayMicroseconds (bitDuration / 4),
       PinEvent.digitalWrite RF_TRANSMITTER_PIN false,
       PinEvent.delayMicroseconds (bitDuration * 3 / 4)]) ++
    RFModule.transmitASKBits data bitDuration i

/-- The member `RFModule::transmitASK(data, bits, frequency)`: the return value
and what the call does to the pin. -/
def RFModule.transmitASK (m : RFModule) (data bits _frequency : Nat) : Bool × List PinEvent :=
  if !m.rfInitialized then (false, [])
  else
    let bitDuration := 1000000 / 4800
    (true,
      RFModule.transmitASKPreamble bitDuration 32 ++
      RFModule.transmitASKBits data bitDuration bits ++
      [PinEvent.digitalWrite RF_TRANSMITTER_PIN false])

/-- The data loop of `RFModule::transmitFSK` from `i = n - 1` down to 0: `none`
when an iteration divides by zero (`bitDuration / period` with `period = 0`). -/
def RFModule.transmitFSKBits (data bitDuration highFreqPeriod lowFreqPeriod : Nat) :
    Nat → Option (List PinEvent)
  | 0 => some []
  | i + 1 =>
    let period := if data &&& (1 <<< i) ≠ 0 then highFreqPeriod else lowFreqPeriod
    if period = 0 then none
    else
      let cycles := bitDuration / period
      match RFModule.transmitFSKBits data bitDuration highFreqPeriod lowFreqPeriod i with
      | none => none
      | some rest =>
        some ((List.replicate cycles
          [PinEvent.digitalWrite RF_TRANSMITTER_PIN true, PinEvent.delayMicroseconds (period / 2),
           PinEvent.digitalWrite RF_TRANSMITTER_PIN false,
           PinEvent.delayMicroseconds (period / 2)]).flatten ++ rest)

/-- The member `RFModule::transmitFSK(data, bits, frequency)`: `none` when the
call divides by zero, else the return value and what the call does to the pin.
`frequency + 10000` and `frequency - 10000` are 32-bit unsigned. -/
def RFModule.transmitFSK (m : RFModule) (data bits frequency : Nat) :
    Option (Bool × List PinEvent) :=
  if !m.rfInitialized then some (false, [])
  else
    let bitDuration := 1000000 / 4800
    if (frequency + 10000) % 2 ^ 32 = 0 then none
    else
      let highFreqPeriod := 1000000 / ((frequency + 10000) % 2 ^ 32)
      if usub32 frequency 10000 = 0 then none
      else
        let lowFreqPeriod := 1000000 / usub32 frequency 10000
        match RFModule.transmitFSKBits data bitDuration highFreqPeriod lowFreqPeriod bits with
        | none => none
        | some trace => some (true, trace)

/-- The bit loop of `RFModule::transmitRaw` for one byte, from `bit = n - 1` down
to 0: the pin follows the bit and stays 208 microseconds. -/
def RFModule.transmitRawByte (byte : Nat) : Nat → List PinEvent
  | 0 => []
  | bit + 1 =>
    [PinEvent.digitalWrite RF_TRANSMITTER_PIN (decide (byte &&& (1 <<< bit) ≠ 0)),
     PinEvent.delayMicroseconds 208] ++ RFModule.transmitRawByte byte bit

/-- The byte loop of `RFModule::transmitRaw`, after `n` iterations. -/
def RFModule.transmitRawLoop (data : List Nat) : Nat → List PinEvent
  | 0 => []
  | i + 1 => RFModule.transmitRawLoop data i ++ RFModule.transmitRawByte (data.getD i 0) 8

/-- The member `RFModule::transmitRaw(data, length, frequency)`: the return value
and what the call does to the pin.  `data` is a pointer into the free store. -/
def RFModule.transmitRaw (m : RFModule) (data : Option Nat) (length _frequency : Nat) :
    Bool × List PinEvent :=
  match data with
  | none => (false, [])
  | some p =>
    if !m.rfInitialized then (false, [])
    else
      (true, RFModule.transmitRawLoop (m.heap.getD p []) length ++
        [PinEvent.digitalWrite RF_TRANSMITTER_PIN false])

/-- The member `RFModule::transmitSignal(const RFSignal* signal)`: `none` when
the call divides by zero, else the return value, what the call does to the pin
and the module after the call. -/
def RFModule.transmitSignal (m : RFModule) (signal : Option RFSignal) :
    Option (Bool × List PinEvent × RFModule) :=
  match signal with
  | none => some (false, [], m)
  | some s =>
    if !m.rfInitialized then some (false, [], m)
    else
      let m1 := ({ m with isTransmittingSignal := true }).setFrequency s.frequency
      let r : Option (Bool × List PinEvent) :=
        match s.protocol with
        | RFProtocol.RF_ASK_OOK => some (m1.transmitASK s.data 32 s.frequency)
        | RFProtocol.RF_FSK => m1.transmitFSK s.data 32 s.frequency
        | RFProtocol.RF_RAW => some (m1.transmitRaw s.rawData s.rawLength s.frequency)
        | _ => some (false, [])
      match r with
      | none => none
      | some (success, trace) => some (success, trace, { m1 with isTransmittingSignal := false })

/-- Whether a pin trace drives a pin high. -/
def drivesHigh (trace : List PinEvent) : Bool :=
  trace.any (fun e => match e with
    | PinEvent.digitalWrite _ level => level
    | PinEvent.delayMicroseconds _ => false)

/-! ## Runs of the infrared module -/

/-- A call made on the infrared module from outside: `init()`,
`receiveSignal()`, an edge interrupt, an `update()` tick, `clearHistory()`, or
`decodeSignal(&signal)` on a record of the caller. -/
inductive IROp where
  | init
  | receiveSignal (now : Nat)
  | edge (now : Nat)
  | update (currentTime t1 t2 : Nat)
  | clearHistory
  | decodeSignal (signal : IRSignal) (t1 t2 : Nat)
  deriving DecidableEq, Repr

/-- The infrared module after one call. -/
def IRModule.step (m : IRModule) : IROp → IRModule
  | IROp.init => (m.init).2
  | IROp.receiveSignal now => (m.receiveSignal now).2
  | IROp.edge now => m.irInterruptHandler now
  | IROp.update currentTime t1 t2 => (m.update currentTime t1 t2).1
  | IROp.clearHistory => m.clearHistory
  | IROp.decodeSignal signal t1 t2 => (m.decodeSignal (some signal) t1 t2).2.2

/-- The member functions one call makes through `update()`. -/
def IRModule.stepCalls (m : IRModule) : IROp → List Call
  | IROp.update currentTime t1 t2 => (m.update currentTime t1 t2).2
  | _ => []

/-- The infrared module after the calls `ops`, in order. -/
def IRModule.run (m : IRModule) (ops : List IROp) : IRModule := ops.foldl IRModule.step m

/-- The number of `addToHistory` calls made while the calls `ops` run from `m`. -/
def IRModule.pushes (m : IRModule) : List IROp → Nat
  | [] => 0
  | op :: rest =>
    (if Call.addToHistory ∈ m.stepCalls op then 1 else 0) + IRModule.pushes (m.step op) rest

/-- A signal tagged Raw points at an array of `rawLength` entries in the free
store of `m`. -/
def IRModule.RawHasPayload (m : IRModule) (x : IRSignal) : Prop :=
  x.protocol = IRProtocol.IR_RAW →
    ∃ p payload, x.rawData = some p ∧ m.heap[p]? = some payload ∧ payload.length = x.rawLength

/-- The `micros()` readings of the edges that follow the reading `start` at the
distances `gaps`. -/
def edgeTimes (start : Nat) : List Nat → List Nat
  | [] => []
  | gap :: rest => (start + gap) :: edgeTimes (start + gap) rest

/-- Two capture sessions from construction: `init()`, `receiveSignal()` at
`millis() = 1000`, eleven edges 600 microseconds apart and the tick that ends
the session; then `receiveSignal()` at `millis() = 2000`, the 68 edges that
store the NEC frame for address `0x00FF` and command `0x10EF` and one further
pulse, and the tick that ends that session. -/
def IRModule.rawThenKeyed : List IROp :=
  [IROp.init, IROp.receiveSignal 1000] ++
  (List.range 11).map (fun k => IROp.edge (1000600 + 600 * k)) ++
  [IROp.update 1300 1300 1300, IROp.receiveSignal 2000] ++
  (edgeTimes 2033616 (necFrame 0x00FF 0x10EF ++ [546])).map IROp.edge ++
  [IROp.update 2300 2300 2300]

/-- The signal `s` is the entry of the ring that `k` later pushes followed, and
all three history fields are in range. -/
def HistoryRing.Keeps {σ : Type} (r : HistoryRing σ) (s : σ) (k : Nat) : Prop :=
  r.slots.length = 50 ∧ (0 ≤ r.cursor ∧ r.cursor < 50) ∧ ((k : Int) < r.count ∧ r.count ≤ 50) ∧
    r.slots[((r.cursor + 49 - (k : Int)) % 50).toNat]? = some s

/-- A capture session on an initialised module: `receiveSignal()` at
`millis() = 2000`, twelve edges 700 microseconds apart, and the tick that ends
the session. -/
def IRModule.secondRaw : List IROp :=
  [IROp.receiveSignal 2000] ++
  (List.range 12).map (fun k => IROp.edge (2000700 + 700 * k)) ++
  [IROp.update 2300 2300 2300]

/-- The invariant of the runs: every physical slot of the history and the
current signal, when tagged Raw, point at their payload. -/
def IRModule.PayloadInv (m : IRModule) : Prop :=
  (∀ x, x ∈ m.history → m.RawHasPayload x) ∧ m.RawHasPayload m.currentSignal

/-! ## Pin traces as waveforms -/

/-- The sum of the delays programmed in a pin trace, in microseconds. -/
def totalDelay : List PinEvent → Nat
  | [] => 0
  | PinEvent.digitalWrite _ _ :: rest => totalDelay rest
  | PinEvent.delayMicroseconds us :: rest => us + totalDelay rest

/-- The level the last `digitalWrite` of a pin trace leaves on the pin, if the
trace writes the pin at all. -/
def finalLevel (trace : List PinEvent) : Option Bool :=
  trace.foldl (fun acc e => match e with
    | PinEvent.digitalWrite _ level => some level
    | PinEvent.delayMicroseconds _ => acc) none

/-- The waveform of a pin trace: the maximal runs of constant level that last
longer than zero, each with its level and its duration in microseconds.
`level` is the level of the pin so far and `held` the time it has been held. -/
def waveformFrom (level : Bool) (held : Nat) : List PinEvent → List (Bool × Nat)
  | [] => if held = 0 then [] else [(level, held)]
  | PinEvent.digitalWrite _ l :: rest =>
    if l = level then waveformFrom level held rest
    else (if held = 0 then [] else [(level, held)]) ++ waveformFrom l 0 rest
  | PinEvent.delayMicroseconds us :: rest => waveformFrom level (held + us) rest

/-- The waveform of a pin trace that starts with the pin low, where `init()`
leaves it. -/
def waveform (trace : List PinEvent) : List (Bool × Nat) := waveformFrom false 0 trace

/-! ## Raw replay and the NEC frame, as the specification words them -/

/-- Verbatim replay of the intervals `d` from position `i` on, as the
specification words it: interval `i` holds the pin on when `i` is even and off
when `i` is odd, for `unit` microseconds per stored count; the pin is left low. -/
def replayVerbatimFrom (pin unit : Nat) (i : Nat) : List Nat → List PinEvent
  | [] => [PinEvent.digitalWrite pin false]
  | d :: rest =>
    PinEvent.digitalWrite pin (decide (i % 2 = 0)) :: PinEvent.delayMicroseconds (unit * d) ::
      replayVerbatimFrom pin unit (i + 1) rest

/-- One period of a carrier as the specification words it: the pin is switched
on and held for the half-period, then switched off and held for the
half-period. -/
def carrierPeriod (pin halfPeriod : Nat) : List PinEvent :=
  [PinEvent.digitalWrite pin true, PinEvent.delayMicroseconds halfPeriod,
   PinEvent.digitalWrite pin false, PinEvent.delayMicroseconds halfPeriod]

/-- A carrier-modulated pulse as the specification words it: the pin toggled
at the half-period for the given number of carrier periods. -/
def carrierPulse (pin halfPeriod : Nat) : Nat → List PinEvent
  | 0 => []
  | periods + 1 => carrierPeriod pin halfPeriod ++ carrierPulse pin halfPeriod periods

/-- One bit cell of an NEC frame as the specification words it: the carrier
pulse `pulse` and a space of 1690 microseconds for a 1, of 560 for a 0. -/
def necCellTrace (pulse : List PinEvent) (bit : Bool) : List PinEvent :=
  pulse ++ [PinEvent.delayMicroseconds (if bit then 1690 else 560)]

/-- The NEC frame as the specification words it: the lead pulse `lead`, the
lead space of 4500 microseconds, the cells of bits 0..15 of the address, the
cells of bits 0..15 of the command, and a final pulse, every cell and the final
pulse with the carrier pulse `pulse`. -/
def necFrameTrace (lead pulse : List PinEvent) (address command : Nat) : List PinEvent :=
  lead ++ [PinEvent.delayMicroseconds 4500] ++
  ((List.range 16).map (fun i => necCellTrace pulse (address.testBit i))).flatten ++
  ((List.range 16).map (fun i => necCellTrace pulse (command.testBit i))).flatten ++
  pulse

/-! ## Further sequences of calls -/

/-- Two capture sessions from construction, the keyed one first: `init()`,
`receiveSignal()` at `millis() = 1000`, the 68 edges that store the NEC frame
for address `0x00FF` and command `0x10EF` and one further pulse, and the tick
that ends the session; then `receiveSignal()` at `millis() = 2000` and eleven
edges 600 microseconds apart.  The tick that ends the second session is not
included. -/
def IRModule.keyedThenRaw : List IROp :=
  [IROp.init, IROp.receiveSignal 1000] ++
  (edgeTimes 1049576 (necFrame 0x00FF 0x10EF ++ [546])).map IROp.edge ++
  [IROp.update 1300 1300 1300, IROp.receiveSignal 2000] ++
  (List.range 11).map (fun k => IROp.edge (2000600 + 600 * k))

/-! ## Calls from outside, transmissions included -/

/-- A call on the infrared module that can assign a member of it: a public
member function or an edge interrupt.  The other public members assign no
member: the getters, `transmitNEC`, `transmitSony` and `transmitRaw`, which only
drive the pin, and `saveSignal`, `loadSignal` and `deleteSignal`, which only
talk to the storage manager and the record of the caller. -/
inductive IRCall where
  | init
  | receiveSignal (now : Nat)
  | edge (now : Nat)
  | update (currentTime t1 t2 : Nat)
  | clearHistory
  | decodeSignal (signal : Option IRSignal) (t1 t2 : Nat)
  | addToHistory (signal : Option IRSignal)
  | transmitSignal (signal : Option IRSignal)
  deriving DecidableEq, Repr

/-- The infrared module after one call; `none` when the call divides by zero
and does not return. -/
def IRModule.call (m : IRModule) : IRCall → Option IRModule
  | IRCall.init => some (m.init).2
  | IRCall.receiveSignal now => some (m.receiveSignal now).2
  | IRCall.edge now => some (m.irInterruptHandler now)
  | IRCall.update currentTime t1 t2 => some (m.update currentTime t1 t2).1
  | IRCall.clearHistory => some m.clearHistory
  | IRCall.decodeSignal signal t1 t2 => some (m.decodeSignal signal t1 t2).2.2
  | IRCall.addToHistory signal => some (m.addToHistory signal)
  | IRCall.transmitSignal signal => (m.transmitSignal signal).map (fun r => r.2.2)

/-- The infrared module after the calls `cs`, in order; `none` when one of them
does not return. -/
def IRModule.calls (m : IRModule) : List IRCall → Option IRModule
  | [] => some m
  | c :: rest => (m.call c).bind (fun m1 => IRModule.calls m1 rest)

/-- A call on the sub-GHz module that can assign a member of it: a public
member function or an edge interrupt.  The other public members assign no
member: the getters, `transmitASK`, `transmitFSK` and `transmitRaw`, which only
drive the pin, and `saveSignal`, `loadSignal` and `deleteSignal`. -/
inductive RFCall where
  | init
  | receiveSignal (now : Nat)
  | edge (now : Nat)
  | update (currentTime t1 t2 : Nat)
  | clearHistory
  | decodeSignal (signal : Option RFSignal) (t1 t2 : Nat)
  | addToHistory (signal : Option RFSignal)
  | transmitSignal (signal : Option RFSignal)
  | startFrequencyScan (startFreq endFreq now : Nat)
  | stopFrequencyScan
  deriving DecidableEq, Repr

/-- The sub-GHz module after one call; `none` when the call divides by zero and
does not return. -/
def RFModule.call (freqStr : Nat → String) (m : RFModule) : RFCall → Option RFModule
  | RFCall.init => some (m.init).2
  | RFCall.receiveSignal now => some (m.receiveSignal now).2
  | RFCall.edge now => some (m.rfInterruptHandler now)
  | RFCall.update currentTime t1 t2 => some (RFModule.update freqStr m currentTime t1 t2).1
  | RFCall.clearHistory => some m.clearHistory
  | RFCall.decodeSignal signal t1 t2 => some (RFModule.decodeSignal freqStr m signal t1 t2).2.2
  | RFCall.addToHistory signal => some (m.addToHistory signal)
  | RFCall.transmitSignal signal => (m.transmitSignal signal).map (fun r => r.2.2)
  | RFCall.startFrequencyScan startFreq endFreq now =>
    some (m.startFrequencyScan startFreq endFreq now)
  | RFCall.stopFrequencyScan => some m.stopFrequencyScan

/-- The sub-GHz module after the calls `cs`, in order; `none` when one of them
does not return. -/
def RFModule.calls (freqStr : Nat → String) (m : RFModule) : List RFCall → Option RFModule
  | [] => some m
  | c :: rest => (RFModule.call freqStr m c).bind (fun m1 => RFModule.calls freqStr m1 rest)


/-! ## Theorems -/

/-! ### History ring -/

theorem HistoryRing.holds_push {σ : Type} (r : HistoryRing σ) (l : List σ) (s : σ)
    (h : r.Holds l) : (r.push s).Holds (l ++ [s]) := by
  obtain ⟨hlen, hcount, hcur, hslots⟩ := h
  refine ⟨?_, ?_, ?_, ?_⟩
  · simp [HistoryRing.push, hlen]
  · simp only [HistoryRing.push, hcount, List.length_append, List.length_singleton]
    split <;> omega
  · simp only [HistoryRing.push, hcur, List.length_append, List.length_singleton]
    rw [Int.tmod_eq_emod (by omega) (by omega)]
    omega
  · intro k hk hk50
    simp only [List.length_append, List.length_singleton] at hk hk50
    simp only [HistoryRing.push, hcur, Int.toNat_ofNat]
    rw [List.getElem?_set]
    by_cases hkn : k = l.length
    · subst hkn
      have : l.length % 50 < r.slots.length := by omega
      simp [this]
    · have hne : l.length % 50 ≠ k % 50 := by omega
      rw [if_neg hne, hslots k (by omega) (by omega)]
      rw [List.getElem?_append_left (by omega)]

theorem HistoryRing.holds_foldl {σ : Type} (l2 : List σ) (r : HistoryRing σ) (l1 : List σ)
    (h : r.Holds l1) : (l2.foldl HistoryRing.push r).Holds (l1 ++ l2) := by
  induction l2 generalizing r l1 with
  | nil => simpa using h
  | cons s rest ih =>
    have := ih (r.push s) (l1 ++ [s]) (HistoryRing.holds_push r l1 s h)
    simpa using this

theorem HistoryRing.get_of_holds {σ : Type} (r : HistoryRing σ) (l : List σ) (zero : σ)
    (h : r.Holds l) (i : Nat) (hi : i < min l.length 50) :
    some (r.get zero (i : Int)) = l[l.length - min l.length 50 + i]? := by
  obtain ⟨hlen, hcount, hcur, hslots⟩ := h
  have hk := hslots (l.length - min l.length 50 + i) (by omega) (by omega)
  have hidx : ((r.cursor - r.count + (i : Int) + 50).tmod 50).toNat
      = (l.length - min l.length 50 + i) % 50 := by
    rw [Int.tmod_eq_emod (by omega) (by omega), hcur, hcount]
    omega
  have hlt : (l.length - min l.length 50 + i) % 50 < r.slots.length := by omega
  unfold HistoryRing.get
  rw [if_pos (by omega), hidx, ← hk, List.getD_eq_getElem?_getD, List.getElem?_eq_getElem hlt]
  rfl

theorem IRModule.ir_ring_addAllToHistory (sigs : List IRSignal) (m : IRModule) :
    (m.addAllToHistory sigs).ring = sigs.foldl HistoryRing.push m.ring := by
  induction sigs generalizing m with
  | nil => rfl
  | cons s rest ih => exact ih (m.addToHistory (some s))

theorem RFModule.rf_ring_addAllToHistory (sigs : List RFSignal) (m : RFModule) :
    (m.addAllToHistory sigs).ring = sigs.foldl HistoryRing.push m.ring := by
  induction sigs generalizing m with
  | nil => rfl
  | cons s rest ih => exact ih (m.addToHistory (some s))

theorem HistoryRing.holds_of_empty {σ : Type} (r : HistoryRing σ) (hlen : r.slots.length = 50)
    (hcount : r.count = 0) (hcur : r.cursor = 0) : r.Holds [] :=
  ⟨hlen, by simp [hcount], by simp [hcur], by intro k hk; simp at hk⟩

theorem IRModule.ir_holds_addAllToHistory (m : IRModule) (hlen : m.history.length = 50)
    (hcount : m.historyCount = 0) (hcur : m.historyIndex = 0) (sigs : List IRSignal) :
    (m.addAllToHistory sigs).ring.Holds sigs := by
  rw [IRModule.ir_ring_addAllToHistory]
  simpa using HistoryRing.holds_foldl sigs m.ring [] (HistoryRing.holds_of_empty _ hlen hcount hcur)

theorem RFModule.rf_holds_addAllToHistory (m : RFModule) (hlen : m.history.length = 50)
    (hcount : m.historyCount = 0) (hcur : m.historyIndex = 0) (sigs : List RFSignal) :
    (m.addAllToHistory sigs).ring.Holds sigs := by
  rw [RFModule.rf_ring_addAllToHistory]
  simpa using HistoryRing.holds_foldl sigs m.ring [] (HistoryRing.holds_of_empty _ hlen hcount hcur)

/-- C1. History ring FIFO semantics, for the infrared and the sub-GHz ring:
after `addToHistory` of the signals `s_1 .. s_n` into the ring of a freshly
constructed module, `getHistoryCount()` is `min n 50` and, for every
`i < min n 50`, `getHistoryItem(i)` is the signal pushed at (0-based) position
`n - min n 50 + i`: the retained signals, oldest first. -/
theorem C1_history_ring_fifo (irs : List IRSignal) (rfs : List RFSignal) :
    ((IRModule.new.addAllToHistory irs).getHistoryCount = ((min irs.length 50 : Nat) : Int) ∧
      ∀ i : Nat, i < min irs.length 50 →
        some ((IRModule.new.addAllToHistory irs).getHistoryItem (i : Int))
          = irs[irs.length - min irs.length 50 + i]?) ∧
    ((RFModule.new.addAllToHistory rfs).getHistoryCount = ((min rfs.length 50 : Nat) : Int) ∧
      ∀ i : Nat, i < min rfs.length 50 →
        some ((RFModule.new.addAllToHistory rfs).getHistoryItem (i : Int))
          = rfs[rfs.length - min rfs.length 50 + i]?) := by
  have hi := IRModule.ir_holds_addAllToHistory IRModule.new rfl rfl rfl irs
  have hr := RFModule.rf_holds_addAllToHistory RFModule.new rfl rfl rfl rfs
  refine ⟨⟨?_, ?_⟩, ⟨?_, ?_⟩⟩
  · exact hi.2.1
  · intro i hlt
    exact HistoryRing.get_of_holds _ irs IRSignal.zero hi i hlt
  · exact hr.2.1
  · intro i hlt
    exact HistoryRing.get_of_holds _ rfs RFSignal.zero hr i hlt

/-- C1 at 51 pushes: the signals numbered `0 .. 50` by their command (infrared)
or payload (sub-GHz) are pushed; the count is 50 and `getHistoryItem(0)` is the
second signal pushed, the one numbered 1. -/
theorem C1_history_ring_fifo_witness :
    (IRModule.new.addAllToHistory
        ((List.range 51).map (fun k => { IRSignal.zero with command := k }))).getHistoryCount = 50 ∧
    (IRModule.new.addAllToHistory
        ((List.range 51).map (fun k => { IRSignal.zero with command := k }))).getHistoryItem 0
      = { IRSignal.zero with command := 1 } ∧
    (RFModule.new.addAllToHistory
        ((List.range 51).map (fun k => { RFSignal.zero with data := k }))).getHistoryCount = 50 ∧
    (RFModule.new.addAllToHistory
        ((List.range 51).map (fun k => { RFSignal.zero with data := k }))).getHistoryItem 0
      = { RFSignal.zero with data := 1 } := by
  have h := C1_history_ring_fifo
    ((List.range 51).map (fun k => { IRSignal.zero with command := k }))
    ((List.range 51).map (fun k => { RFSignal.zero with data := k }))
  obtain ⟨⟨hc, hg⟩, ⟨hc2, hg2⟩⟩ := h
  have e1 := hg 0 (by simp)
  have e2 := hg2 0 (by simp)
  simp only [List.length_map, List.length_range] at hc hc2 e1 e2
  refine ⟨by simpa using hc, ?_, by simpa using hc2, ?_⟩
  · have : (List.map (fun k => { IRSignal.zero with command := k }) (List.range 51))[1]?
        = some { IRSignal.zero with command := 1 } := by
      simp
    simpa [this] using e1
  · have : (List.map (fun k => { RFSignal.zero with data := k }) (List.range 51))[1]?
        = some { RFSignal.zero with data := 1 } := by
      simp
    simpa [this] using e2

/-! ### The NEC decoder -/

theorem IRModule.decodeNECBits_isSome (m : IRModule) (base n : Nat) :
    (m.decodeNECBits base n).isSome = true ↔
      ∀ i, i < n → base + i * 2 + 1 < m.rawIndex ∧
        400 ≤ m.rawBuffer.getD (base + i * 2) 0 ∧ m.rawBuffer.getD (base + i * 2) 0 ≤ 700 := by
  induction n with
  | zero => simp [IRModule.decodeNECBits]
  | succ n ih =>
    rw [IRModule.decodeNECBits]
    constructor
    · intro h i hi
      cases hrec : m.decodeNECBits base n with
      | none => simp [hrec] at h
      | some field =>
        have hprev := ih.mp (by simp [hrec])
        by_cases hin : i = n
        · subst hin
          simp only [hrec] at h
          split at h
          · simp at h
          · split at h
            · simp at h
            · omega
        · exact hprev i (by omega)
    · intro h
      have hprev := ih.mpr (fun i hi => h i (by omega))
      obtain ⟨field, hfield⟩ := Option.isSome_iff_exists.mp hprev
      have hn := h n (by omega)
      simp only [hfield]
      rw [if_neg (by omega), if_neg (by omega)]
      split <;> rfl

theorem IRModule.decodeNECBits_testBit (m : IRModule) (base n v : Nat)
    (h : m.decodeNECBits base n = some v) (j : Nat) :
    v.testBit j = decide (j < n ∧ m.rawBuffer.getD (base + j * 2 + 1) 0 > 1200) := by
  induction n generalizing v with
  | zero =>
    simp only [IRModule.decodeNECBits, Option.some.injEq] at h
    subst h
    simp
  | succ n ih =>
    rw [IRModule.decodeNECBits] at h
    cases hrec : m.decodeNECBits base n with
    | none => simp [hrec] at h
    | some field =>
      have hf := ih field hrec
      simp only [hrec] at h
      split at h
      · simp at h
      · split at h
        · simp at h
        · split at h
          · rename_i hbit
            simp only [Option.some.injEq] at h
            subst h
            rw [Nat.testBit_lor, hf, Nat.one_shiftLeft, Nat.testBit_two_pow]
            by_cases hjn : j = n
            · subst hjn
              simpa using hbit
            · have : ¬ n = j := fun e => hjn e.symm
              simp only [this, decide_False, Bool.or_false]
              congr 1
              apply propext
              constructor
              · rintro ⟨h1, h2⟩
                exact ⟨by omega, h2⟩
              · rintro ⟨h1, h2⟩
                exact ⟨by omega, h2⟩
          · rename_i hbit
            simp only [Option.some.injEq] at h
            subst h
            rw [hf]
            by_cases hjn : j = n
            · subst hjn
              simpa using hbit
            · congr 1
              apply propext
              constructor
              · rintro ⟨h1, h2⟩
                exact ⟨by omega, h2⟩
              · rintro ⟨h1, h2⟩
                exact ⟨by omega, h2⟩

theorem IRModule.decodeNECBits_lt (m : IRModule) (base n v : Nat)
    (h : m.decodeNECBits base n = some v) : v < 2 ^ n := by
  apply Nat.lt_pow_two_of_testBit
  intro i hi
  rw [IRModule.decodeNECBits_testBit m base n v h i]
  simp
  omega

theorem IRModule.decodeNEC_eq (m : IRModule) (signal : IRSignal) (now : Nat) :
    (m.necFraming ∧ ∃ address command,
        m.decodeNECBits 2 16 = some address ∧ m.decodeNECBits 34 16 = some command ∧
        m.decodeNEC signal now =
          (true, { signal with
                   address := address
                   command := command
                   frequency := 38000
                   name := IRModule.generateSignalName IRProtocol.IR_NEC command now
                   timestamp := now })) ∨
    (¬ m.necFraming ∧ m.decodeNEC signal now = (false, signal)) := by
  unfold IRModule.necFraming
  by_cases h68 : m.rawIndex < 68
  · right
    exact ⟨by omega, by simp [IRModule.decodeNEC, h68]⟩
  by_cases h0 : m.rawBuffer.getD 0 0 < 8000 ∨ m.rawBuffer.getD 0 0 > 10000
  · right
    exact ⟨by omega, by simp only [IRModule.decodeNEC, h68, h0]; simp⟩
  by_cases h1 : m.rawBuffer.getD 1 0 < 4000 ∨ m.rawBuffer.getD 1 0 > 5000
  · right
    exact ⟨by omega, by simp only [IRModule.decodeNEC, h68, h0, h1]; simp⟩
  cases ha : m.decodeNECBits 2 16 with
  | none =>
    right
    refine ⟨?_, by simp only [IRModule.decodeNEC, h68, h0, h1, ha]; simp⟩
    rintro ⟨_, _, _, hk⟩
    have : (m.decodeNECBits 2 16).isSome = true := by
      rw [IRModule.decodeNECBits_isSome]
      intro i hi
      have := hk i (by omega)
      refine ⟨by omega, ?_, ?_⟩
      · rw [show 2 + i * 2 = 2 + 2 * i by omega]; exact this.1
      · rw [show 2 + i * 2 = 2 + 2 * i by omega]; exact this.2
    simp [ha] at this
  | some address =>
    cases hc : m.decodeNECBits 34 16 with
    | none =>
      right
      refine ⟨?_, by simp only [IRModule.decodeNEC, h68, h0, h1, ha, hc]; simp⟩
      rintro ⟨_, _, _, hk⟩
      have : (m.decodeNECBits 34 16).isSome = true := by
        rw [IRModule.decodeNECBits_isSome]
        intro i hi
        have := hk (16 + i) (by omega)
        refine ⟨by omega, ?_, ?_⟩
        · rw [show 34 + i * 2 = 2 + 2 * (16 + i) by omega]; exact this.1
        · rw [show 34 + i * 2 = 2 + 2 * (16 + i) by omega]; exact this.2
      simp [hc] at this
    | some command =>
      left
      refine ⟨⟨by omega, by omega, by omega, ?_⟩, address, command, rfl, rfl, ?_⟩
      · intro k hk
        have hA := (IRModule.decodeNECBits_isSome m 2 16).mp (by simp [ha])
        have hC := (IRModule.decodeNECBits_isSome m 34 16).mp (by simp [hc])
        by_cases hk16 : k < 16
        · have := hA k hk16
          rw [show 2 + k * 2 = 2 + 2 * k by omega] at this
          exact this.2
        · have := hC (k - 16) (by omega)
          rw [show 34 + (k - 16) * 2 = 2 + 2 * k by omega] at this
          exact this.2
      · simp only [IRModule.decodeNEC, h68, h0, h1, ha, hc]
        simp

/-- C3. NEC acceptance: `decodeNEC` succeeds if and only if `rawIndex >= 68`,
`8000 <= buf[0] <= 10000`, `4000 <= buf[1] <= 5000` and
`400 <= buf[2+2k] <= 700` for every bit position `k < 32`; on failure the
output signal is left unchanged. -/
theorem C3_decodeNEC_accepts_iff (m : IRModule) (signal : IRSignal) (now : Nat) :
    ((m.decodeNEC signal now).1 = true ↔
      (68 ≤ m.rawIndex ∧
       (8000 ≤ m.rawBuffer.getD 0 0 ∧ m.rawBuffer.getD 0 0 ≤ 10000) ∧
       (4000 ≤ m.rawBuffer.getD 1 0 ∧ m.rawBuffer.getD 1 0 ≤ 5000) ∧
       ∀ k, k < 32 →
         400 ≤ m.rawBuffer.getD (2 + 2 * k) 0 ∧ m.rawBuffer.getD (2 + 2 * k) 0 ≤ 700)) ∧
    ((m.decodeNEC signal now).1 = false → (m.decodeNEC signal now).2 = signal) := by
  rcases IRModule.decodeNEC_eq m signal now with ⟨hf, a, c, _, _, he⟩ | ⟨hf, he⟩
  · rw [he]
    exact ⟨⟨fun _ => hf, fun _ => rfl⟩, fun h => by simp at h⟩
  · rw [he]
    exact ⟨⟨fun h => by simp at h, fun h => absurd h hf⟩, fun _ => rfl⟩

set_option maxRecDepth 100000 in
/-- C3 at the frame sent for address `0x00FF` and command `0x10EF` followed by
one further entry (68 entries): the framing conditions hold and the decoder
accepts it. -/
theorem C3_decodeNEC_accepts_iff_witness :
    ((IRModule.ready.withCapture
        (intervals (IRModule.ready.transmitNEC 0x00FF 0x10EF).2 ++ [0])).decodeNEC
          IRSignal.zero 0).1 = true :=
  (C3_decodeNEC_accepts_iff _ IRSignal.zero 0).1.mpr (by decide)

/-- C4. NEC bit extraction: whenever `decodeNEC` succeeds, bit `i` of the
address (`i < 16`) is 1 exactly when the space `buf[3+2i]` exceeds 1200 and bit
`i` of the command is 1 exactly when the space `buf[35+2i]` exceeds 1200;
address and command are below `2^16` and the carrier frequency is 38000. -/
theorem C4_decodeNEC_bits (m : IRModule) (signal : IRSignal) (now : Nat)
    (h : (m.decodeNEC signal now).1 = true) :
    (∀ i, i < 16 → (m.decodeNEC signal now).2.address.testBit i
        = decide (m.rawBuffer.getD (3 + 2 * i) 0 > 1200)) ∧
    (∀ i, i < 16 → (m.decodeNEC signal now).2.command.testBit i
        = decide (m.rawBuffer.getD (35 + 2 * i) 0 > 1200)) ∧
    (m.decodeNEC signal now).2.address < 2 ^ 16 ∧
    (m.decodeNEC signal now).2.command < 2 ^ 16 ∧
    (m.decodeNEC signal now).2.frequency = 38000 := by
  rcases IRModule.decodeNEC_eq m signal now with ⟨_, a, c, ha, hc, he⟩ | ⟨_, he⟩
  · rw [he]
    refine ⟨?_, ?_, IRModule.decodeNECBits_lt m 2 16 a ha,
      IRModule.decodeNECBits_lt m 34 16 c hc, rfl⟩
    · intro i hi
      show a.testBit i = _
      rw [IRModule.decodeNECBits_testBit m 2 16 a ha i,
        show 2 + i * 2 + 1 = 3 + 2 * i by omega]
      simp [hi]
    · intro i hi
      show c.testBit i = _
      rw [IRModule.decodeNECBits_testBit m 34 16 c hc i,
        show 34 + i * 2 + 1 = 35 + 2 * i by omega]
      simp [hi]
  · rw [he] at h
    simp at h

set_option maxRecDepth 100000 in
/-- C4 at the frame sent for address `0x00FF` and command `0x10EF`, followed by
one further entry: the decoder accepts it and the theorem applies. -/
theorem C4_decodeNEC_bits_witness :
    ((IRModule.ready.withCapture
        (intervals (IRModule.ready.transmitNEC 0x00FF 0x10EF).2 ++ [0])).decodeNEC
          IRSignal.zero 0).1 = true ∧
    ((IRModule.ready.withCapture
        (intervals (IRModule.ready.transmitNEC 0x00FF 0x10EF).2 ++ [0])).decodeNEC
          IRSignal.zero 0).2.address < 2 ^ 16 ∧
    ((IRModule.ready.withCapture
        (intervals (IRModule.ready.transmitNEC 0x00FF 0x10EF).2 ++ [0])).decodeNEC
          IRSignal.zero 0).2.frequency = 38000 :=
  ⟨by decide,
   (C4_decodeNEC_bits _ IRSignal.zero 0 (by decide)).2.2.1,
   (C4_decodeNEC_bits _ IRSignal.zero 0 (by decide)).2.2.2.2⟩

/-! ### The NEC frame sent by `transmitNEC`, for every address and command -/

theorem intervalsFrom_cycle (pw : Nat) (pulse : Option Nat) (afterWrite : Bool)
    (rest : List PinEvent) :
    intervalsFrom pulse afterWrite
        (PinEvent.digitalWrite IR_LED_PIN true :: PinEvent.delayMicroseconds pw ::
          PinEvent.digitalWrite IR_LED_PIN false :: PinEvent.delayMicroseconds pw :: rest)
      = intervalsFrom (some (pulse.getD 0 + pw + pw)) false rest := by
  simp [intervalsFrom]

theorem carrier_succ (n pw : Nat) (rest : List PinEvent) :
    IRModule.carrier (n + 1) pw ++ rest
      = PinEvent.digitalWrite IR_LED_PIN true :: PinEvent.delayMicroseconds pw ::
        PinEvent.digitalWrite IR_LED_PIN false :: PinEvent.delayMicroseconds pw ::
        (IRModule.carrier n pw ++ rest) := by
  simp [IRModule.carrier, List.replicate_succ]

theorem intervalsFrom_carrier (n pw : Nat) :
    ∀ (pulse : Option Nat) (afterWrite : Bool) (rest : List PinEvent),
      intervalsFrom pulse afterWrite (IRModule.carrier (n + 1) pw ++ rest)
        = intervalsFrom (some (pulse.getD 0 + (n + 1) * (pw + pw))) false rest := by
  induction n with
  | zero =>
    intro pulse afterWrite rest
    rw [carrier_succ, intervalsFrom_cycle]
    have : IRModule.carrier 0 pw ++ rest = rest := by simp [IRModule.carrier]
    rw [this]
    congr 2
    ring
  | succ n ih =>
    intro pulse afterWrite rest
    rw [carrier_succ, intervalsFrom_cycle, ih]
    simp only [Option.getD_some]
    congr 2
    ring

theorem intervalsFrom_cell (n pw us : Nat) (rest : List PinEvent) :
    intervalsFrom none false
        (IRModule.carrier (n + 1) pw ++ (PinEvent.delayMicroseconds us :: rest))
      = (n + 1) * (pw + pw) :: us :: intervalsFrom none false rest := by
  rw [intervalsFrom_carrier]
  simp [intervalsFrom]

theorem intervalsFrom_transmitNECBits (value : Nat) (k : Nat) :
    ∀ rest : List PinEvent,
      intervalsFrom none false (IRModule.transmitNECBits value 38000 13 k ++ rest)
        = necCells value k ++ intervalsFrom none false rest := by
  induction k with
  | zero => intro rest; rfl
  | succ k ih =>
    intro rest
    rw [IRModule.transmitNECBits, List.append_assoc, ih]
    have h21 : 560 * 38000 / 1000000 = 20 + 1 := by norm_num
    rw [h21, List.append_assoc, List.singleton_append, intervalsFrom_cell]
    simp [necCells, necSpace]

theorem IRModule.transmitNEC_intervals (m : IRModule) (address command : Nat)
    (hinit : m.irInitialized = true) :
    (m.transmitNEC address command).1 = true ∧
    intervals (m.transmitNEC address command).2 = necFrame address command := by
  have h342 : 9000 * 38000 / 1000000 = 341 + 1 := by norm_num
  have h21 : 560 * 38000 / 1000000 = 20 + 1 := by norm_num
  have h13 : 1000000 / 38000 / 2 = 13 := by norm_num
  simp only [IRModule.transmitNEC, hinit, Bool.not_true, Bool.false_eq_true, if_false, intervals,
    h13, true_and]
  rw [h342, List.append_assoc, List.append_assoc, List.append_assoc, List.singleton_append,
    intervalsFrom_cell, intervalsFrom_transmitNECBits, intervalsFrom_transmitNECBits, h21]
  rw [show IRModule.carrier (20 + 1) 13 = IRModule.carrier (20 + 1) 13 ++ [] by simp,
    intervalsFrom_carrier]
  simp [intervalsFrom, necFrame]

theorem necCells_length (value k : Nat) : (necCells value k).length = 2 * k := by
  induction k with
  | zero => rfl
  | succ k ih => simp [necCells, ih]; omega

theorem necFrame_length (address command : Nat) : (necFrame address command).length = 67 := by
  simp [necFrame, necCells_length]

theorem and_one_shiftLeft_ne_zero (a i : Nat) : a &&& (1 <<< i) ≠ 0 ↔ a.testBit i = true := by
  rw [Nat.one_shiftLeft]
  constructor
  · intro h
    by_contra hbit
    apply h
    apply Nat.eq_of_testBit_eq
    intro j
    rw [Nat.testBit_and, Nat.testBit_two_pow, Nat.zero_testBit]
    by_cases hij : i = j
    · subst hij
      simp [hbit]
    · simp [hij]
  · intro hbit h
    have := congrArg (fun v => Nat.testBit v i) h
    simp [Nat.testBit_and, Nat.testBit_two_pow, hbit] at this

theorem necSpace_gt (value i : Nat) : decide (necSpace value i > 1200) = value.testBit i := by
  unfold necSpace
  by_cases h : value &&& (1 <<< i) ≠ 0
  · rw [if_pos h, (and_one_shiftLeft_ne_zero value i).mp h]
    decide
  · rw [if_neg h]
    have : value.testBit i = false := by
      cases hb : value.testBit i with
      | false => rfl
      | true => exact absurd ((and_one_shiftLeft_ne_zero value i).mpr hb) h
    rw [this]
    decide

theorem IRModule.decodeNEC_transmitNEC_rejected (m : IRModule) (address command : Nat)
    (hinit : m.irInitialized = true) (s : IRSignal) (t : Nat) :
    (intervals (m.transmitNEC address command).2).length = 67 ∧
    (m.withCapture (intervals (m.transmitNEC address command).2)).decodeNEC s t = (false, s) := by
  rw [(IRModule.transmitNEC_intervals m address command hinit).2]
  refine ⟨necFrame_length address command, ?_⟩
  have h67 : (m.withCapture (necFrame address command)).rawIndex = 67 :=
    necFrame_length address command
  simp [IRModule.decodeNEC, h67]

theorem necCells_getD (value k : Nat) :
    ∀ i, i < k → ∀ rest : List Nat,
      (necCells value k ++ rest).getD (2 * i) 0 = 546 ∧
      (necCells value k ++ rest).getD (2 * i + 1) 0 = necSpace value i := by
  induction k with
  | zero => intro i hi; omega
  | succ k ih =>
    intro i hi rest
    rw [necCells, List.append_assoc]
    by_cases hik : i < k
    · exact ih i hik _
    · have hi : i = k := by omega
      subst hi
      constructor
      · rw [List.getD_append_right _ _ _ _ (by rw [necCells_length]), necCells_length]
        simp
      · rw [List.getD_append_right _ _ _ _ (by rw [necCells_length]; omega), necCells_length]
        simp

theorem necFrame_getD (address command : Nat) (rest : List Nat) :
    (necFrame address command ++ rest).getD 0 0 = 8892 ∧
    (necFrame address command ++ rest).getD 1 0 = 4500 ∧
    (∀ k, k < 32 → (necFrame address command ++ rest).getD (2 + 2 * k) 0 = 546) ∧
    (∀ i, i < 16 → (necFrame address command ++ rest).getD (2 + i * 2 + 1) 0
      = necSpace address i) ∧
    (∀ i, i < 16 → (necFrame address command ++ rest).getD (34 + i * 2 + 1) 0
      = necSpace command i) := by
  have hshape : necFrame address command ++ rest
      = 8892 :: 4500 :: (necCells address 16 ++ (necCells command 16 ++ (546 :: rest))) := by
    simp [necFrame]
  rw [hshape]
  refine ⟨rfl, rfl, ?_, ?_, ?_⟩
  · intro k hk
    rw [show 2 + 2 * k = (2 * k + 1) + 1 by omega, List.getD_cons_succ, List.getD_cons_succ]
    by_cases hk16 : k < 16
    · exact (necCells_getD address 16 k hk16 _).1
    · rw [List.getD_append_right _ _ _ _ (by rw [necCells_length]; omega), necCells_length,
        show 2 * k - 2 * 16 = 2 * (k - 16) by omega]
      exact (necCells_getD command 16 (k - 16) (by omega) _).1
  · intro i hi
    rw [show 2 + i * 2 + 1 = (2 * i + 1 + 1) + 1 by omega, List.getD_cons_succ,
      List.getD_cons_succ]
    exact (necCells_getD address 16 i hi _).2
  · intro i hi
    rw [show 34 + i * 2 + 1 = (2 * (i + 16) + 1 + 1) + 1 by omega, List.getD_cons_succ,
      List.getD_cons_succ,
      List.getD_append_right _ _ _ _ (by rw [necCells_length]; omega), necCells_length,
      show 2 * (i + 16) + 1 - 2 * 16 = 2 * i + 1 by omega]
    exact (necCells_getD command 16 i hi _).2

theorem IRModule.decodeNEC_transmitNEC_padded (m : IRModule) (address command x : Nat)
    (hinit : m.irInitialized = true) (s : IRSignal) (t : Nat) :
    ((m.withCapture (intervals (m.transmitNEC address command).2 ++ [x])).decodeNEC s t).1
      = true ∧
    ((m.withCapture (intervals (m.transmitNEC address command).2 ++ [x])).decodeNEC s t).2.address
      = address % 2 ^ 16 ∧
    ((m.withCapture (intervals (m.transmitNEC address command).2 ++ [x])).decodeNEC s t).2.command
      = command % 2 ^ 16 := by
  rw [(IRModule.transmitNEC_intervals m address command hinit).2]
  have hbuf : (m.withCapture (necFrame address command ++ [x])).rawBuffer
      = necFrame address command ++
        ([x] ++ List.replicate (IRModule.MAX_RAW_LENGTH - (necFrame address command ++ [x]).length) 0) := by
    simp [IRModule.withCapture]
  have hidx : (m.withCapture (necFrame address command ++ [x])).rawIndex = 68 := by
    simp [IRModule.withCapture, necFrame_length]
  obtain ⟨g0, g1, gp, ga, gc⟩ := necFrame_getD address command
    ([x] ++ List.replicate (IRModule.MAX_RAW_LENGTH - (necFrame address command ++ [x]).length) 0)
  rw [← hbuf] at g0 g1 gp ga gc
  rcases IRModule.decodeNEC_eq (m.withCapture (necFrame address command ++ [x])) s t with
    ⟨_, a, c, ha, hc, he⟩ | ⟨hf, _⟩
  · rw [he]
    refine ⟨rfl, ?_, ?_⟩
    · show a = address % 2 ^ 16
      apply Nat.eq_of_testBit_eq
      intro j
      rw [IRModule.decodeNECBits_testBit _ 2 16 a ha j, Nat.testBit_mod_two_pow]
      by_cases hj : j < 16
      · rw [ga j hj]
        simp only [hj, true_and, decide_True, Bool.true_and]
        exact necSpace_gt address j
      · simp [hj]
    · show c = command % 2 ^ 16
      apply Nat.eq_of_testBit_eq
      intro j
      rw [IRModule.decodeNECBits_testBit _ 34 16 c hc j, Nat.testBit_mod_two_pow]
      by_cases hj : j < 16
      · rw [gc j hj]
        simp only [hj, true_and, decide_True, Bool.true_and]
        exact necSpace_gt command j
      · simp [hj]
  · exfalso
    apply hf
    refine ⟨by omega, ⟨by omega, by omega⟩, ⟨by omega, by omega⟩, ?_⟩
    intro k hk
    rw [gp k hk]
    omega

set_option maxRecDepth 100000 in
/-- C2 at address `0x00FF`, command `0x10EF`: the interval sequence that
`transmitNEC` produces has 67 entries, and `decodeNEC` run on it with
`rawIndex = 67` fails and leaves the signal unchanged; with one further entry
(`rawIndex = 68`) the same timings decode to the address and command sent. -/
theorem C2_nec_round_trip_rejected :
    (IRModule.ready.transmitNEC 0x00FF 0x10EF).1 = true ∧
    (intervals (IRModule.ready.transmitNEC 0x00FF 0x10EF).2).length = 67 ∧
    (IRModule.ready.withCapture
        (intervals (IRModule.ready.transmitNEC 0x00FF 0x10EF).2)).decodeNEC IRSignal.zero 0
      = (false, IRSignal.zero) ∧
    ((IRModule.ready.withCapture
        (intervals (IRModule.ready.transmitNEC 0x00FF 0x10EF).2 ++ [0])).decodeNEC
          IRSignal.zero 0).1 = true ∧
    ((IRModule.ready.withCapture
        (intervals (IRModule.ready.transmitNEC 0x00FF 0x10EF).2 ++ [0])).decodeNEC
          IRSignal.zero 0).2.address = 0x00FF ∧
    ((IRModule.ready.withCapture
        (intervals (IRModule.ready.transmitNEC 0x00FF 0x10EF).2 ++ [0])).decodeNEC
          IRSignal.zero 0).2.command = 0x10EF := by
  decide

/-! ### Infrared dispatch -/

theorem memcpy_length (src : List Nat) (n : Nat) : (memcpy src n).length = n := by
  simp [memcpy]

theorem memcpy_getD (src : List Nat) (n i : Nat) (h : i < n) :
    (memcpy src n).getD i 0 = src.getD i 0 := by
  simp [memcpy, List.getD_eq_getElem?_getD, List.getElem?_map, List.getElem?_range h]

theorem IRModule.decodeNEC_unchanged (m : IRModule) (signal : IRSignal) (now : Nat)
    (h : (m.decodeNEC signal now).1 = false) : (m.decodeNEC signal now).2 = signal := by
  rcases IRModule.decodeNEC_eq m signal now with ⟨_, a, c, _, _, he⟩ | ⟨_, he⟩
  · rw [he] at h
    simp at h
  · rw [he]

theorem IRModule.decodeNECBits_congr (m n : IRModule) (hb : n.rawBuffer = m.rawBuffer)
    (hi : n.rawIndex = m.rawIndex) (base k : Nat) :
    n.decodeNECBits base k = m.decodeNECBits base k := by
  induction k with
  | zero => rfl
  | succ k ih => simp only [IRModule.decodeNECBits, ih, hb, hi]

theorem IRModule.decodeNEC_congr (m n : IRModule) (hb : n.rawBuffer = m.rawBuffer)
    (hi : n.rawIndex = m.rawIndex) (s s2 : IRSignal) (t u : Nat) :
    (n.decodeNEC s2 u).1 = (m.decodeNEC s t).1 ∧
    ((m.decodeNEC s t).1 = true →
      (n.decodeNEC s2 u).2.address = (m.decodeNEC s t).2.address ∧
      (n.decodeNEC s2 u).2.command = (m.decodeNEC s t).2.command) := by
  simp only [IRModule.decodeNEC, hb, hi, IRModule.decodeNECBits_congr m n hb hi]
  split
  · simp
  · split
    · simp
    · split
      · simp
      · cases m.decodeNECBits 2 16 with
        | none => simp
        | some a =>
          cases m.decodeNECBits 34 16 with
          | none => simp
          | some c => simp

theorem IRModule.decodeSignal_nec (m : IRModule) (s : IRSignal) (t1 t2 : Nat)
    (h10 : 10 ≤ m.rawIndex) (h : (m.decodeNEC s t1).1 = true) :
    m.decodeSignal (some s) t1 t2
      = (true, some { (m.decodeNEC s t1).2 with protocol := IRProtocol.IR_NEC }, m) := by
  simp [IRModule.decodeSignal, show ¬ m.rawIndex < 10 by omega, h]

theorem IRModule.decodeSignal_raw (m : IRModule) (s : IRSignal) (t1 t2 : Nat)
    (h10 : 10 ≤ m.rawIndex) (h : (m.decodeNEC s t1).1 = false) :
    m.decodeSignal (some s) t1 t2
      = (true,
         some { s with
                protocol := IRProtocol.IR_RAW
                rawLength := m.rawIndex
                rawData := some m.heap.length
                frequency := 38000
                name := IRModule.generateSignalName IRProtocol.IR_RAW 0 t1
                timestamp := t2 },
         { m with heap := m.heap ++ [memcpy m.rawBuffer m.rawIndex] }) := by
  have h2 := IRModule.decodeNEC_unchanged m s t1 h
  simp [IRModule.decodeSignal, show ¬ m.rawIndex < 10 by omega, h, h2, IRModule.decodeSony,
    IRModule.decodeRC5, IRModule.decodeRC6, IRModule.decodeSamsung, IRModule.decodeLG]

/-- C5 (amended). Infrared dispatch: for every buffer state with
`rawIndex >= 10`, `decodeSignal` returns true; the signal is tagged NEC exactly
when `decodeNEC` accepts the buffer (and then carries the address and command
`decodeNEC` read); otherwise it is tagged Raw with `rawLength = rawIndex` and
`rawData[i] = rawBuffer[i]` for every `i < rawIndex`, and its address and
command are those of the record passed in, which the Raw path does not write.
The tag is never Sony, RC5, RC6, Samsung or LG, whose decoders report no match
for every buffer.  For every clock reading, every record `s2` passed in and
every module state `n` that holds the same buffer contents and index, the call
yields the same tag, the same address and command of an NEC signal and the same
raw copy of a Raw signal; the address and command of a Raw signal are those of
`s2`, whatever the clock. -/
theorem C5_ir_dispatch (m : IRModule) (s : IRSignal) (t1 t2 : Nat) (h10 : 10 ≤ m.rawIndex) :
    ∃ out m2,
      m.decodeSignal (some s) t1 t2 = (true, some out, m2) ∧
      (out.protocol = IRProtocol.IR_NEC ↔ (m.decodeNEC s t1).1 = true) ∧
      ((m.decodeNEC s t1).1 = true →
        out.address = (m.decodeNEC s t1).2.address ∧
        out.command = (m.decodeNEC s t1).2.command) ∧
      ((m.decodeNEC s t1).1 = false →
        out.protocol = IRProtocol.IR_RAW ∧ out.rawLength = m.rawIndex ∧
        (∃ payload, m2.rawPayload out = some payload ∧ payload.length = m.rawIndex ∧
          ∀ i, i < m.rawIndex → payload.getD i 0 = m.rawBuffer.getD i 0) ∧
        out.address = s.address ∧ out.command = s.command) ∧
      (out.protocol ≠ IRProtocol.IR_SONY ∧ out.protocol ≠ IRProtocol.IR_RC5 ∧
        out.protocol ≠ IRProtocol.IR_RC6 ∧ out.protocol ≠ IRProtocol.IR_SAMSUNG ∧
        out.protocol ≠ IRProtocol.IR_LG) ∧
      (∀ (b : IRModule) (sig : IRSignal),
        (b.decodeSony sig).1 = false ∧ (b.decodeRC5 sig).1 = false ∧
        (b.decodeRC6 sig).1 = false ∧ (b.decodeSamsung sig).1 = false ∧
        (b.decodeLG sig).1 = false) ∧
      (∀ (n : IRModule) (s2 : IRSignal) (u1 u2 : Nat),
        n.rawBuffer = m.rawBuffer → n.rawIndex = m.rawIndex →
        ∃ out2 n2,
          n.decodeSignal (some s2) u1 u2 = (true, some out2, n2) ∧
          out2.protocol = out.protocol ∧
          (out.protocol = IRProtocol.IR_NEC →
            out2.address = out.address ∧ out2.command = out.command) ∧
          (out.protocol = IRProtocol.IR_RAW →
            out2.rawLength = out.rawLength ∧ n2.rawPayload out2 = m2.rawPayload out ∧
            out2.address = s2.address ∧ out2.command = s2.command) ∧
          (s2 = s →
            out2.address = out.address ∧ out2.command = out.command)) := by
  have hstubs : ∀ (b : IRModule) (sig : IRSignal),
      (b.decodeSony sig).1 = false ∧ (b.decodeRC5 sig).1 = false ∧
      (b.decodeRC6 sig).1 = false ∧ (b.decodeSamsung sig).1 = false ∧
      (b.decodeLG sig).1 = false := fun _ _ => ⟨rfl, rfl, rfl, rfl, rfl⟩
  cases hnec : (m.decodeNEC s t1).1 with
  | true =>
    refine ⟨_, _, IRModule.decodeSignal_nec m s t1 t2 h10 hnec, by simp, by simp, by simp,
      by simp, hstubs, ?_⟩
    intro n s2 u1 u2 hb hi
    have hc := IRModule.decodeNEC_congr m n hb hi s s2 t1 u1
    have hn : (n.decodeNEC s2 u1).1 = true := by rw [hc.1, hnec]
    have hac := hc.2 hnec
    refine ⟨_, _, IRModule.decodeSignal_nec n s2 u1 u2 (by omega) hn, rfl, fun _ => hac, ?_,
      fun _ => hac⟩
    intro h
    simp at h
  | false =>
    refine ⟨_, _, IRModule.decodeSignal_raw m s t1 t2 h10 hnec, by simp, by simp, ?_,
      by simp, hstubs, ?_⟩
    · intro _
      refine ⟨rfl, rfl, ⟨memcpy m.rawBuffer m.rawIndex, ?_, memcpy_length _ _, ?_⟩, rfl, rfl⟩
      · simp [IRModule.rawPayload]
      · intro i hi
        exact memcpy_getD _ _ _ hi
    · intro n s2 u1 u2 hb hi
      have hc := IRModule.decodeNEC_congr m n hb hi s s2 t1 u1
      have hn : (n.decodeNEC s2 u1).1 = false := by rw [hc.1, hnec]
      refine ⟨_, _, IRModule.decodeSignal_raw n s2 u1 u2 (by omega) hn, rfl, ?_, ?_, ?_⟩
      · intro h
        simp at h
      · intro _
        simp [IRModule.rawPayload, hb, hi]
      · intro hs
        subst hs
        exact ⟨rfl, rfl⟩

set_option maxRecDepth 100000 in
/-- C5 at a capture of twelve samples of 100 microseconds, which no decoder
accepts, decoded into a record that holds the address `0x00FF` and the command
`0x10EF`: the dispatcher returns true with a Raw signal of length 12 that keeps
the address and the command of the record. -/
theorem C5_ir_dispatch_witness :
    10 ≤ (IRModule.ready.withCapture (List.replicate 12 100)).rawIndex ∧
    (∃ out m2,
      (IRModule.ready.withCapture (List.replicate 12 100)).decodeSignal
          (some { IRSignal.zero with address := 0x00FF, command := 0x10EF }) 3 4
        = (true, some out, m2) ∧ out.protocol = IRProtocol.IR_RAW ∧ out.rawLength = 12 ∧
        out.address = 0x00FF ∧ out.command = 0x10EF) := by
  refine ⟨by decide, ?_⟩
  obtain ⟨out, m2, he, _, _, hraw, _⟩ :=
    C5_ir_dispatch (IRModule.ready.withCapture (List.replicate 12 100))
      { IRSignal.zero with address := 0x00FF, command := 0x10EF } 3 4 (by decide)
  have h := hraw (by decide)
  exact ⟨out, m2, he, h.1, h.2.1, h.2.2.2.1, h.2.2.2.2⟩

set_option maxRecDepth 100000 in
/-- C5 as stated fails on the Raw path: the address and command of a Raw signal
depend on the record passed in, not only on the buffer.  After a session that
decoded the NEC frame for address `0x00FF` and command `0x10EF` into the
current signal, and a second session of eleven edges, the same buffer state
read at the same clock gives a Raw signal with address 255 and command 4335
when decoded into the current signal, and with address 0 and command 0 when
decoded into a fresh record; the tick that ends the session pushes the first
into the history. -/
theorem C5_raw_keeps_record_fields :
    (IRModule.new.run IRModule.keyedThenRaw).rawIndex = 11 ∧
    ((IRModule.new.run IRModule.keyedThenRaw).decodeSignal
        (some (IRModule.new.run IRModule.keyedThenRaw).currentSignal) 2300 2300).2.1.map
        (fun o => (o.protocol, o.address, o.command))
      = some (IRProtocol.IR_RAW, 255, 4335) ∧
    ((IRModule.new.run IRModule.keyedThenRaw).decodeSignal
        (some IRSignal.zero) 2300 2300).2.1.map
        (fun o => (o.protocol, o.address, o.command))
      = some (IRProtocol.IR_RAW, 0, 0) ∧
    (((IRModule.new.run IRModule.keyedThenRaw).update 2300 2300 2300).1.getHistoryItem 1).protocol
      = IRProtocol.IR_RAW ∧
    (((IRModule.new.run IRModule.keyedThenRaw).update 2300 2300 2300).1.getHistoryItem 1).address
      = 255 ∧
    (((IRModule.new.run IRModule.keyedThenRaw).update 2300 2300 2300).1.getHistoryItem 1).command
      = 4335 := by
  decide

/-! ### The sub-GHz decoders -/

theorem shiftLeft_one_lor (data vb : Nat) (b : Bool) (hvb : vb < 32) (hd : data < 2 ^ vb) :
    ((data <<< 1) ||| b.toNat) % 2 ^ 32 = 2 * data + b.toNat ∧ 2 * data + b.toNat < 2 ^ (vb + 1) := by
  have h1 : (data <<< 1) ||| b.toNat = 2 * data + b.toNat := by
    rw [Nat.shiftLeft_eq, Nat.mul_comm]
    have := Nat.mul_add_lt_is_or (i := 1) (b := b.toNat) (by cases b <;> simp) data
    simpa using this.symm
  have hb : b.toNat ≤ 1 := by cases b <;> simp
  have h2 : 2 * data + b.toNat < 2 ^ (vb + 1) := by
    rw [Nat.pow_succ]; omega
  have h3 : 2 ^ (vb + 1) ≤ 2 ^ 32 := Nat.pow_le_pow_right (by omega) (by omega)
  exact ⟨by rw [h1]; exact Nat.mod_eq_of_lt (by omega), h2⟩

theorem foldl_bits (bits : List Bool) (acc : Nat) :
    bits.foldl (fun a b => 2 * a + b.toNat) acc = acc * 2 ^ bits.length + bitsValue bits := by
  induction bits generalizing acc with
  | nil => simp [bitsValue]
  | cons b rest ih =>
    simp only [List.foldl_cons, ih, bitsValue, List.length_cons, Nat.pow_succ]
    ring

theorem RFModule.decodeASKLoop_spec (m : RFModule) (fuel : Nat) :
    ∀ i data vb, m.rawIndex - i ≤ fuel → vb ≤ 32 → data < 2 ^ vb →
      m.decodeASKLoop fuel i data vb =
        ((((List.range' i (m.rawIndex - i)).filterMap
            (fun j => askBit (m.rawBuffer.getD j 0))).take (32 - vb)).foldl
              (fun a b => 2 * a + b.toNat) data,
         vb + (((List.range' i (m.rawIndex - i)).filterMap
            (fun j => askBit (m.rawBuffer.getD j 0))).take (32 - vb)).length) := by
  induction fuel with
  | zero =>
    intro i data vb hf _ _
    have : m.rawIndex - i = 0 := by omega
    simp [RFModule.decodeASKLoop, this]
  | succ fuel ih =>
    intro i data vb hf hvb hd
    rw [RFModule.decodeASKLoop]
    by_cases hc : i < m.rawIndex ∧ vb < 32
    · obtain ⟨hi, hv⟩ := hc
      have hr : m.rawIndex - i = (m.rawIndex - (i + 1)) + 1 := by omega
      have ht : 32 - vb = (32 - (vb + 1)) + 1 := by omega
      simp only [hi, hv, and_self, if_true]
      rw [hr, List.range'_succ, List.filterMap_cons]
      by_cases h50 : m.rawBuffer.getD i 0 > 50
      · have hb := shiftLeft_one_lor data vb true hv hd
        simp only [Bool.toNat_true] at hb
        rw [if_pos h50, ih (i + 1) _ (vb + 1) (by omega) (by omega) (hb.1 ▸ hb.2), hb.1]
        simp only [askBit, h50, if_true]
        rw [ht, List.take_succ_cons]
        simp only [List.foldl_cons, List.length_cons, Bool.toNat_true]
        refine Prod.ext rfl ?_
        simp only
        omega
      · by_cases h10 : m.rawBuffer.getD i 0 > 10
        · have hb := shiftLeft_one_lor data vb false hv hd
          simp only [Bool.toNat_false] at hb
          rw [if_neg h50, if_pos h10, ih (i + 1) _ (vb + 1) (by omega) (by omega) (hb.1 ▸ hb.2),
            hb.1]
          simp only [askBit, h50, h10, if_true, if_false]
          rw [ht, List.take_succ_cons]
          simp only [List.foldl_cons, List.length_cons, Bool.toNat_false]
          refine Prod.ext rfl ?_
          simp only
          omega
        · rw [if_neg h50, if_neg h10, ih (i + 1) data vb (by omega) hvb hd]
          simp only [askBit, h50, h10, if_false]
    · rw [if_neg hc]
      by_cases hi : i < m.rawIndex
      · have : 32 - vb = 0 := by omega
        simp [this]
      · have : m.rawIndex - i = 0 := by omega
        simp [this]

theorem RFModule.decodeManchesterLoop_spec (m : RFModule) (fuel : Nat) :
    ∀ k data vb, m.rawIndex / 2 - k ≤ fuel → vb ≤ 32 → data < 2 ^ vb →
      m.decodeManchesterLoop fuel (2 * k) data vb =
        ((((List.range' k (m.rawIndex / 2 - k)).filterMap
            (fun j => manchesterBit (m.rawBuffer.getD (2 * j) 0)
              (m.rawBuffer.getD (2 * j + 1) 0))).take (32 - vb)).foldl
              (fun a b => 2 * a + b.toNat) data,
         vb + (((List.range' k (m.rawIndex / 2 - k)).filterMap
            (fun j => manchesterBit (m.rawBuffer.getD (2 * j) 0)
              (m.rawBuffer.getD (2 * j + 1) 0))).take (32 - vb)).length) := by
  induction fuel with
  | zero =>
    intro k data vb hf _ _
    have : m.rawIndex / 2 - k = 0 := by omega
    simp [RFModule.decodeManchesterLoop, this]
  | succ fuel ih =>
    intro k data vb hf hvb hd
    rw [RFModule.decodeManchesterLoop]
    have hstep : 2 * k + 2 = 2 * (k + 1) := by omega
    by_cases hc : 2 * k < m.rawIndex - 1 ∧ vb < 32
    · obtain ⟨hi, hv⟩ := hc
      have hr : m.rawIndex / 2 - k = (m.rawIndex / 2 - (k + 1)) + 1 := by omega
      have ht : 32 - vb = (32 - (vb + 1)) + 1 := by omega
      simp only [hi, hv, and_self, if_true]
      rw [hr, List.range'_succ, List.filterMap_cons, hstep]
      by_cases hlt : m.rawBuffer.getD (2 * k) 0 < m.rawBuffer.getD (2 * k + 1) 0
      · have hb := shiftLeft_one_lor data vb false hv hd
        simp only [Bool.toNat_false] at hb
        rw [if_pos hlt, ih (k + 1) _ (vb + 1) (by omega) (by omega) (hb.1 ▸ hb.2), hb.1]
        simp only [manchesterBit, hlt, if_true]
        rw [ht, List.take_succ_cons]
        simp only [List.foldl_cons, List.length_cons, Bool.toNat_false]
        refine Prod.ext rfl ?_
        simp only
        omega
      · by_cases hgt : m.rawBuffer.getD (2 * k) 0 > m.rawBuffer.getD (2 * k + 1) 0
        · have hb := shiftLeft_one_lor data vb true hv hd
          simp only [Bool.toNat_true] at hb
          rw [if_neg hlt, if_pos hgt, ih (k + 1) _ (vb + 1) (by omega) (by omega) (hb.1 ▸ hb.2),
            hb.1]
          simp only [manchesterBit, hlt, hgt, if_true, if_false]
          rw [ht, List.take_succ_cons]
          simp only [List.foldl_cons, List.length_cons, Bool.toNat_true]
          refine Prod.ext rfl ?_
          simp only
          omega
        · rw [if_neg hlt, if_neg hgt, ih (k + 1) data vb (by omega) hvb hd]
          simp only [manchesterBit, hlt, hgt, if_false]
    · rw [if_neg hc]
      by_cases hi : 2 * k < m.rawIndex - 1
      · have : 32 - vb = 0 := by omega
        simp [this]
      · have : m.rawIndex / 2 - k = 0 := by omega
        simp [this]

theorem RFModule.decodeASKLoop_eq (m : RFModule) :
    m.decodeASKLoop m.rawIndex 0 0 0 =
      (bitsValue (askEmitted m.rawBuffer m.rawIndex),
       (askEmitted m.rawBuffer m.rawIndex).length) := by
  have h := RFModule.decodeASKLoop_spec m m.rawIndex 0 0 0 (by omega) (by omega) (by simp)
  rw [h, foldl_bits]
  simp [askEmitted, List.range_eq_range']

theorem RFModule.decodeManchesterLoop_eq (m : RFModule) :
    m.decodeManchesterLoop m.rawIndex 0 0 0 =
      (bitsValue (manchesterEmitted m.rawBuffer m.rawIndex),
       (manchesterEmitted m.rawBuffer m.rawIndex).length) := by
  have h := RFModule.decodeManchesterLoop_spec m m.rawIndex 0 0 0 (by omega) (by omega) (by simp)
  rw [show 2 * 0 = 0 from rfl] at h
  rw [h, foldl_bits]
  simp [manchesterEmitted, List.range_eq_range']

theorem RFModule.decodeASK_eq (freqStr : Nat → String) (m : RFModule) (signal : RFSignal)
    (t1 t2 : Nat) :
    RFModule.decodeASK freqStr m signal t1 t2 =
      if 32 ≤ m.rawIndex ∧ 8 ≤ (askEmitted m.rawBuffer m.rawIndex).length then
        (true, { signal with
                 data := bitsValue (askEmitted m.rawBuffer m.rawIndex)
                 frequency := m.currentFrequency
                 bitrate := 4800
                 modulation := 0
                 name := RFModule.generateSignalName freqStr RFProtocol.RF_ASK_OOK
                           m.currentFrequency t1
                 timestamp := t2 })
      else (false, signal) := by
  unfold RFModule.decodeASK
  rw [RFModule.decodeASKLoop_eq]
  by_cases h32 : m.rawIndex < 32
  · simp [h32, show ¬ 32 ≤ m.rawIndex by omega]
  · by_cases h8 : 8 ≤ (askEmitted m.rawBuffer m.rawIndex).length
    · simp [h32, h8, show 32 ≤ m.rawIndex by omega]
    · simp [h32, h8]

theorem RFModule.decodeManchester_eq (freqStr : Nat → String) (m : RFModule) (signal : RFSignal)
    (t1 t2 : Nat) :
    RFModule.decodeManchester freqStr m signal t1 t2 =
      if 16 ≤ m.rawIndex ∧ 8 ≤ (manchesterEmitted m.rawBuffer m.rawIndex).length then
        (true, { signal with
                 data := bitsValue (manchesterEmitted m.rawBuffer m.rawIndex)
                 frequency := m.currentFrequency
                 bitrate := 2400
                 modulation := 1
                 name := RFModule.generateSignalName freqStr RFProtocol.RF_MANCHESTER
                           m.currentFrequency t1
                 timestamp := t2 })
      else (false, signal) := by
  unfold RFModule.decodeManchester
  rw [RFModule.decodeManchesterLoop_eq]
  by_cases h16 : m.rawIndex < 16
  · simp [h16, show ¬ 16 ≤ m.rawIndex by omega]
  · by_cases h8 : 8 ≤ (manchesterEmitted m.rawBuffer m.rawIndex).length
    · simp [h16, h8, show 16 ≤ m.rawIndex by omega]
    · simp [h16, h8]

theorem manchesterEmitted_of_equal (buf : List Nat) (rawIndex : Nat)
    (h : ∀ k, 2 * k + 1 < rawIndex → buf.getD (2 * k) 0 = buf.getD (2 * k + 1) 0) :
    manchesterEmitted buf rawIndex = [] := by
  unfold manchesterEmitted
  have : (List.range (rawIndex / 2)).filterMap
      (fun k => manchesterBit (buf.getD (2 * k) 0) (buf.getD (2 * k + 1) 0)) = [] := by
    rw [List.filterMap_eq_nil_iff]
    intro k hk
    have hk2 : k < rawIndex / 2 := List.mem_range.mp hk
    have := h k (by omega)
    simp only [manchesterBit, this, gt_iff_lt, lt_self_iff_false, if_false]
  rw [this]
  rfl

/-- C7. Manchester decode: `decodeManchester` scans the pairs
`(buf[2k], buf[2k+1])` with `2k+1 < rawIndex` in order, emitting bit 0 when
first < second, bit 1 when first > second and nothing when they are equal,
stopping after 32 bits (`manchesterEmitted`); it succeeds if and only if
`rawIndex >= 16` and at least 8 bits were emitted, and then `data` is the
emitted bits with the first emitted bit most significant.  A buffer whose pairs
all have equal halves is rejected and the signal is left as it was. -/
theorem C7_decodeManchester (freqStr : Nat → String) (m : RFModule) (signal : RFSignal)
    (t1 t2 : Nat) :
    ((RFModule.decodeManchester freqStr m signal t1 t2).1 = true ↔
      16 ≤ m.rawIndex ∧ 8 ≤ (manchesterEmitted m.rawBuffer m.rawIndex).length) ∧
    ((RFModule.decodeManchester freqStr m signal t1 t2).1 = true →
      (RFModule.decodeManchester freqStr m signal t1 t2).2.data
        = bitsValue (manchesterEmitted m.rawBuffer m.rawIndex)) ∧
    ((∀ k, 2 * k + 1 < m.rawIndex →
        m.rawBuffer.getD (2 * k) 0 = m.rawBuffer.getD (2 * k + 1) 0) →
      RFModule.decodeManchester freqStr m signal t1 t2 = (false, signal)) := by
  rw [RFModule.decodeManchester_eq]
  refine ⟨?_, ?_, ?_⟩
  · split <;> simp_all
  · split <;> simp
  · intro h
    rw [manchesterEmitted_of_equal _ _ h]
    simp

set_option maxRecDepth 100000 in
/-- C7 at sixteen equal samples of 70 microseconds: every pair has equal
halves, and the decoder rejects the buffer. -/
theorem C7_decodeManchester_witness :
    (∀ k, 2 * k + 1 < (RFModule.ready.withCapture (List.replicate 16 7)).rawIndex →
        (RFModule.ready.withCapture (List.replicate 16 7)).rawBuffer.getD (2 * k) 0
          = (RFModule.ready.withCapture (List.replicate 16 7)).rawBuffer.getD (2 * k + 1) 0) ∧
    RFModule.decodeManchester (fun _ => "") (RFModule.ready.withCapture (List.replicate 16 7))
      RFSignal.zero 0 0 = (false, RFSignal.zero) := by
  have h : ∀ k, 2 * k + 1 < (RFModule.ready.withCapture (List.replicate 16 7)).rawIndex →
      (RFModule.ready.withCapture (List.replicate 16 7)).rawBuffer.getD (2 * k) 0
        = (RFModule.ready.withCapture (List.replicate 16 7)).rawBuffer.getD (2 * k + 1) 0 := by
    intro k hk
    have hk8 : k < 8 := by
      have : (RFModule.ready.withCapture (List.replicate 16 7)).rawIndex = 16 := rfl
      omega
    interval_cases k <;> rfl
  exact ⟨h, (C7_decodeManchester (fun _ => "") _ RFSignal.zero 0 0).2.2 h⟩

/-- C8. ASK/OOK decode: `decodeASK` scans the samples in order, emitting bit 1
for a sample above the on-threshold 50, bit 0 for a sample above the noise
floor 10 and not above the on-threshold, and skipping shorter samples, stopping
after 32 bits (`askEmitted`); it succeeds if and only if `rawIndex >= 32` and
at least 8 bits were emitted, and then `data` is the emitted bits with the
first emitted bit most significant, the bitrate is 4800 and the modulation 0. -/
theorem C8_decodeASK (freqStr : Nat → String) (m : RFModule) (signal : RFSignal)
    (t1 t2 : Nat) :
    ((RFModule.decodeASK freqStr m signal t1 t2).1 = true ↔
      32 ≤ m.rawIndex ∧ 8 ≤ (askEmitted m.rawBuffer m.rawIndex).length) ∧
    ((RFModule.decodeASK freqStr m signal t1 t2).1 = true →
      (RFModule.decodeASK freqStr m signal t1 t2).2.data
        = bitsValue (askEmitted m.rawBuffer m.rawIndex) ∧
      (RFModule.decodeASK freqStr m signal t1 t2).2.bitrate = 4800 ∧
      (RFModule.decodeASK freqStr m signal t1 t2).2.modulation = 0) := by
  rw [RFModule.decodeASK_eq]
  refine ⟨?_, ?_⟩
  · split <;> simp_all
  · split <;> simp

set_option maxRecDepth 100000 in
/-- C8 at 32 samples alternating 200 and 600 microseconds (stored as 20 and
60): 32 bits are emitted, alternately 0 and 1, the decoder accepts and `data`
is `0x55555555`; at 32 samples of 50 microseconds (stored as 5), all below the
noise floor, no bit is emitted and the decoder rejects. -/
theorem C8_decodeASK_witness :
    (RFModule.decodeASK (fun _ => "")
      (RFModule.ready.withCapture ((List.replicate 16 [20, 60]).flatten)) RFSignal.zero 0 0).1
        = true ∧
    (RFModule.decodeASK (fun _ => "")
      (RFModule.ready.withCapture ((List.replicate 16 [20, 60]).flatten)) RFSignal.zero 0 0).2.data
        = 0x55555555 ∧
    (RFModule.decodeASK (fun _ => "")
      (RFModule.ready.withCapture (List.replicate 32 5)) RFSignal.zero 0 0).1 = false := by
  have h := C8_decodeASK (fun _ => "")
    (RFModule.ready.withCapture ((List.replicate 16 [20, 60]).flatten)) RFSignal.zero 0 0
  have hacc := h.1.mpr (by decide)
  refine ⟨hacc, ?_, ?_⟩
  · rw [(h.2 hacc).1]
    decide
  · have h2 := C8_decodeASK (fun _ => "")
      (RFModule.ready.withCapture (List.replicate 32 5)) RFSignal.zero 0 0
    cases hb : (RFModule.decodeASK (fun _ => "")
      (RFModule.ready.withCapture (List.replicate 32 5)) RFSignal.zero 0 0).1 with
    | false => rfl
    | true => exact absurd (h2.1.mp hb) (by decide)

/-! ### Sub-GHz dispatch -/

theorem RFModule.decodeASK_unchanged (freqStr : Nat → String) (m : RFModule) (s : RFSignal)
    (t1 t2 : Nat) (h : (RFModule.decodeASK freqStr m s t1 t2).1 = false) :
    (RFModule.decodeASK freqStr m s t1 t2).2 = s := by
  rw [RFModule.decodeASK_eq] at h ⊢
  split at h
  · simp at h
  · rename_i hc
    rw [if_neg hc]

theorem RFModule.decodeManchester_unchanged (freqStr : Nat → String) (m : RFModule)
    (s : RFSignal) (t1 t2 : Nat) (h : (RFModule.decodeManchester freqStr m s t1 t2).1 = false) :
    (RFModule.decodeManchester freqStr m s t1 t2).2 = s := by
  rw [RFModule.decodeManchester_eq] at h ⊢
  split at h
  · simp at h
  · rename_i hc
    rw [if_neg hc]

theorem RFModule.decodeSignal_ask (freqStr : Nat → String) (m : RFModule) (s : RFSignal)
    (t1 t2 : Nat) (h10 : 10 ≤ m.rawIndex)
    (h : (RFModule.decodeASK freqStr m s t1 t2).1 = true) :
    RFModule.decodeSignal freqStr m (some s) t1 t2
      = (true, some { (RFModule.decodeASK freqStr m s t1 t2).2 with
                      protocol := RFProtocol.RF_ASK_OOK }, m) := by
  simp [RFModule.decodeSignal, show ¬ m.rawIndex < 10 by omega, h]

theorem RFModule.decodeSignal_manchester (freqStr : Nat → String) (m : RFModule) (s : RFSignal)
    (t1 t2 : Nat) (h10 : 10 ≤ m.rawIndex)
    (ha : (RFModule.decodeASK freqStr m s t1 t2).1 = false)
    (h : (RFModule.decodeManchester freqStr m s t1 t2).1 = true) :
    RFModule.decodeSignal freqStr m (some s) t1 t2
      = (true, some { (RFModule.decodeManchester freqStr m s t1 t2).2 with
                      protocol := RFProtocol.RF_MANCHESTER }, m) := by
  have h2 := RFModule.decodeASK_unchanged freqStr m s t1 t2 ha
  simp [RFModule.decodeSignal, show ¬ m.rawIndex < 10 by omega, ha, h2, h, RFModule.decodeFSK]

theorem RFModule.rf_decodeSignal_raw (freqStr : Nat → String) (m : RFModule) (s : RFSignal)
    (t1 t2 : Nat) (h10 : 10 ≤ m.rawIndex)
    (ha : (RFModule.decodeASK freqStr m s t1 t2).1 = false)
    (h : (RFModule.decodeManchester freqStr m s t1 t2).1 = false) :
    RFModule.decodeSignal freqStr m (some s) t1 t2
      = (true,
         some { s with
                protocol := RFProtocol.RF_RAW
                rawLength := m.rawIndex
                rawData := some m.heap.length
                frequency := m.currentFrequency
                bitrate := 4800
                name := RFModule.generateSignalName freqStr RFProtocol.RF_RAW
                          m.currentFrequency t1
                timestamp := t2 },
         { m with heap := m.heap ++ [memcpy m.rawBuffer m.rawIndex] }) := by
  have h2 := RFModule.decodeASK_unchanged freqStr m s t1 t2 ha
  have h3 := RFModule.decodeManchester_unchanged freqStr m s t1 t2 h
  simp [RFModule.decodeSignal, show ¬ m.rawIndex < 10 by omega, ha, h2, h, h3, RFModule.decodeFSK,
    RFModule.decodePWM]

/-- C6. Sub-GHz dispatch priority: for every buffer state with `rawIndex >= 10`,
`decodeSignal` returns true and yields ASK_OOK if `decodeASK` accepts the
buffer (also when `decodeManchester` would accept it); otherwise Manchester if
`decodeManchester` accepts it; otherwise Raw with `rawLength = rawIndex` and a
copy of the first `rawIndex` samples.  A Raw signal is produced only when
`decodeASK`, `decodeFSK`, `decodeManchester` and `decodePWM` all rejected the
buffer, and no buffer is reported as FSK or PWM. -/
theorem C6_rf_dispatch (freqStr : Nat → String) (m : RFModule) (s : RFSignal) (t1 t2 : Nat)
    (h10 : 10 ≤ m.rawIndex) :
    ∃ out m2,
      RFModule.decodeSignal freqStr m (some s) t1 t2 = (true, some out, m2) ∧
      ((RFModule.decodeASK freqStr m s t1 t2).1 = true →
        out.protocol = RFProtocol.RF_ASK_OOK) ∧
      ((RFModule.decodeASK freqStr m s t1 t2).1 = false →
        (RFModule.decodeManchester freqStr m s t1 t2).1 = true →
        out.protocol = RFProtocol.RF_MANCHESTER) ∧
      ((RFModule.decodeASK freqStr m s t1 t2).1 = false →
        (RFModule.decodeManchester freqStr m s t1 t2).1 = false →
        out.protocol = RFProtocol.RF_RAW ∧ out.rawLength = m.rawIndex ∧
        ∃ payload, m2.rawPayload out = some payload ∧ payload.length = m.rawIndex ∧
          ∀ i, i < m.rawIndex → payload.getD i 0 = m.rawBuffer.getD i 0) ∧
      (out.protocol = RFProtocol.RF_RAW →
        (RFModule.decodeASK freqStr m s t1 t2).1 = false ∧ (m.decodeFSK s).1 = false ∧
        (RFModule.decodeManchester freqStr m s t1 t2).1 = false ∧ (m.decodePWM s).1 = false) ∧
      out.protocol ≠ RFProtocol.RF_FSK ∧ out.protocol ≠ RFProtocol.RF_PWM ∧
      (∀ (b : RFModule) (sig : RFSignal),
        (b.decodeFSK sig).1 = false ∧ (b.decodePWM sig).1 = false) := by
  have hstubs : ∀ (b : RFModule) (sig : RFSignal),
      (b.decodeFSK sig).1 = false ∧ (b.decodePWM sig).1 = false := fun _ _ => ⟨rfl, rfl⟩
  cases ha : (RFModule.decodeASK freqStr m s t1 t2).1 with
  | true =>
    exact ⟨_, _, RFModule.decodeSignal_ask freqStr m s t1 t2 h10 ha, by simp, by simp, by simp,
      by simp, by simp, by simp, hstubs⟩
  | false =>
    cases hm : (RFModule.decodeManchester freqStr m s t1 t2).1 with
    | true =>
      exact ⟨_, _, RFModule.decodeSignal_manchester freqStr m s t1 t2 h10 ha hm, by simp, by simp,
        by simp, by simp, by simp, by simp, hstubs⟩
    | false =>
      refine ⟨_, _, RFModule.rf_decodeSignal_raw freqStr m s t1 t2 h10 ha hm, by simp, by simp, ?_,
        ?_, by simp, by simp, hstubs⟩
      · intro _ _
        refine ⟨rfl, rfl, memcpy m.rawBuffer m.rawIndex, ?_, memcpy_length _ _, ?_⟩
        · simp [RFModule.rawPayload]
        · intro i hi
          exact memcpy_getD _ _ _ hi
      · intro _
        exact ⟨rfl, rfl, rfl, rfl⟩

set_option maxRecDepth 100000 in
/-- C6 at 32 samples alternating 200 and 600 microseconds (stored as 20 and 60),
a buffer that both `decodeASK` and `decodeManchester` accept: the dispatcher
reports it as ASK_OOK. -/
theorem C6_rf_dispatch_witness :
    10 ≤ (RFModule.ready.withCapture ((List.replicate 16 [20, 60]).flatten)).rawIndex ∧
    (RFModule.decodeASK (fun _ => "")
      (RFModule.ready.withCapture ((List.replicate 16 [20, 60]).flatten)) RFSignal.zero 0 0).1
        = true ∧
    (RFModule.decodeManchester (fun _ => "")
      (RFModule.ready.withCapture ((List.replicate 16 [20, 60]).flatten)) RFSignal.zero 0 0).1
        = true ∧
    ∃ out m2,
      RFModule.decodeSignal (fun _ => "")
        (RFModule.ready.withCapture ((List.replicate 16 [20, 60]).flatten))
        (some RFSignal.zero) 0 0 = (true, some out, m2) ∧
      out.protocol = RFProtocol.RF_ASK_OOK := by
  refine ⟨by decide, by decide, by decide, ?_⟩
  obtain ⟨out, m2, he, hask, _⟩ :=
    C6_rf_dispatch (fun _ => "")
      (RFModule.ready.withCapture ((List.replicate 16 [20, 60]).flatten)) RFSignal.zero 0 0
      (by decide)
  exact ⟨out, m2, he, hask (by decide)⟩

/-! ### The tick that ends a capture session -/

theorem IRModule.update_short (m : IRModule) (currentTime t1 t2 : Nat)
    (hinit : m.irInitialized = true) (hrecv : m.isReceivingSignal = true)
    (hquiet : usub32 currentTime m.lastEdgeTime > 100) (hshort : m.rawIndex ≤ 10) :
    m.update currentTime t1 t2 = ({ m with isReceivingSignal := false }, [Call.stopReceiving]) := by
  simp [IRModule.update, hinit, hrecv, hquiet, show ¬ 10 < m.rawIndex by omega,
    IRModule.stopReceiving]

theorem RFModule.scanStep_frame (m : RFModule) :
    m.scanStep.history = m.history ∧ m.scanStep.historyCount = m.historyCount ∧
    m.scanStep.historyIndex = m.historyIndex ∧ m.scanStep.currentSignal = m.currentSignal ∧
    m.scanStep.heap = m.heap ∧ m.scanStep.rawIndex = m.rawIndex ∧
    m.scanStep.rawBuffer = m.rawBuffer ∧
    m.scanStep.isReceivingSignal = m.isReceivingSignal ∧
    m.scanStep.lastEdgeTime = m.lastEdgeTime ∧
    m.scanStep.rfInitialized = m.rfInitialized := by
  unfold RFModule.scanStep RFModule.setFrequency
  dsimp only
  split_ifs <;> simp

theorem RFModule.rf_update_short (freqStr : Nat → String) (m : RFModule)
    (currentTime t1 t2 : Nat)
    (hinit : m.rfInitialized = true) (hrecv : m.isReceivingSignal = true)
    (hquiet : usub32 currentTime m.lastEdgeTime > 200) (hshort : m.rawIndex ≤ 10) :
    RFModule.update freqStr m currentTime t1 t2
      = ({ m.scanStep with isReceivingSignal := false }, [Call.stopReceiving]) := by
  obtain ⟨_, _, _, _, _, h6, _, h8, h9, _⟩ := RFModule.scanStep_frame m
  simp [RFModule.update, hinit, h6, h8, h9, hrecv, hquiet, show ¬ 10 < m.rawIndex by omega,
    RFModule.stopReceiving]

/-- C9. Too-short captures are discarded: an `update()` tick (infrared or
sub-GHz) that ends a capture session whose buffer holds fewer than 10 samples
calls `stopReceiving` only (`decodeSignal` is not invoked), leaves the history
slots, count and cursor, the current signal and the free store unchanged, and
leaves the channel idle. -/
theorem C9_short_capture_discarded (freqStr : Nat → String) (mi : IRModule) (mr : RFModule)
    (currentTime t1 t2 : Nat) :
    (mi.irInitialized = true → mi.isReceivingSignal = true →
      usub32 currentTime mi.lastEdgeTime > 100 → mi.rawIndex < 10 →
      (mi.update currentTime t1 t2).2 = [Call.stopReceiving] ∧
      Call.decodeSignal ∉ (mi.update currentTime t1 t2).2 ∧
      (mi.update currentTime t1 t2).1.history = mi.history ∧
      (mi.update currentTime t1 t2).1.historyCount = mi.historyCount ∧
      (mi.update currentTime t1 t2).1.historyIndex = mi.historyIndex ∧
      (mi.update currentTime t1 t2).1.currentSignal = mi.currentSignal ∧
      (mi.update currentTime t1 t2).1.heap = mi.heap ∧
      (mi.update currentTime t1 t2).1.isReceiving = false) ∧
    (mr.rfInitialized = true → mr.isReceivingSignal = true →
      usub32 currentTime mr.lastEdgeTime > 200 → mr.rawIndex < 10 →
      (RFModule.update freqStr mr currentTime t1 t2).2 = [Call.stopReceiving] ∧
      Call.decodeSignal ∉ (RFModule.update freqStr mr currentTime t1 t2).2 ∧
      (RFModule.update freqStr mr currentTime t1 t2).1.history = mr.history ∧
      (RFModule.update freqStr mr currentTime t1 t2).1.historyCount = mr.historyCount ∧
      (RFModule.update freqStr mr currentTime t1 t2).1.historyIndex = mr.historyIndex ∧
      (RFModule.update freqStr mr currentTime t1 t2).1.currentSignal = mr.currentSignal ∧
      (RFModule.update freqStr mr currentTime t1 t2).1.heap = mr.heap ∧
      (RFModule.update freqStr mr currentTime t1 t2).1.isReceiving = false) := by
  constructor
  · intro hinit hrecv hquiet hshort
    rw [IRModule.update_short mi currentTime t1 t2 hinit hrecv hquiet (by omega)]
    simp [IRModule.isReceiving]
  · intro hinit hrecv hquiet hshort
    obtain ⟨h1, h2, h3, h4, h5, _⟩ := RFModule.scanStep_frame mr
    rw [RFModule.rf_update_short freqStr mr currentTime t1 t2 hinit hrecv hquiet (by omega)]
    simp [RFModule.isReceiving, h1, h2, h3, h4, h5]

set_option maxRecDepth 100000 in
/-- C9 at a capture session of nine edges, the last at 1005.4 ms, ticked at
`millis() = 1300`: the tick calls `stopReceiving` only and the history count
stays 0. -/
theorem C9_short_capture_discarded_witness :
    (IRModule.session 9).rawIndex = 9 ∧
    ((IRModule.session 9).update 1300 1300 1300).2 = [Call.stopReceiving] ∧
    ((IRModule.session 9).update 1300 1300 1300).1.historyCount = 0 ∧
    (RFModule.session 9).rawIndex = 9 ∧
    (RFModule.update (fun _ => "") (RFModule.session 9) 1300 1300 1300).2
      = [Call.stopReceiving] ∧
    (RFModule.update (fun _ => "") (RFModule.session 9) 1300 1300 1300).1.historyCount = 0 := by
  have h := C9_short_capture_discarded (fun _ => "") (IRModule.session 9) (RFModule.session 9)
    1300 1300 1300
  have hi := h.1 (by decide) (by decide) (by decide) (by decide)
  have hr := h.2 (by decide) (by decide) (by decide) (by decide)
  exact ⟨by decide, hi.1, hi.2.2.2.1, by decide, hr.1, hr.2.2.2.1⟩

theorem IRModule.decodeSignal_succeeds (m : IRModule) (s : IRSignal) (t1 t2 : Nat)
    (h10 : 10 ≤ m.rawIndex) :
    ∃ out m2, m.decodeSignal (some s) t1 t2 = (true, some out, m2) := by
  cases hnec : (m.decodeNEC s t1).1 with
  | true => exact ⟨_, _, IRModule.decodeSignal_nec m s t1 t2 h10 hnec⟩
  | false => exact ⟨_, _, IRModule.decodeSignal_raw m s t1 t2 h10 hnec⟩

theorem RFModule.rf_decodeSignal_succeeds (freqStr : Nat → String) (m : RFModule) (s : RFSignal)
    (t1 t2 : Nat) (h10 : 10 ≤ m.rawIndex) :
    ∃ out m2, RFModule.decodeSignal freqStr m (some s) t1 t2 = (true, some out, m2) := by
  cases ha : (RFModule.decodeASK freqStr m s t1 t2).1 with
  | true => exact ⟨_, _, RFModule.decodeSignal_ask freqStr m s t1 t2 h10 ha⟩
  | false =>
    cases hm : (RFModule.decodeManchester freqStr m s t1 t2).1 with
    | true => exact ⟨_, _, RFModule.decodeSignal_manchester freqStr m s t1 t2 h10 ha hm⟩
    | false => exact ⟨_, _, RFModule.rf_decodeSignal_raw freqStr m s t1 t2 h10 ha hm⟩

theorem IRModule.update_long (m : IRModule) (currentTime t1 t2 : Nat)
    (hinit : m.irInitialized = true) (hrecv : m.isReceivingSignal = true)
    (hquiet : usub32 currentTime m.lastEdgeTime > 100) (hlong : 10 < m.rawIndex) :
    ∃ out m2,
      ({ m with signalReceived := true }).decodeSignal (some m.currentSignal) t1 t2
        = (true, some out, m2) ∧
      m.update currentTime t1 t2 =
        ((({ m2 with currentSignal := out }).addToHistory (some out)).stopReceiving,
         [Call.decodeSignal, Call.addToHistory, Call.stopReceiving]) := by
  obtain ⟨out, m2, he⟩ := IRModule.decodeSignal_succeeds { m with signalReceived := true }
    m.currentSignal t1 t2 (show 10 ≤ m.rawIndex by omega)
  refine ⟨out, m2, he, ?_⟩
  unfold IRModule.update
  rw [if_neg (by simp [hinit]), if_pos ⟨hrecv, hquiet⟩]
  simp only [gt_iff_lt, hlong, if_true]
  rw [he]
  simp

theorem RFModule.rf_update_long (freqStr : Nat → String) (m m0 : RFModule)
    (currentTime t1 t2 : Nat) (hm0 : m0 = m.scanStep)
    (hinit : m.rfInitialized = true) (hrecv : m.isReceivingSignal = true)
    (hquiet : usub32 currentTime m.lastEdgeTime > 200) (hlong : 10 < m.rawIndex) :
    ∃ out m2,
      RFModule.decodeSignal freqStr { m0 with signalReceived := true }
        (some m0.currentSignal) t1 t2 = (true, some out, m2) ∧
      RFModule.update freqStr m currentTime t1 t2 =
        ((({ m2 with currentSignal := out }).addToHistory (some out)).stopReceiving,
         [Call.decodeSignal, Call.addToHistory, Call.stopReceiving]) := by
  obtain ⟨_, _, _, _, _, h6, _, h8, h9, _⟩ := RFModule.scanStep_frame m
  rw [← hm0] at h6 h8 h9
  obtain ⟨out, m2, he⟩ := RFModule.rf_decodeSignal_succeeds freqStr
    { m0 with signalReceived := true } m0.currentSignal t1 t2
    (show 10 ≤ m0.rawIndex by omega)
  refine ⟨out, m2, he, ?_⟩
  unfold RFModule.update
  rw [if_neg (by simp [hinit]), ← hm0]
  dsimp only
  rw [if_pos (show m0.isReceivingSignal = true ∧ usub32 currentTime m0.lastEdgeTime > 200 from
    ⟨by rw [h8]; exact hrecv, by rw [h9]; exact hquiet⟩)]
  simp only [gt_iff_lt, show 10 < m0.rawIndex by omega, if_true]
  rw [he]
  simp

set_option maxRecDepth 100000 in
/-- C10 at exactly ten samples: after a capture session of ten edges (infrared
and sub-GHz) the buffer holds 10 samples; the tick at `millis() = 1300` ends the
session and calls `stopReceiving` only, so the history count stays 0, although
`decodeSignal` run on that buffer returns true; after a session of eleven edges
the tick calls `decodeSignal` and `addToHistory` and the count becomes 1. -/
theorem C10_exactly_ten_not_decoded :
    (IRModule.session 10).rawIndex = 10 ∧
    ((IRModule.session 10).update 1300 1300 1300).2 = [Call.stopReceiving] ∧
    ((IRModule.session 10).update 1300 1300 1300).1.isReceiving = false ∧
    ((IRModule.session 10).update 1300 1300 1300).1.getHistoryCount = 0 ∧
    ((IRModule.session 10).decodeSignal (some (IRModule.session 10).currentSignal)
      1300 1300).1 = true ∧
    ((IRModule.session 11).update 1300 1300 1300).2
      = [Call.decodeSignal, Call.addToHistory, Call.stopReceiving] ∧
    ((IRModule.session 11).update 1300 1300 1300).1.getHistoryCount = 1 ∧
    (RFModule.session 10).rawIndex = 10 ∧
    (RFModule.update (fun _ => "") (RFModule.session 10) 1300 1300 1300).2
      = [Call.stopReceiving] ∧
    (RFModule.update (fun _ => "") (RFModule.session 10) 1300 1300 1300).1.isReceiving
      = false ∧
    (RFModule.update (fun _ => "") (RFModule.session 10) 1300 1300 1300).1.getHistoryCount
      = 0 ∧
    (RFModule.decodeSignal (fun _ => "") (RFModule.session 10)
      (some (RFModule.session 10).currentSignal) 1300 1300).1 = true ∧
    (RFModule.update (fun _ => "") (RFModule.session 11) 1300 1300 1300).2
      = [Call.decodeSignal, Call.addToHistory, Call.stopReceiving] ∧
    (RFModule.update (fun _ => "") (RFModule.session 11) 1300 1300 1300).1.getHistoryCount
      = 1 := by
  decide

/-! ### The quiet threshold -/

theorem IRModule.update_idle_of_not_quiet (m : IRModule) (currentTime t1 t2 : Nat)
    (hq : ¬ usub32 currentTime m.lastEdgeTime > 100) : m.update currentTime t1 t2 = (m, []) := by
  unfold IRModule.update
  split
  · rfl
  · rw [if_neg (fun h => hq h.2)]

theorem IRModule.update_ends_of_quiet (m : IRModule) (currentTime t1 t2 : Nat)
    (hinit : m.irInitialized = true) (hrecv : m.isReceivingSignal = true)
    (hq : usub32 currentTime m.lastEdgeTime > 100) :
    (m.update currentTime t1 t2).1.isReceivingSignal = false ∧
    Call.stopReceiving ∈ (m.update currentTime t1 t2).2 := by
  unfold IRModule.update
  rw [if_neg (by simp [hinit]), if_pos ⟨hrecv, hq⟩]
  simp [IRModule.stopReceiving]

theorem RFModule.rf_update_ends_iff (freqStr : Nat → String) (m : RFModule)
    (currentTime t1 t2 : Nat) (hinit : m.rfInitialized = true)
    (hrecv : m.isReceivingSignal = true) :
    (RFModule.update freqStr m currentTime t1 t2).1.isReceivingSignal = false ↔
      usub32 currentTime m.lastEdgeTime > 200 := by
  obtain ⟨_, _, _, _, _, _, _, h8, h9, _⟩ := RFModule.scanStep_frame m
  generalize hm0 : m.scanStep = m0 at h8 h9
  unfold RFModule.update
  rw [if_neg (by simp [hinit]), hm0]
  dsimp only
  by_cases hq : usub32 currentTime m.lastEdgeTime > 200
  · rw [if_pos ⟨by rw [h8]; exact hrecv, by rw [h9]; exact hq⟩]
    simp [RFModule.stopReceiving, hq]
  · rw [if_neg (fun h => hq (by rw [← h9]; exact h.2))]
    simp [h8, hrecv, hq]

theorem usub32_of_le (t e : Nat) (hle : e ≤ t) (ht : t < 2 ^ 32) : usub32 t e = t - e := by
  unfold usub32
  rw [Nat.mod_eq_of_lt (show e < 2 ^ 32 by omega)]
  have : t + 2 ^ 32 - e = (t - e) + 2 ^ 32 := by omega
  rw [this, Nat.add_mod_right, Nat.mod_eq_of_lt (by omega)]

theorem usub32_of_lt (t u : Nat) (hlt : t < u) (hu : u < 2 ^ 32) :
    usub32 t u = t + 2 ^ 32 - u := by
  unfold usub32
  rw [Nat.mod_eq_of_lt hu, Nat.mod_eq_of_lt (by omega)]

/-- After `receiveSignal()` at `millis() = e` and no edge, the tick at
`millis() = t` ends the infrared session exactly when `t - e > 100`. -/
theorem IRModule.session_start_timeout (m : IRModule) (e t t1 t2 : Nat)
    (hinit : m.irInitialized = true) (hle : e ≤ t) (ht : t < 2 ^ 32) :
    (((m.receiveSignal e).2.update t t1 t2).1.isReceivingSignal = false ↔ t - e > 100) := by
  have hs : (m.receiveSignal e).2.irInitialized = true ∧
      (m.receiveSignal e).2.isReceivingSignal = true ∧
      (m.receiveSignal e).2.lastEdgeTime = e := by
    simp [IRModule.receiveSignal, IRModule.startReceiving, hinit]
  have hu : usub32 t (m.receiveSignal e).2.lastEdgeTime = t - e := by
    rw [hs.2.2]; exact usub32_of_le t e hle ht
  constructor
  · intro h
    by_contra hq
    have := IRModule.update_idle_of_not_quiet (m.receiveSignal e).2 t t1 t2 (by rw [hu]; exact hq)
    rw [this, hs.2.1] at h
    exact absurd h (by decide)
  · intro hq
    exact (IRModule.update_ends_of_quiet _ t t1 t2 hs.1 hs.2.1 (by rw [hu]; exact hq)).1

/-- After an edge stored at `micros() = u`, every tick whose `millis()` reading
`t` is below `u` (and not within 100 of `u - 2^32`) ends the infrared session,
whatever the real time elapsed since the edge. -/
theorem IRModule.tick_after_edge_ends (m : IRModule) (u t t1 t2 : Nat)
    (hinit : m.irInitialized = true) (hrecv : m.isReceivingSignal = true)
    (hidx : m.rawIndex < 299) (hu : u < 2 ^ 32) (hlt : t < u)
    (hgap : u + 100 < t + 2 ^ 32) :
    (m.irInterruptHandler u).lastEdgeTime = u ∧
    ((m.irInterruptHandler u).update t t1 t2).1.isReceivingSignal = false := by
  have hs : (m.irInterruptHandler u).lastEdgeTime = u ∧
      (m.irInterruptHandler u).irInitialized = true ∧
      (m.irInterruptHandler u).isReceivingSignal = true := by
    simp [IRModule.irInterruptHandler, IRModule.captureRawData, hrecv, hinit,
      show m.rawIndex < IRModule.MAX_RAW_LENGTH - 1 from hidx]
  refine ⟨hs.1, (IRModule.update_ends_of_quiet _ t t1 t2 hs.2.1 hs.2.2 ?_).1⟩
  rw [hs.1, usub32_of_lt t u (by omega) hu]
  omega

set_option maxRecDepth 100000 in
/-- C11 at one captured edge: `receiveSignal()` at `millis() = 1000`, one edge at
`micros() = 1000600` (1000.6 ms), tick at `millis() = 1050`, that is 49.4 ms
after the edge and within both thresholds.  `captureRawData` has stored the
microsecond reading in `lastEdgeTime`, the tick subtracts it from the
millisecond reading, the 32-bit difference is 4293967746, and the session ends
(infrared and sub-GHz).  Without the edge the same tick leaves the session
capturing and the module unchanged. -/
theorem C11_tick_within_threshold_ends_session :
    ((IRModule.session 1).isReceiving = true ∧ (IRModule.session 1).lastEdgeTime = 1000600 ∧
      usub32 1050 (IRModule.session 1).lastEdgeTime = 4293967746 ∧
      ((IRModule.session 1).update 1050 1050 1050).1.isReceiving = false ∧
      ((IRModule.session 1).update 1050 1050 1050).2 = [Call.stopReceiving] ∧
      (IRModule.session 0).update 1050 1050 1050 = (IRModule.session 0, []) ∧
      (IRModule.session 0).isReceiving = true) ∧
    ((RFModule.session 1).isReceiving = true ∧ (RFModule.session 1).lastEdgeTime = 1000600 ∧
      (RFModule.update (fun _ => "") (RFModule.session 1) 1050 1050 1050).1.isReceiving
        = false ∧
      (RFModule.update (fun _ => "") (RFModule.session 1) 1050 1050 1050).2
        = [Call.stopReceiving] ∧
      RFModule.update (fun _ => "") (RFModule.session 0) 1050 1050 1050
        = (RFModule.session 0, []) ∧
      (RFModule.session 0).isReceiving = true) := by
  decide

/-! ### Starting a capture -/

/-- C12 (as the code behaves). `receiveSignal()` on an initialised channel
succeeds whether the channel is idle or already capturing: it returns true,
sets the buffer index to 0 (the samples captured so far are no longer counted;
the buffer cells and the history are not touched), records the time of the
call and leaves the channel capturing. -/
theorem C12_receiveSignal_restarts (mi : IRModule) (mr : RFModule) (now : Nat) :
    (mi.irInitialized = true →
      (mi.receiveSignal now).1 = true ∧
      (mi.receiveSignal now).2.rawIndex = 0 ∧
      (mi.receiveSignal now).2.isReceiving = true ∧
      (mi.receiveSignal now).2.lastEdgeTime = now ∧
      (mi.receiveSignal now).2.rawBuffer = mi.rawBuffer ∧
      (mi.receiveSignal now).2.ring = mi.ring) ∧
    (mr.rfInitialized = true →
      (mr.receiveSignal now).1 = true ∧
      (mr.receiveSignal now).2.rawIndex = 0 ∧
      (mr.receiveSignal now).2.isReceiving = true ∧
      (mr.receiveSignal now).2.lastEdgeTime = now ∧
      (mr.receiveSignal now).2.rawBuffer = mr.rawBuffer ∧
      (mr.receiveSignal now).2.ring = mr.ring) := by
  constructor
  · intro h
    simp [IRModule.receiveSignal, IRModule.startReceiving, IRModule.isReceiving, IRModule.ring, h]
  · intro h
    simp [RFModule.receiveSignal, RFModule.startReceiving, RFModule.isReceiving, RFModule.ring, h]

set_option maxRecDepth 100000 in
/-- C12 at a capture session that has stored five samples: `receiveSignal()`
at `millis() = 2000` returns true, sets the index to 0 and stays capturing. -/
theorem C12_receiveSignal_restarts_witness :
    (IRModule.session 5).irInitialized = true ∧
    ((IRModule.session 5).receiveSignal 2000).1 = true ∧
    ((IRModule.session 5).receiveSignal 2000).2.rawIndex = 0 ∧
    (RFModule.session 5).rfInitialized = true ∧
    ((RFModule.session 5).receiveSignal 2000).1 = true ∧
    ((RFModule.session 5).receiveSignal 2000).2.rawIndex = 0 :=
  have hi := (C12_receiveSignal_restarts (IRModule.session 5) (RFModule.session 5) 2000).1
    (by decide)
  have hr := (C12_receiveSignal_restarts (IRModule.session 5) (RFModule.session 5) 2000).2
    (by decide)
  ⟨by decide, hi.1, hi.2.1, by decide, hr.1, hr.2.1⟩

set_option maxRecDepth 100000 in
/-- C12 as stated fails: a channel (infrared and sub-GHz) that is initialised
and capturing with five samples stored does not report failure on
`receiveSignal()`; the call returns true and resets the index from 5 to 0. -/
theorem C12_receiveSignal_while_capturing :
    ((IRModule.session 5).irInitialized = true ∧ (IRModule.session 5).isReceiving = true ∧
      (IRModule.session 5).rawIndex = 5 ∧
      ¬ (((IRModule.session 5).receiveSignal 2000).1 = false ∧
          ((IRModule.session 5).receiveSignal 2000).2.rawIndex = (IRModule.session 5).rawIndex)) ∧
    ((RFModule.session 5).rfInitialized = true ∧ (RFModule.session 5).isReceiving = true ∧
      (RFModule.session 5).rawIndex = 5 ∧
      ¬ (((RFModule.session 5).receiveSignal 2000).1 = false ∧
          ((RFModule.session 5).receiveSignal 2000).2.rawIndex = (RFModule.session 5).rawIndex)) := by
  decide

/-! ### Lookups and clearing of the history ring -/

/-- C17. Out-of-range history lookup: `getHistoryItem(i)` with `i < 0` or
`i >= getHistoryCount()` returns the default signal (protocol Unknown, null
`rawData`), whatever the physical slots hold: the result is the same for every
content `slots` of the history array. -/
theorem C17_history_lookup_out_of_range (mi : IRModule) (mr : RFModule) (i : Int) :
    ((i < 0 ∨ mi.getHistoryCount ≤ i) →
      mi.getHistoryItem i = IRSignal.zero ∧
      (mi.getHistoryItem i).protocol = IRProtocol.IR_UNKNOWN ∧
      (mi.getHistoryItem i).rawData = none ∧
      ∀ slots : List IRSignal, ({ mi with history := slots }).getHistoryItem i = IRSignal.zero) ∧
    ((i < 0 ∨ mr.getHistoryCount ≤ i) →
      mr.getHistoryItem i = RFSignal.zero ∧
      (mr.getHistoryItem i).protocol = RFProtocol.RF_UNKNOWN ∧
      (mr.getHistoryItem i).rawData = none ∧
      ∀ slots : List RFSignal, ({ mr with history := slots }).getHistoryItem i = RFSignal.zero) := by
  constructor
  · intro h
    have hc : ¬ (0 ≤ i ∧ i < mi.historyCount) := by
      simp only [IRModule.getHistoryCount] at h
      omega
    have e : mi.getHistoryItem i = IRSignal.zero := by
      simp only [IRModule.getHistoryItem, hc, if_false]
    refine ⟨e, by rw [e]; rfl, by rw [e]; rfl, ?_⟩
    intro slots
    simp only [IRModule.getHistoryItem, hc, if_false]
  · intro h
    have hc : ¬ (0 ≤ i ∧ i < mr.historyCount) := by
      simp only [RFModule.getHistoryCount] at h
      omega
    have e : mr.getHistoryItem i = RFSignal.zero := by
      simp only [RFModule.getHistoryItem, hc, if_false]
    refine ⟨e, by rw [e]; rfl, by rw [e]; rfl, ?_⟩
    intro slots
    simp only [RFModule.getHistoryItem, hc, if_false]

set_option maxRecDepth 100000 in
/-- C17 after three pushes and a `clearHistory()`: physical slot 0 still holds
the first signal pushed, and `getHistoryItem(0)` returns the default signal. -/
theorem C17_history_lookup_out_of_range_witness :
    ((IRModule.new.addAllToHistory
        ((List.range 3).map (fun k => { IRSignal.zero with command := k + 1 }))).clearHistory).history.getD
          0 IRSignal.zero = { IRSignal.zero with command := 1 } ∧
    ((IRModule.new.addAllToHistory
        ((List.range 3).map (fun k => { IRSignal.zero with command := k + 1 }))).clearHistory).getHistoryItem
          0 = IRSignal.zero ∧
    ((RFModule.new.addAllToHistory
        ((List.range 3).map (fun k => { RFSignal.zero with data := k + 1 }))).clearHistory).getHistoryItem
          0 = RFSignal.zero :=
  ⟨by decide,
   ((C17_history_lookup_out_of_range _ RFModule.new 0).1 (Or.inr (by decide))).1,
   ((C17_history_lookup_out_of_range IRModule.new _ 0).2 (Or.inr (by decide))).1⟩

theorem HistoryRing.get_eq_of_holds {σ : Type} (r1 r2 : HistoryRing σ) (l : List σ) (zero : σ)
    (h1 : r1.Holds l) (h2 : r2.Holds l) (i : Int) : r1.get zero i = r2.get zero i := by
  by_cases hi : 0 ≤ i ∧ i < ((min l.length 50 : Nat) : Int)
  · obtain ⟨k, rfl⟩ := Int.eq_ofNat_of_zero_le hi.1
    have hk : k < min l.length 50 := by omega
    have e1 := HistoryRing.get_of_holds r1 l zero h1 k hk
    have e2 := HistoryRing.get_of_holds r2 l zero h2 k hk
    exact Option.some.inj (e1.trans e2.symm)
  · have c1 : ¬ (0 ≤ i ∧ i < r1.count) := by rw [h1.2.1]; exact hi
    have c2 : ¬ (0 ≤ i ∧ i < r2.count) := by rw [h2.2.1]; exact hi
    simp only [HistoryRing.get, c1, c2, if_false]

/-- C18. `clearHistory()` sets count and cursor to 0 and leaves the contents of
the physical slots (and every other field) unchanged, so `getHistoryCount()` is
0 afterwards; after it, for every sequence of pushes and every lookup index,
the count and the signal returned are those of a freshly constructed ring
after the same pushes. -/
theorem C18_clearHistory_resets (mi : IRModule) (mr : RFModule)
    (hi : mi.history.length = 50) (hr : mr.history.length = 50) :
    (mi.clearHistory = { mi with historyCount := 0, historyIndex := 0 } ∧
      mi.clearHistory.history = mi.history ∧
      mi.clearHistory.getHistoryCount = 0 ∧
      ∀ (sigs : List IRSignal) (i : Int),
        (mi.clearHistory.addAllToHistory sigs).getHistoryCount
          = (IRModule.new.addAllToHistory sigs).getHistoryCount ∧
        (mi.clearHistory.addAllToHistory sigs).getHistoryItem i
          = (IRModule.new.addAllToHistory sigs).getHistoryItem i) ∧
    (mr.clearHistory = { mr with historyCount := 0, historyIndex := 0 } ∧
      mr.clearHistory.history = mr.history ∧
      mr.clearHistory.getHistoryCount = 0 ∧
      ∀ (sigs : List RFSignal) (i : Int),
        (mr.clearHistory.addAllToHistory sigs).getHistoryCount
          = (RFModule.new.addAllToHistory sigs).getHistoryCount ∧
        (mr.clearHistory.addAllToHistory sigs).getHistoryItem i
          = (RFModule.new.addAllToHistory sigs).getHistoryItem i) := by
  refine ⟨⟨rfl, rfl, rfl, ?_⟩, ⟨rfl, rfl, rfl, ?_⟩⟩
  · intro sigs i
    have h1 := IRModule.ir_holds_addAllToHistory mi.clearHistory hi rfl rfl sigs
    have h2 := IRModule.ir_holds_addAllToHistory IRModule.new rfl rfl rfl sigs
    refine ⟨?_, HistoryRing.get_eq_of_holds _ _ sigs IRSignal.zero h1 h2 i⟩
    exact h1.2.1.trans h2.2.1.symm
  · intro sigs i
    have h1 := RFModule.rf_holds_addAllToHistory mr.clearHistory hr rfl rfl sigs
    have h2 := RFModule.rf_holds_addAllToHistory RFModule.new rfl rfl rfl sigs
    refine ⟨?_, HistoryRing.get_eq_of_holds _ _ sigs RFSignal.zero h1 h2 i⟩
    exact h1.2.1.trans h2.2.1.symm

set_option maxRecDepth 100000 in
/-- C18 at a ring that held three signals before the clear: after the clear the
count is 0, and after one further push lookup 0 returns the signal pushed and
lookup 1 the default signal, as on a fresh ring. -/
theorem C18_clearHistory_resets_witness :
    ((IRModule.new.addAllToHistory
        ((List.range 3).map (fun k => { IRSignal.zero with command := k + 1 }))).clearHistory).getHistoryCount
      = 0 ∧
    (((IRModule.new.addAllToHistory
        ((List.range 3).map (fun k => { IRSignal.zero with command := k + 1 }))).clearHistory).addAllToHistory
          [{ IRSignal.zero with command := 9 }]).getHistoryItem 1
      = (IRModule.new.addAllToHistory [{ IRSignal.zero with command := 9 }]).getHistoryItem 1 ∧
    (IRModule.new.addAllToHistory [{ IRSignal.zero with command := 9 }]).getHistoryItem 1
      = IRSignal.zero :=
  have h := C18_clearHistory_resets
    (IRModule.new.addAllToHistory
      ((List.range 3).map (fun k => { IRSignal.zero with command := k + 1 })))
    RFModule.new (by decide) (by decide)
  ⟨h.1.2.2.1, (h.1.2.2.2 [{ IRSignal.zero with command := 9 }] 1).2, by decide⟩

/-! ### The edge buffer -/

theorem IRModule.irInterruptHandler_spec (m : IRModule) (now : Nat)
    (hrecv : m.isReceivingSignal = true) (hidx : m.rawIndex ≤ 299) :
    (m.irInterruptHandler now).isReceivingSignal = true ∧
    (m.irInterruptHandler now).rawIndex = min (m.rawIndex + 1) 299 ∧
    (m.irInterruptHandler now).rawBuffer.length = m.rawBuffer.length ∧
    (∀ j, j < m.rawIndex →
      (m.irInterruptHandler now).rawBuffer.getD j 0 = m.rawBuffer.getD j 0) ∧
    (m.rawIndex = 299 → m.irInterruptHandler now = m) := by
  unfold IRModule.irInterruptHandler IRModule.captureRawData
  rw [if_pos hrecv]
  by_cases h : m.rawIndex < IRModule.MAX_RAW_LENGTH - 1
  · have h2 : m.rawIndex < 299 := h
    rw [if_pos h]
    refine ⟨hrecv, by simp only; omega, by simp, ?_, by omega⟩
    intro j hj
    simp only [List.getD_eq_getElem?_getD, List.getElem?_set]
    rw [if_neg (by omega)]
  · have h2 : ¬ m.rawIndex < 299 := h
    rw [if_neg h]
    exact ⟨hrecv, by omega, rfl, fun _ _ => rfl, fun _ => rfl⟩

theorem RFModule.rfInterruptHandler_spec (m : RFModule) (now : Nat)
    (hrecv : m.isReceivingSignal = true) (hidx : m.rawIndex ≤ 999) :
    (m.rfInterruptHandler now).isReceivingSignal = true ∧
    (m.rfInterruptHandler now).rawIndex = min (m.rawIndex + 1) 999 ∧
    (m.rfInterruptHandler now).rawBuffer.length = m.rawBuffer.length ∧
    (∀ j, j < m.rawIndex →
      (m.rfInterruptHandler now).rawBuffer.getD j 0 = m.rawBuffer.getD j 0) ∧
    (m.rawIndex = 999 → m.rfInterruptHandler now = m) := by
  unfold RFModule.rfInterruptHandler RFModule.captureRawData
  rw [if_pos hrecv]
  by_cases h : m.rawIndex < RFModule.MAX_RAW_LENGTH - 1
  · have h2 : m.rawIndex < 999 := h
    rw [if_pos h]
    refine ⟨hrecv, by simp only; omega, by simp, ?_, by omega⟩
    intro j hj
    simp only [List.getD_eq_getElem?_getD, List.getElem?_set]
    rw [if_neg (by omega)]
  · have h2 : ¬ m.rawIndex < 999 := h
    rw [if_neg h]
    exact ⟨hrecv, by omega, rfl, fun _ _ => rfl, fun _ => rfl⟩

theorem IRModule.edges_spec (times : List Nat) :
    ∀ m : IRModule, m.isReceivingSignal = true → m.rawIndex ≤ 299 →
      (m.edges times).isReceivingSignal = true ∧
      (m.edges times).rawIndex = min (m.rawIndex + times.length) 299 ∧
      (m.edges times).rawBuffer.length = m.rawBuffer.length ∧
      (∀ j, j < m.rawIndex → (m.edges times).rawBuffer.getD j 0 = m.rawBuffer.getD j 0) := by
  induction times with
  | nil => intro m hrecv hidx; exact ⟨hrecv, by simp [IRModule.edges]; omega, rfl, fun _ _ => rfl⟩
  | cons t rest ih =>
    intro m hrecv hidx
    obtain ⟨h1, h2, h3, h4, _⟩ := IRModule.irInterruptHandler_spec m t hrecv hidx
    obtain ⟨g1, g2, g3, g4⟩ := ih (m.irInterruptHandler t) h1 (by omega)
    have e : m.edges (t :: rest) = (m.irInterruptHandler t).edges rest := rfl
    rw [e]
    refine ⟨g1, by rw [g2, h2, List.length_cons]; omega, by rw [g3, h3], ?_⟩
    intro j hj
    rw [g4 j (by omega), h4 j hj]

theorem RFModule.rf_edges_spec (times : List Nat) :
    ∀ m : RFModule, m.isReceivingSignal = true → m.rawIndex ≤ 999 →
      (m.edges times).isReceivingSignal = true ∧
      (m.edges times).rawIndex = min (m.rawIndex + times.length) 999 ∧
      (m.edges times).rawBuffer.length = m.rawBuffer.length ∧
      (∀ j, j < m.rawIndex → (m.edges times).rawBuffer.getD j 0 = m.rawBuffer.getD j 0) := by
  induction times with
  | nil => intro m hrecv hidx; exact ⟨hrecv, by simp [RFModule.edges]; omega, rfl, fun _ _ => rfl⟩
  | cons t rest ih =>
    intro m hrecv hidx
    obtain ⟨h1, h2, h3, h4, _⟩ := RFModule.rfInterruptHandler_spec m t hrecv hidx
    obtain ⟨g1, g2, g3, g4⟩ := ih (m.rfInterruptHandler t) h1 (by omega)
    have e : m.edges (t :: rest) = (m.rfInterruptHandler t).edges rest := rfl
    rw [e]
    refine ⟨g1, by rw [g2, h2, List.length_cons]; omega, by rw [g3, h3], ?_⟩
    intro j hj
    rw [g4 j (by omega), h4 j hj]

/-- C19 (as the code behaves). In a capture session started on an initialised
channel, after `k` transitions the edge sampler has stored `min k 299` entries
for infrared and `min k 999` for sub-GHz (the guard is
`rawIndex < MAX_RAW_LENGTH - 1`): the write index never exceeds the capacity,
the buffer keeps its length, later transitions leave the entries already
stored as they are, and once 299 (999) transitions have arrived every further
transition leaves the whole module, stored entries and index included,
unchanged. -/
theorem C19_edge_buffer_capacity (mi : IRModule) (mr : RFModule) (now : Nat)
    (times more : List Nat) :
    (mi.irInitialized = true →
      ((mi.startReceiving now).edges times).rawIndex = min times.length 299 ∧
      ((mi.startReceiving now).edges times).rawIndex ≤ IRModule.MAX_RAW_LENGTH ∧
      ((mi.startReceiving now).edges times).rawBuffer.length = mi.rawBuffer.length ∧
      (∀ j, j < ((mi.startReceiving now).edges times).rawIndex →
        (((mi.startReceiving now).edges times).edges more).rawBuffer.getD j 0
          = ((mi.startReceiving now).edges times).rawBuffer.getD j 0) ∧
      (299 ≤ times.length → ∀ t,
        ((mi.startReceiving now).edges times).irInterruptHandler t
          = (mi.startReceiving now).edges times)) ∧
    (mr.rfInitialized = true →
      ((mr.startReceiving now).edges times).rawIndex = min times.length 999 ∧
      ((mr.startReceiving now).edges times).rawIndex ≤ RFModule.MAX_RAW_LENGTH ∧
      ((mr.startReceiving now).edges times).rawBuffer.length = mr.rawBuffer.length ∧
      (∀ j, j < ((mr.startReceiving now).edges times).rawIndex →
        (((mr.startReceiving now).edges times).edges more).rawBuffer.getD j 0
          = ((mr.startReceiving now).edges times).rawBuffer.getD j 0) ∧
      (999 ≤ times.length → ∀ t,
        ((mr.startReceiving now).edges times).rfInterruptHandler t
          = (mr.startReceiving now).edges times)) := by
  constructor
  · intro hinit
    have hs : (mi.startReceiving now).isReceivingSignal = true ∧
        (mi.startReceiving now).rawIndex = 0 ∧
        (mi.startReceiving now).rawBuffer = mi.rawBuffer := by
      simp [IRModule.startReceiving, hinit]
    obtain ⟨g1, g2, g3, _⟩ := IRModule.edges_spec times (mi.startReceiving now) hs.1 (by omega)
    rw [hs.2.1, Nat.zero_add] at g2
    refine ⟨g2, ?_, by rw [g3, hs.2.2], ?_, ?_⟩
    · rw [g2]
      show min times.length 299 ≤ 300
      omega
    · intro j hj
      exact (IRModule.edges_spec more _ g1 (by omega)).2.2.2 j hj
    · intro hk t
      exact (IRModule.irInterruptHandler_spec _ t g1 (by omega)).2.2.2.2 (by omega)
  · intro hinit
    have hs : (mr.startReceiving now).isReceivingSignal = true ∧
        (mr.startReceiving now).rawIndex = 0 ∧
        (mr.startReceiving now).rawBuffer = mr.rawBuffer := by
      simp [RFModule.startReceiving, hinit]
    obtain ⟨g1, g2, g3, _⟩ := RFModule.rf_edges_spec times (mr.startReceiving now) hs.1 (by omega)
    rw [hs.2.1, Nat.zero_add] at g2
    refine ⟨g2, ?_, by rw [g3, hs.2.2], ?_, ?_⟩
    · rw [g2]
      show min times.length 999 ≤ 1000
      omega
    · intro j hj
      exact (RFModule.rf_edges_spec more _ g1 (by omega)).2.2.2 j hj
    · intro hk t
      exact (RFModule.rfInterruptHandler_spec _ t g1 (by omega)).2.2.2.2 (by omega)

/-- C19 at an infrared session of 300 transitions and a sub-GHz session of 1000
transitions: the indices end at 299 and 999. -/
theorem C19_edge_buffer_capacity_witness :
    (IRModule.ready.irInitialized = true ∧ (IRModule.session 300).rawIndex = 299) ∧
    (RFModule.ready.rfInitialized = true ∧ (RFModule.session 1000).rawIndex = 999) := by
  have h := C19_edge_buffer_capacity IRModule.ready RFModule.ready 1000
  refine ⟨⟨rfl, ?_⟩, ⟨rfl, ?_⟩⟩
  · have e := ((h ((List.range 300).map (fun k => 1000600 + 600 * k)) []).1 rfl).1
    simpa using e
  · have e := ((h ((List.range 1000).map (fun k => 1000600 + 600 * k)) []).2 rfl).1
    simpa using e

/-- C19 as stated fails: after 300 transitions the infrared sampler holds 299
entries, not `min 300 300`, and after 1000 transitions the sub-GHz sampler
holds 999, not `min 1000 1000`; the last cell of either buffer is never
written. -/
theorem C19_last_cell_unused :
    ((IRModule.session 300).isReceiving = true ∧ (IRModule.session 300).rawIndex = 299 ∧
      (IRModule.session 300).rawIndex ≠ min 300 300) ∧
    ((RFModule.session 1000).isReceiving = true ∧ (RFModule.session 1000).rawIndex = 999 ∧
      (RFModule.session 1000).rawIndex ≠ min 1000 1000) := by
  have hi := IRModule.edges_spec ((List.range 300).map (fun k => 1000600 + 600 * k))
    (IRModule.ready.receiveSignal 1000).2 rfl (by decide)
  have hr := RFModule.rf_edges_spec ((List.range 1000).map (fun k => 1000600 + 600 * k))
    (RFModule.ready.receiveSignal 1000).2 rfl (by decide)
  have ei : (IRModule.session 300).rawIndex = 299 := by
    have := hi.2.1
    simpa [IRModule.session] using this
  have er : (RFModule.session 1000).rawIndex = 999 := by
    have := hr.2.1
    simpa [RFModule.session] using this
  refine ⟨⟨hi.1, ei, ?_⟩, ⟨hr.1, er, ?_⟩⟩
  · rw [ei]; decide
  · rw [er]; decide

/-! ### Frequency scan -/

theorem RFModule.decodeSignal_module (freqStr : Nat → String) (m : RFModule)
    (sig : Option RFSignal) (t1 t2 : Nat) :
    ∃ ext, (RFModule.decodeSignal freqStr m sig t1 t2).2.2 = { m with heap := m.heap ++ ext } := by
  unfold RFModule.decodeSignal
  cases sig with
  | none => exact ⟨[], by simp⟩
  | some s =>
    dsimp only
    split_ifs
    · exact ⟨[], by simp⟩
    · exact ⟨[], by simp⟩
    · exact ⟨[], by simp⟩
    · exact ⟨[], by simp⟩
    · exact ⟨[], by simp⟩
    · exact ⟨_, rfl⟩

theorem RFModule.scanStep_scan (m : RFModule) :
    m.scanStep.frequencyScanning = m.frequencyScanning ∧
    m.scanStep.scanStartFreq = m.scanStartFreq ∧
    m.scanStep.scanEndFreq = m.scanEndFreq ∧
    m.scanStep.currentFrequency =
      (if m.frequencyScanning = true then
        (if (m.currentFrequency + 100000) % 2 ^ 32 > m.scanEndFreq then m.scanStartFreq
         else (m.currentFrequency + 100000) % 2 ^ 32)
       else m.currentFrequency) := by
  unfold RFModule.scanStep RFModule.setFrequency
  dsimp only
  split_ifs <;> simp

theorem RFModule.update_scan (freqStr : Nat → String) (m : RFModule) (currentTime t1 t2 : Nat)
    (hinit : m.rfInitialized = true) :
    (RFModule.update freqStr m currentTime t1 t2).1.rfInitialized = true ∧
    (RFModule.update freqStr m currentTime t1 t2).1.frequencyScanning = m.frequencyScanning ∧
    (RFModule.update freqStr m currentTime t1 t2).1.scanStartFreq = m.scanStartFreq ∧
    (RFModule.update freqStr m currentTime t1 t2).1.scanEndFreq = m.scanEndFreq ∧
    (RFModule.update freqStr m currentTime t1 t2).1.currentFrequency
      = m.scanStep.currentFrequency := by
  obtain ⟨s1, s2, s3, _⟩ := RFModule.scanStep_scan m
  have s0 := (RFModule.scanStep_frame m).2.2.2.2.2.2.2.2.2
  generalize hm0 : m.scanStep = m0 at s0 s1 s2 s3
  unfold RFModule.update
  rw [if_neg (by simp [hinit]), hm0]
  dsimp only
  by_cases hq : m0.isReceivingSignal = true ∧ usub32 currentTime m0.lastEdgeTime > 200
  · rw [if_pos hq]
    by_cases hl : m0.rawIndex > 10
    · rw [if_pos hl]
      obtain ⟨ext, hext⟩ := RFModule.decodeSignal_module freqStr
        { m0 with signalReceived := true } (some m0.currentSignal) t1 t2
      rcases hres : RFModule.decodeSignal freqStr { m0 with signalReceived := true }
        (some m0.currentSignal) t1 t2 with ⟨ok, sig, m2⟩
      rw [hres] at hext
      simp only at hext
      subst hext
      cases ok <;>
        simp [RFModule.stopReceiving, RFModule.addToHistory, s0, s1, s2, s3, hinit]
    · rw [if_neg hl]
      simp [RFModule.stopReceiving, s0, s1, s2, s3, hinit]
  · rw [if_neg hq]
    simp [s0, s1, s2, s3, hinit]

theorem RFModule.startFrequencyScan_spec (m : RFModule) (low high now : Nat)
    (hinit : m.rfInitialized = true) :
    (m.startFrequencyScan low high now).rfInitialized = true ∧
    (m.startFrequencyScan low high now).frequencyScanning = true ∧
    (m.startFrequencyScan low high now).scanStartFreq = low ∧
    (m.startFrequencyScan low high now).scanEndFreq = high ∧
    (m.startFrequencyScan low high now).currentFrequency = low := by
  simp [RFModule.startFrequencyScan, RFModule.startReceiving, hinit]

theorem RFModule.ticks_scan (freqStr : Nat → String) (low high : Nat)
    (hmax : high + 100000 < 2 ^ 32) (clock : List (Nat × Nat × Nat)) :
    ∀ m : RFModule, m.rfInitialized = true → m.frequencyScanning = true →
      m.scanStartFreq = low → m.scanEndFreq = high →
      low ≤ m.currentFrequency → m.currentFrequency ≤ high →
      (RFModule.ticks freqStr m clock).frequencyScanning = true ∧
      low ≤ (RFModule.ticks freqStr m clock).currentFrequency ∧
      (RFModule.ticks freqStr m clock).currentFrequency ≤ high ∧
      (m.currentFrequency + clock.length * 100000 ≤ high →
        (RFModule.ticks freqStr m clock).currentFrequency
          = m.currentFrequency + clock.length * 100000) ∧
      (∀ n, clock.length = n + 1 → m.currentFrequency + n * 100000 ≤ high →
        high < m.currentFrequency + (n + 1) * 100000 →
        (RFModule.ticks freqStr m clock).currentFrequency = low) := by
  induction clock with
  | nil =>
    intro m _ hs _ _ hlo hhi
    exact ⟨hs, hlo, hhi, fun _ => by simp [RFModule.ticks], fun n hn => by simp at hn⟩
  | cons c rest ih =>
    intro m hinit hs hstart hend hlo hhi
    obtain ⟨u1, u2, u3, u4, u5⟩ := RFModule.update_scan freqStr m c.1 c.2.1 c.2.2 hinit
    have hf := (RFModule.scanStep_scan m).2.2.2
    rw [if_pos hs, hend, hstart, Nat.mod_eq_of_lt (by omega)] at hf
    rw [hf] at u5
    have e : RFModule.ticks freqStr m (c :: rest)
        = RFModule.ticks freqStr (RFModule.update freqStr m c.1 c.2.1 c.2.2).1 rest := rfl
    rw [e]
    by_cases hw : m.currentFrequency + 100000 > high
    · rw [if_pos hw] at u5
      obtain ⟨g1, g2, g3, g4, g5⟩ := ih _ u1 (u2.trans hs) (u3.trans hstart) (u4.trans hend)
        (by omega) (by omega)
      refine ⟨g1, g2, g3, ?_, ?_⟩
      · intro hle
        simp only [List.length_cons] at hle
        have : (rest.length + 1) * 100000 = rest.length * 100000 + 100000 := by ring
        omega
      · intro n hn hle hgt
        simp only [List.length_cons] at hn
        have hn0 : n = 0 := by
          by_contra hne
          have : 1 ≤ n := by omega
          have : 100000 ≤ n * 100000 := Nat.le_mul_of_pos_left 100000 (by omega)
          omega
        subst hn0
        have hr : rest = [] := List.length_eq_zero.mp (by omega)
        subst hr
        simp only [RFModule.ticks, List.foldl_nil]
        exact u5
    · rw [if_neg hw] at u5
      obtain ⟨g1, g2, g3, g4, g5⟩ := ih _ u1 (u2.trans hs) (u3.trans hstart) (u4.trans hend)
        (by omega) (by omega)
      refine ⟨g1, g2, g3, ?_, ?_⟩
      · intro hle
        simp only [List.length_cons] at hle
        have e2 : (rest.length + 1) * 100000 = rest.length * 100000 + 100000 := by ring
        rw [g4 (by omega), u5]
        simp only [List.length_cons]
        omega
      · intro n hn hle hgt
        simp only [List.length_cons] at hn
        have hn1 : 1 ≤ n := by
          by_contra hne
          have : n = 0 := by omega
          subst this
          omega
        obtain ⟨k, rfl⟩ : ∃ k, n = k + 1 := ⟨n - 1, by omega⟩
        have e2 : (k + 1) * 100000 = k * 100000 + 100000 := by ring
        have e3 : (k + 1 + 1) * 100000 = k * 100000 + 200000 := by ring
        exact g5 k (by omega) (by omega) (by omega)

/-- C13. Frequency scan wrap: for `low <= high` with `high - low` a multiple of
100 kHz and `high + 100000 < 2^32`, after `startFrequencyScan(low, high)` on an
initialised channel the frequency after `j` `update()` ticks is
`low + j * 100000` for every `j <= (high - low) / 100000`, and after exactly
`(high - low) / 100000 + 1` ticks it is `low` again, whatever the clock
readings of the ticks. -/
theorem C13_scan_wrap (freqStr : Nat → String) (m : RFModule) (low high now : Nat)
    (clock : List (Nat × Nat × Nat)) (hinit : m.rfInitialized = true) (hle : low ≤ high)
    (hmul : 100000 ∣ high - low) (hmax : high + 100000 < 2 ^ 32) :
    (clock.length ≤ (high - low) / 100000 →
      (RFModule.ticks freqStr (m.startFrequencyScan low high now) clock).getCurrentScanFrequency
        = low + clock.length * 100000) ∧
    (clock.length = (high - low) / 100000 + 1 →
      (RFModule.ticks freqStr (m.startFrequencyScan low high now) clock).getCurrentScanFrequency
        = low) := by
  obtain ⟨k, hk⟩ := hmul
  have hdiv : (high - low) / 100000 = k := by rw [hk]; simp
  obtain ⟨s1, s2, s3, s4, s5⟩ := RFModule.startFrequencyScan_spec m low high now hinit
  obtain ⟨_, _, _, g4, g5⟩ := RFModule.ticks_scan freqStr low high hmax clock
    (m.startFrequencyScan low high now) s1 s2 s3 s4 (by omega) (by omega)
  rw [s5] at g4 g5
  rw [hdiv]
  constructor
  · intro hlen
    have : clock.length * 100000 ≤ k * 100000 := Nat.mul_le_mul_right _ hlen
    exact g4 (by omega)
  · intro hlen
    have e : (k + 1) * 100000 = k * 100000 + 100000 := by ring
    exact g5 k hlen (by omega) (by omega)

/-- C13 at `low` = 300 MHz, `high` = 928 MHz: 6281 ticks return the frequency to
exactly 300 MHz. -/
theorem C13_scan_wrap_witness :
    RFModule.ready.rfInitialized = true ∧ (300000000 : Nat) ≤ 928000000 ∧
    100000 ∣ 928000000 - 300000000 ∧ 928000000 + 100000 < 2 ^ 32 ∧
    (RFModule.ticks (fun _ => "") (RFModule.ready.startFrequencyScan 300000000 928000000 0)
      (List.replicate 6281 (0, 0, 0))).getCurrentScanFrequency = 300000000 :=
  ⟨rfl, by decide, by decide, by decide,
   (C13_scan_wrap (fun _ => "") RFModule.ready 300000000 928000000 0
      (List.replicate 6281 (0, 0, 0)) rfl (by decide) (by decide) (by decide)).2
      (by rw [List.length_replicate])⟩

set_option maxRecDepth 100000 in
/-- C20 as stated fails: on an initialised channel a Raw signal whose payload is
a non-null array of length zero is transmitted with return value true, not
false (infrared at 38000 Hz and sub-GHz at 433.92 MHz); the pin is not driven
high. -/
theorem C20_empty_payload_succeeds :
    ((({ IRModule.ready with heap := [[]] } : IRModule).transmitSignal
        (some { IRSignal.zero with protocol := IRProtocol.IR_RAW, rawData := some 0,
                                   rawLength := 0, frequency := 38000 })).map
        (fun r => (r.1, drivesHigh r.2.1)) = some (true, false)) ∧
    ((({ RFModule.ready with heap := [[]] } : RFModule).transmitSignal
        (some { RFSignal.zero with protocol := RFProtocol.RF_RAW, rawData := some 0,
                                   rawLength := 0, frequency := 433920000 })).map
        (fun r => (r.1, drivesHigh r.2.1)) = some (true, false)) := by
  decide

/-! ### Raw payloads -/

theorem IRModule.ir_decodeSignal_cases (m : IRModule) (s : IRSignal) (t1 t2 : Nat) :
    (m.rawIndex < 10 ∧ m.decodeSignal (some s) t1 t2 = (false, some s, m)) ∨
    (10 ≤ m.rawIndex ∧ ∃ out, out.protocol = IRProtocol.IR_NEC ∧ out.rawData = s.rawData ∧
      out.rawLength = s.rawLength ∧ m.decodeSignal (some s) t1 t2 = (true, some out, m)) ∨
    (10 ≤ m.rawIndex ∧ ∃ out, out.protocol = IRProtocol.IR_RAW ∧
      out.rawData = some m.heap.length ∧ out.rawLength = m.rawIndex ∧
      m.decodeSignal (some s) t1 t2
        = (true, some out, { m with heap := m.heap ++ [memcpy m.rawBuffer m.rawIndex] })) := by
  by_cases h10 : m.rawIndex < 10
  · left
    exact ⟨h10, by simp [IRModule.decodeSignal, h10]⟩
  · right
    have h10' : 10 ≤ m.rawIndex := by omega
    cases hnec : (m.decodeNEC s t1).1 with
    | true =>
      left
      refine ⟨h10', _, rfl, ?_, ?_, IRModule.decodeSignal_nec m s t1 t2 h10' hnec⟩
      · rcases IRModule.decodeNEC_eq m s t1 with ⟨_, a, c, _, _, he⟩ | ⟨_, he⟩ <;> rw [he]
      · rcases IRModule.decodeNEC_eq m s t1 with ⟨_, a, c, _, _, he⟩ | ⟨_, he⟩ <;> rw [he]
    | false =>
      right
      exact ⟨h10', _, rfl, rfl, rfl, IRModule.decodeSignal_raw m s t1 t2 h10' hnec⟩

theorem IRModule.ir_update_cases (m : IRModule) (currentTime t1 t2 : Nat) :
    m.update currentTime t1 t2 = (m, []) ∨
    m.update currentTime t1 t2 = ({ m with isReceivingSignal := false }, [Call.stopReceiving]) ∨
    (10 < m.rawIndex ∧ ∃ out m2,
      ({ m with signalReceived := true }).decodeSignal (some m.currentSignal) t1 t2
        = (true, some out, m2) ∧
      m.update currentTime t1 t2 =
        ((({ m2 with currentSignal := out }).addToHistory (some out)).stopReceiving,
         [Call.decodeSignal, Call.addToHistory, Call.stopReceiving])) := by
  by_cases hinit : m.irInitialized = true
  · by_cases hq : m.isReceivingSignal = true ∧ usub32 currentTime m.lastEdgeTime > 100
    · by_cases hl : 10 < m.rawIndex
      · right; right
        exact ⟨hl, IRModule.update_long m currentTime t1 t2 hinit hq.1 hq.2 hl⟩
      · right; left
        exact IRModule.update_short m currentTime t1 t2 hinit hq.1 hq.2 (by omega)
    · left
      unfold IRModule.update
      rw [if_neg (by simp [hinit]), if_neg hq]
  · left
    unfold IRModule.update
    rw [if_pos (by simpa using hinit)]

theorem IRModule.rawHasPayload_mono (m m2 : IRModule) (x : IRSignal) (ext : Heap)
    (hheap : m2.heap = m.heap ++ ext) (h : m.RawHasPayload x) : m2.RawHasPayload x := by
  intro hp
  obtain ⟨p, payload, h1, h2, h3⟩ := h hp
  refine ⟨p, payload, h1, ?_, h3⟩
  have hlt : p < m.heap.length := by
    by_contra hge
    rw [List.getElem?_eq_none (by omega)] at h2
    exact absurd h2 (by simp)
  rw [hheap, List.getElem?_append_left hlt, h2]

/-- What one `update()` tick does to the free store, the history ring and the
current signal. -/
theorem IRModule.update_effect (m : IRModule) (currentTime t1 t2 : Nat) :
    ∃ ext, (m.update currentTime t1 t2).1.heap = m.heap ++ ext ∧
      ((Call.addToHistory ∉ (m.update currentTime t1 t2).2 ∧
          (m.update currentTime t1 t2).1.ring = m.ring ∧
          (m.update currentTime t1 t2).1.currentSignal = m.currentSignal) ∨
       (Call.addToHistory ∈ (m.update currentTime t1 t2).2 ∧
          (m.update currentTime t1 t2).1.ring
            = m.ring.push (m.update currentTime t1 t2).1.currentSignal ∧
          (m.update currentTime t1 t2).1.RawHasPayload
            (m.update currentTime t1 t2).1.currentSignal ∧
          ((m.update currentTime t1 t2).1.currentSignal.protocol ≠ IRProtocol.IR_RAW →
            (m.update currentTime t1 t2).1.currentSignal.rawData = m.currentSignal.rawData))) := by
  rcases IRModule.ir_update_cases m currentTime t1 t2 with h | h | ⟨hl, out, m2, hd, h⟩
  · rw [h]
    exact ⟨[], by simp, Or.inl ⟨by simp, rfl, rfl⟩⟩
  · rw [h]
    exact ⟨[], by simp, Or.inl ⟨by simp, rfl, rfl⟩⟩
  · rw [h]
    rcases IRModule.ir_decodeSignal_cases { m with signalReceived := true } m.currentSignal t1 t2
      with ⟨hlt, _⟩ | ⟨_, o, hp, hr, _, he⟩ | ⟨_, o, hp, hr, hlen, he⟩
    · exact absurd hlt (by simp only; omega)
    · rw [hd] at he
      simp only [Prod.mk.injEq, Option.some.injEq, true_and] at he
      obtain ⟨rfl, rfl⟩ := he
      refine ⟨[], by simp [IRModule.addToHistory, IRModule.stopReceiving], Or.inr ⟨by simp, ?_, ?_, ?_⟩⟩
      · simp [IRModule.addToHistory, IRModule.stopReceiving, IRModule.ring, HistoryRing.push,
          IRModule.MAX_HISTORY]
      · intro hraw
        simp [IRModule.addToHistory, IRModule.stopReceiving, hp] at hraw
      · intro _
        simpa [IRModule.addToHistory, IRModule.stopReceiving] using hr
    · rw [hd] at he
      simp only [Prod.mk.injEq, Option.some.injEq, true_and] at he
      obtain ⟨rfl, rfl⟩ := he
      refine ⟨[memcpy m.rawBuffer m.rawIndex],
        by simp [IRModule.addToHistory, IRModule.stopReceiving], Or.inr ⟨by simp, ?_, ?_, ?_⟩⟩
      · simp [IRModule.addToHistory, IRModule.stopReceiving, IRModule.ring, HistoryRing.push,
          IRModule.MAX_HISTORY]
      · intro _
        refine ⟨m.heap.length, memcpy m.rawBuffer m.rawIndex, ?_, ?_, ?_⟩
        · simpa [IRModule.addToHistory, IRModule.stopReceiving] using hr
        · simp [IRModule.addToHistory, IRModule.stopReceiving]
        · simp [IRModule.addToHistory, IRModule.stopReceiving, memcpy_length, hlen]
      · intro hne
        simp [IRModule.addToHistory, IRModule.stopReceiving, hp] at hne

theorem IRModule.ir_decodeSignal_module (m : IRModule) (s : IRSignal) (t1 t2 : Nat) :
    ∃ ext, (m.decodeSignal (some s) t1 t2).2.2 = { m with heap := m.heap ++ ext } := by
  rcases IRModule.ir_decodeSignal_cases m s t1 t2 with ⟨_, he⟩ | ⟨_, o, _, _, _, he⟩ |
    ⟨_, o, _, _, _, he⟩
  · rw [he]; exact ⟨[], by simp⟩
  · rw [he]; exact ⟨[], by simp⟩
  · rw [he]; exact ⟨_, rfl⟩

/-- What one call does to the free store, the history ring and the current
signal. -/
theorem IRModule.step_effect (m : IRModule) (op : IROp) :
    ∃ ext, (m.step op).heap = m.heap ++ ext ∧
      ((Call.addToHistory ∉ m.stepCalls op ∧
          (op ≠ IROp.clearHistory → (m.step op).ring = m.ring) ∧
          (m.step op).history = m.history ∧
          (m.step op).currentSignal = m.currentSignal) ∨
       (Call.addToHistory ∈ m.stepCalls op ∧
          (m.step op).ring = m.ring.push (m.step op).currentSignal ∧
          (m.step op).RawHasPayload (m.step op).currentSignal)) := by
  cases op with
  | init => exact ⟨[], by rw [List.append_nil]; rfl, Or.inl ⟨by simp [IRModule.stepCalls],
      fun _ => rfl, rfl, rfl⟩⟩
  | receiveSignal now =>
    refine ⟨[], ?_, Or.inl ⟨by simp [IRModule.stepCalls], fun _ => ?_, ?_, ?_⟩⟩ <;>
      (simp only [IRModule.step, IRModule.receiveSignal, IRModule.startReceiving]
       split <;> simp [IRModule.ring])
  | edge now =>
    refine ⟨[], ?_, Or.inl ⟨by simp [IRModule.stepCalls], fun _ => ?_, ?_, ?_⟩⟩ <;>
      (simp only [IRModule.step, IRModule.irInterruptHandler, IRModule.captureRawData]
       split_ifs <;> simp [IRModule.ring])
  | clearHistory =>
    exact ⟨[], by rw [List.append_nil]; rfl,
      Or.inl ⟨by simp [IRModule.stepCalls], fun h => absurd rfl h, rfl, rfl⟩⟩
  | decodeSignal s t1 t2 =>
    obtain ⟨ext, he⟩ := IRModule.ir_decodeSignal_module m s t1 t2
    refine ⟨ext, ?_, Or.inl ⟨by simp [IRModule.stepCalls], fun _ => ?_, ?_, ?_⟩⟩ <;>
      simp [IRModule.step, he, IRModule.ring]
  | update currentTime t1 t2 =>
    obtain ⟨ext, hh, hc⟩ := IRModule.update_effect m currentTime t1 t2
    refine ⟨ext, hh, ?_⟩
    rcases hc with ⟨h1, h2, h3⟩ | ⟨h1, h2, h3, _⟩
    · left
      refine ⟨h1, fun _ => h2, ?_, h3⟩
      have := congrArg HistoryRing.slots h2
      exact this
    · right
      exact ⟨h1, h2, h3⟩

theorem IRModule.payloadInv_step (m : IRModule) (op : IROp) (h : m.PayloadInv) :
    (m.step op).PayloadInv := by
  obtain ⟨ext, hh, hc⟩ := IRModule.step_effect m op
  rcases hc with ⟨_, _, h2, h3⟩ | ⟨_, h2, h3⟩
  · constructor
    · intro x hx
      rw [h2] at hx
      exact IRModule.rawHasPayload_mono m _ x ext hh (h.1 x hx)
    · rw [h3]
      exact IRModule.rawHasPayload_mono m _ _ ext hh h.2
  · constructor
    · intro x hx
      have hs : (m.step op).history = m.history.set m.historyIndex.toNat
          (m.step op).currentSignal := congrArg HistoryRing.slots h2
      rw [hs] at hx
      rcases List.mem_or_eq_of_mem_set hx with hx | hx
      · exact IRModule.rawHasPayload_mono m _ x ext hh (h.1 x hx)
      · rw [hx]; exact h3
    · exact h3

theorem IRModule.payloadInv_run (ops : List IROp) :
    ∀ m : IRModule, m.PayloadInv → (m.run ops).PayloadInv := by
  induction ops with
  | nil => intro m h; exact h
  | cons op rest ih => intro m h; exact ih _ (IRModule.payloadInv_step m op h)

theorem IRModule.payloadInv_new : IRModule.new.PayloadInv := by
  constructor
  · intro x hx
    have : x = IRSignal.zero := List.eq_of_mem_replicate hx
    intro hp
    rw [this] at hp
    exact absurd hp (by decide)
  · intro hp
    exact absurd hp (by decide)

theorem IRModule.getHistoryItem_mem (m : IRModule) (i : Int) :
    m.getHistoryItem i = IRSignal.zero ∨ m.getHistoryItem i ∈ m.history := by
  unfold IRModule.getHistoryItem
  split
  · rw [List.getD_eq_getElem?_getD]
    cases h : m.history[((m.historyIndex - m.historyCount + i + IRModule.MAX_HISTORY).tmod
        IRModule.MAX_HISTORY).toNat]? with
    | none => left; rfl
    | some x => right; exact List.mem_iff_getElem?.mpr ⟨_, h⟩
  · left; rfl

/-- C15 (amended). In every state reachable from construction by calls of
`init`, `receiveSignal`, edge interrupts, `update` ticks, `clearHistory` and
`decodeSignal`, every signal `getHistoryItem` returns that is tagged Raw points
at a payload of `rawLength` entries; and `decodeSignal` run there with ten or
more stored edges returns true with a signal that, when tagged Raw, points at a
payload of `rawLength` entries and, when keyed, keeps the `rawData` and the
`rawLength` the record held before the call. -/
theorem C15_raw_tag_has_payload (ops : List IROp) (i : Int) (s : IRSignal) (t1 t2 : Nat) :
    (IRModule.new.run ops).RawHasPayload ((IRModule.new.run ops).getHistoryItem i) ∧
    (10 ≤ (IRModule.new.run ops).rawIndex →
      ∃ out m2, (IRModule.new.run ops).decodeSignal (some s) t1 t2 = (true, some out, m2) ∧
        m2.RawHasPayload out ∧
        (out.protocol ≠ IRProtocol.IR_RAW →
          out.rawData = s.rawData ∧ out.rawLength = s.rawLength)) := by
  constructor
  · rcases IRModule.getHistoryItem_mem (IRModule.new.run ops) i with h | h
    · rw [h]
      intro hp
      exact absurd hp (by decide)
    · exact (IRModule.payloadInv_run ops IRModule.new IRModule.payloadInv_new).1 _ h
  · intro h10
    rcases IRModule.ir_decodeSignal_cases (IRModule.new.run ops) s t1 t2 with
      ⟨hlt, _⟩ | ⟨_, o, hp, hr, hl, he⟩ | ⟨_, o, hp, hr, hl, he⟩
    · omega
    · refine ⟨o, _, he, ?_, fun _ => ⟨hr, hl⟩⟩
      intro hraw
      rw [hp] at hraw
      exact absurd hraw (by decide)
    · refine ⟨o, _, he, ?_, fun hne => absurd hp hne⟩
      intro _
      exact ⟨_, memcpy (IRModule.new.run ops).rawBuffer (IRModule.new.run ops).rawIndex, hr,
        by simp, by rw [memcpy_length, hl]⟩

set_option maxRecDepth 100000 in
/-- C15 at the state after a session of eleven edges and its tick, at the start
of a second session with ten edges stored: the history entry is tagged Raw
and has its payload of eleven entries, and the theorem applies to a decode. -/
theorem C15_raw_tag_has_payload_witness :
    10 ≤ (IRModule.new.run (IRModule.rawThenKeyed.take 25)).rawIndex ∧
    ((IRModule.new.run (IRModule.rawThenKeyed.take 25)).getHistoryItem 0).protocol
      = IRProtocol.IR_RAW ∧
    (IRModule.new.run (IRModule.rawThenKeyed.take 25)).RawHasPayload
      ((IRModule.new.run (IRModule.rawThenKeyed.take 25)).getHistoryItem 0) ∧
    (∃ out m2, (IRModule.new.run (IRModule.rawThenKeyed.take 25)).decodeSignal
        (some IRSignal.zero) 0 0 = (true, some out, m2) ∧ m2.RawHasPayload out ∧
        (out.protocol ≠ IRProtocol.IR_RAW →
          out.rawData = IRSignal.zero.rawData ∧ out.rawLength = IRSignal.zero.rawLength)) :=
  ⟨by decide, by decide,
   (C15_raw_tag_has_payload (IRModule.rawThenKeyed.take 25) 0 IRSignal.zero 0 0).1,
   (C15_raw_tag_has_payload (IRModule.rawThenKeyed.take 25) 0 IRSignal.zero 0 0).2 (by decide)⟩

set_option maxRecDepth 100000 in
/-- C15 as stated fails after a Raw capture followed by an NEC capture: the
history holds two entries, the older tagged Raw, the newer tagged NEC with
address `0x00FF` and command `0x10EF`, and the NEC entry still has the non-null
`rawData` and the `rawLength` of the Raw capture before it. -/
theorem C15_keyed_signal_keeps_payload :
    (IRModule.new.run IRModule.rawThenKeyed).getHistoryCount = 2 ∧
    ((IRModule.new.run IRModule.rawThenKeyed).getHistoryItem 0).protocol = IRProtocol.IR_RAW ∧
    ((IRModule.new.run IRModule.rawThenKeyed).getHistoryItem 1).protocol = IRProtocol.IR_NEC ∧
    ((IRModule.new.run IRModule.rawThenKeyed).getHistoryItem 1).address = 0x00FF ∧
    ((IRModule.new.run IRModule.rawThenKeyed).getHistoryItem 1).command = 0x10EF ∧
    ((IRModule.new.run IRModule.rawThenKeyed).getHistoryItem 1).rawData = some 0 ∧
    ((IRModule.new.run IRModule.rawThenKeyed).getHistoryItem 1).rawLength = 11 ∧
    (IRModule.new.run IRModule.rawThenKeyed).rawPayload
        ((IRModule.new.run IRModule.rawThenKeyed).getHistoryItem 1)
      = some [16560, 600, 600, 600, 600, 600, 600, 600, 600, 600, 600] := by
  decide

/-! ### A history entry and the calls that follow it -/

theorem HistoryRing.keeps_push_self {σ : Type} (r : HistoryRing σ) (s : σ)
    (hlen : r.slots.length = 50) (hcur : 0 ≤ r.cursor ∧ r.cursor < 50)
    (hcount : 0 ≤ r.count ∧ r.count ≤ 50) : (r.push s).Keeps s 0 := by
  obtain ⟨c, hc⟩ := Int.eq_ofNat_of_zero_le hcur.1
  have hc50 : c < 50 := by omega
  refine ⟨by simp [HistoryRing.push, hlen], ?_, ?_, ?_⟩
  · simp only [HistoryRing.push]
    rw [Int.tmod_eq_emod (by omega) (by omega)]
    omega
  · simp only [HistoryRing.push]
    split <;> omega
  · simp only [HistoryRing.push]
    rw [Int.tmod_eq_emod (by omega) (by omega), hc]
    have : (((c : Int) + 1) % 50 + 49 - ((0 : Nat) : Int)) % 50 = (c : Int) := by omega
    rw [this, Int.toNat_ofNat, List.getElem?_set_self (by omega)]

theorem HistoryRing.keeps_push {σ : Type} (r : HistoryRing σ) (s x : σ) (k : Nat)
    (h : r.Keeps s k) (hk : k + 1 < 50) : (r.push x).Keeps s (k + 1) := by
  obtain ⟨hlen, hcur, hcount, hslot⟩ := h
  obtain ⟨c, hc⟩ := Int.eq_ofNat_of_zero_le hcur.1
  have hc50 : c < 50 := by omega
  refine ⟨by simp [HistoryRing.push, hlen], ?_, ?_, ?_⟩
  · simp only [HistoryRing.push]
    rw [Int.tmod_eq_emod (by omega) (by omega)]
    omega
  · simp only [HistoryRing.push]
    split <;> omega
  · simp only [HistoryRing.push]
    rw [Int.tmod_eq_emod (by omega) (by omega), hc]
    rw [hc] at hslot
    have e : (((c : Int) + 1) % 50 + 49 - ((k + 1 : Nat) : Int)) % 50
        = ((c : Int) + 49 - (k : Int)) % 50 := by omega
    rw [e, Int.toNat_ofNat, List.getElem?_set_ne, hslot]
    omega

theorem HistoryRing.get_of_keeps {σ : Type} (r : HistoryRing σ) (s zero : σ) (k : Nat)
    (h : r.Keeps s k) : r.get zero (r.count - 1 - (k : Int)) = s := by
  obtain ⟨hlen, hcur, hcount, hslot⟩ := h
  unfold HistoryRing.get
  rw [if_pos (by omega), Int.tmod_eq_emod (by omega) (by omega),
    show (r.cursor - r.count + (r.count - 1 - (k : Int)) + 50) = r.cursor + 49 - (k : Int) by omega,
    List.getD_eq_getElem?_getD, hslot]
  rfl

theorem IRModule.run_heap (ops : List IROp) :
    ∀ m : IRModule, ∃ ext, (m.run ops).heap = m.heap ++ ext := by
  induction ops with
  | nil => intro m; exact ⟨[], by simp [IRModule.run]⟩
  | cons op rest ih =>
    intro m
    obtain ⟨e1, h1, _⟩ := IRModule.step_effect m op
    obtain ⟨e2, h2⟩ := ih (m.step op)
    refine ⟨e1 ++ e2, ?_⟩
    show ((m.step op).run rest).heap = _
    rw [h2, h1, List.append_assoc]

theorem IRModule.run_keeps (s : IRSignal) (ops : List IROp) :
    ∀ (m : IRModule) (k : Nat), m.ring.Keeps s k → IROp.clearHistory ∉ ops →
      k + m.pushes ops < 50 → (m.run ops).ring.Keeps s (k + m.pushes ops) := by
  induction ops with
  | nil => intro m k h _ _; simpa [IRModule.run, IRModule.pushes] using h
  | cons op rest ih =>
    intro m k h hclear hk
    have hop : op ≠ IROp.clearHistory := fun e => hclear (by simp [e])
    have hrest : IROp.clearHistory ∉ rest := fun e => hclear (List.mem_cons_of_mem _ e)
    obtain ⟨_, _, hc⟩ := IRModule.step_effect m op
    show ((m.step op).run rest).ring.Keeps s (k + m.pushes (op :: rest))
    rcases hc with ⟨hno, hring, _, _⟩ | ⟨hyes, hring, _⟩
    · have e : m.pushes (op :: rest) = (m.step op).pushes rest := by
        simp [IRModule.pushes, hno]
      rw [e] at hk ⊢
      exact ih (m.step op) k (by rw [hring hop]; exact h) hrest hk
    · have e : m.pushes (op :: rest) = 1 + (m.step op).pushes rest := by
        simp [IRModule.pushes, hyes]
      rw [e] at hk ⊢
      have := ih (m.step op) (k + 1)
        (by rw [hring]; exact HistoryRing.keeps_push _ s _ k h (by omega)) hrest (by omega)
      rw [show k + (1 + (m.step op).pushes rest) = k + 1 + (m.step op).pushes rest by omega]
      exact this

/-- C16 (amended). `addToHistory(s)` copies the record member by member: it
allocates no array, and the history entry holds the same `rawData` pointer as
`s`, so the payload is shared with `s`, not copied.  For a signal whose
`rawData` points at a payload, every sequence of later calls (`init`,
`receiveSignal`, edge interrupts that rewrite the capture buffer, `update`
ticks that decode into the current signal again and push it, `decodeSignal` on
a record of the caller) that does not evict the entry (no `clearHistory`, fewer
than 50 later pushes) leaves it in the history: `getHistoryItem` at its
position, counted back from the newest by the number of later pushes, returns
the record `s` itself, with the same length and the same pointer, and the
pointer still leads to the same interval values. -/
theorem C16_history_payload_intact (m : IRModule) (s : IRSignal) (p : Nat) (payload : List Nat)
    (ops : List IROp)
    (hlen : m.history.length = 50)
    (hcur : 0 ≤ m.historyIndex ∧ m.historyIndex < 50)
    (hcount : 0 ≤ m.historyCount ∧ m.historyCount ≤ 50)
    (hp : s.rawData = some p) (hpay : m.heap[p]? = some payload)
    (hclear : IROp.clearHistory ∉ ops)
    (hk : (m.addToHistory (some s)).pushes ops < 50) :
    (m.addToHistory (some s)).heap = m.heap ∧
    ((m.addToHistory (some s)).getHistoryItem ((m.addToHistory (some s)).getHistoryCount - 1)).rawData
      = s.rawData ∧
    ((m.addToHistory (some s)).run ops).getHistoryItem
        (((m.addToHistory (some s)).run ops).getHistoryCount - 1
          - (((m.addToHistory (some s)).pushes ops : Nat) : Int)) = s ∧
    (((m.addToHistory (some s)).run ops).getHistoryItem
        (((m.addToHistory (some s)).run ops).getHistoryCount - 1
          - (((m.addToHistory (some s)).pushes ops : Nat) : Int))).rawData = some p ∧
    ((m.addToHistory (some s)).run ops).rawPayload
        (((m.addToHistory (some s)).run ops).getHistoryItem
          (((m.addToHistory (some s)).run ops).getHistoryCount - 1
            - (((m.addToHistory (some s)).pushes ops : Nat) : Int))) = some payload := by
  have h0 : (m.addToHistory (some s)).ring.Keeps s 0 :=
    HistoryRing.keeps_push_self m.ring s hlen hcur hcount
  have hfirst : (m.addToHistory (some s)).getHistoryItem
      ((m.addToHistory (some s)).getHistoryCount - 1) = s := by
    have := HistoryRing.get_of_keeps _ s IRSignal.zero 0 h0
    simpa using this
  have hkeep := IRModule.run_keeps s ops (m.addToHistory (some s)) 0 h0 hclear (by omega)
  rw [Nat.zero_add] at hkeep
  have hget := HistoryRing.get_of_keeps _ s IRSignal.zero _ hkeep
  have hitem : ((m.addToHistory (some s)).run ops).getHistoryItem
      (((m.addToHistory (some s)).run ops).getHistoryCount - 1
        - (((m.addToHistory (some s)).pushes ops : Nat) : Int)) = s := hget
  refine ⟨rfl, by rw [hfirst], hitem, by rw [hitem, hp], ?_⟩
  rw [hitem]
  obtain ⟨ext, hheap⟩ := IRModule.run_heap ops (m.addToHistory (some s))
  have hlt : p < m.heap.length := by
    by_contra hge
    rw [List.getElem?_eq_none (by omega)] at hpay
    exact absurd hpay (by simp)
  have hsame : (m.addToHistory (some s)).heap = m.heap := rfl
  simp only [IRModule.rawPayload, hp, Option.some_bind]
  rw [hheap, hsame, List.getElem?_append_left hlt, hpay]

set_option maxRecDepth 100000 in
/-- C16 at the module after a first session of eleven edges was decoded to a
Raw signal: that signal is pushed again, then a second session of twelve edges
rewrites the capture buffer, is decoded into the current signal and pushed.
The entry is found one place before the newest with the pointer of the first
session and its eleven intervals. -/
theorem C16_history_payload_intact_witness :
    (IRModule.new.run (IRModule.rawThenKeyed.take 14)).currentSignal.protocol
      = IRProtocol.IR_RAW ∧
    (((IRModule.new.run (IRModule.rawThenKeyed.take 14)).addToHistory
        (some (IRModule.new.run (IRModule.rawThenKeyed.take 14)).currentSignal)).run
          IRModule.secondRaw).currentSignal.rawData = some 1 ∧
    (((IRModule.new.run (IRModule.rawThenKeyed.take 14)).addToHistory
        (some (IRModule.new.run (IRModule.rawThenKeyed.take 14)).currentSignal)).run
          IRModule.secondRaw).getHistoryCount = 3 ∧
    ((((IRModule.new.run (IRModule.rawThenKeyed.take 14)).addToHistory
        (some (IRModule.new.run (IRModule.rawThenKeyed.take 14)).currentSignal)).run
          IRModule.secondRaw).getHistoryItem 1).rawData = some 0 ∧
    (((IRModule.new.run (IRModule.rawThenKeyed.take 14)).addToHistory
        (some (IRModule.new.run (IRModule.rawThenKeyed.take 14)).currentSignal)).run
          IRModule.secondRaw).rawPayload
      ((((IRModule.new.run (IRModule.rawThenKeyed.take 14)).addToHistory
        (some (IRModule.new.run (IRModule.rawThenKeyed.take 14)).currentSignal)).run
          IRModule.secondRaw).getHistoryItem 1)
      = some [16560, 600, 600, 600, 600, 600, 600, 600, 600, 600, 600] :=
  ⟨by decide, by decide, by decide,
   (C16_history_payload_intact (IRModule.new.run (IRModule.rawThenKeyed.take 14))
      (IRModule.new.run (IRModule.rawThenKeyed.take 14)).currentSignal 0
      [16560, 600, 600, 600, 600, 600, 600, 600, 600, 600, 600] IRModule.secondRaw
      (by decide) (by decide) (by decide) (by decide) (by decide) (by decide)
      (by decide)).2.2.2.1,
   (C16_history_payload_intact (IRModule.new.run (IRModule.rawThenKeyed.take 14))
      (IRModule.new.run (IRModule.rawThenKeyed.take 14)).currentSignal 0
      [16560, 600, 600, 600, 600, 600, 600, 600, 600, 600, 600] IRModule.secondRaw
      (by decide) (by decide) (by decide) (by decide) (by decide) (by decide)
      (by decide)).2.2.2.2⟩

set_option maxRecDepth 100000 in
/-- C16 as stated fails: the history entry is not an independent copy.  After
a session of eleven edges and the tick that decodes it to a Raw signal and
pushes it, the current signal and the history entry hold the same pointer, the
free store holds one array, and that array is the payload of both. -/
theorem C16_entry_shares_payload_array :
    (IRModule.new.run (IRModule.rawThenKeyed.take 14)).getHistoryCount = 1 ∧
    (IRModule.new.run (IRModule.rawThenKeyed.take 14)).currentSignal.protocol
      = IRProtocol.IR_RAW ∧
    (IRModule.new.run (IRModule.rawThenKeyed.take 14)).currentSignal.rawData = some 0 ∧
    ((IRModule.new.run (IRModule.rawThenKeyed.take 14)).getHistoryItem 0).rawData = some 0 ∧
    (IRModule.new.run (IRModule.rawThenKeyed.take 14)).heap.length = 1 ∧
    (IRModule.new.run (IRModule.rawThenKeyed.take 13)).heap.length = 0 ∧
    (IRModule.new.run (IRModule.rawThenKeyed.take 14)).rawPayload
        (IRModule.new.run (IRModule.rawThenKeyed.take 14)).currentSignal
      = some [16560, 600, 600, 600, 600, 600, 600, 600, 600, 600, 600] ∧
    (IRModule.new.run (IRModule.rawThenKeyed.take 14)).rawPayload
        ((IRModule.new.run (IRModule.rawThenKeyed.take 14)).getHistoryItem 0)
      = some [16560, 600, 600, 600, 600, 600, 600, 600, 600, 600, 600] ∧
    ((IRModule.new.run (IRModule.rawThenKeyed.take 14)).addToHistory
        (some (IRModule.new.run (IRModule.rawThenKeyed.take 14)).currentSignal)).heap.length
      = 1 := by
  decide

/-! ### The NEC frame as events -/

theorem IRModule.carrier_eq_carrierPulse (n pw : Nat) :
    IRModule.carrier n pw = carrierPulse IR_LED_PIN pw n := by
  induction n with
  | zero => rfl
  | succ n ih =>
    have := carrier_succ n pw []
    simp only [List.append_nil] at this
    rw [this, carrierPulse, ← ih]
    rfl

theorem IRModule.transmitNECBits_cells (value n : Nat) :
    IRModule.transmitNECBits value 38000 13 n
      = ((List.range n).map
          (fun i => necCellTrace (carrierPulse IR_LED_PIN 13 21) (value.testBit i))).flatten := by
  induction n with
  | zero => rfl
  | succ n ih =>
    rw [IRModule.transmitNECBits, ih, List.range_succ, List.map_append, List.flatten_append]
    have h21 : 560 * 38000 / 1000000 = 21 := by norm_num
    have hbit : (if value &&& (1 <<< n) ≠ 0 then 1690 else 560)
        = (if value.testBit n = true then 1690 else 560) := by
      by_cases h : value &&& (1 <<< n) ≠ 0
      · rw [if_pos h, if_pos ((and_one_shiftLeft_ne_zero value n).mp h)]
      · rw [if_neg h, if_neg (fun hb => h ((and_one_shiftLeft_ne_zero value n).mpr hb))]
    rw [h21, hbit, IRModule.carrier_eq_carrierPulse]
    simp [necCellTrace]

theorem IRModule.transmitNEC_trace (m : IRModule) (address command : Nat)
    (hinit : m.irInitialized = true) :
    m.transmitNEC address command
      = (true, necFrameTrace (carrierPulse IR_LED_PIN 13 342) (carrierPulse IR_LED_PIN 13 21)
          address command) := by
  have h342 : 9000 * 38000 / 1000000 = 342 := by norm_num
  have h21 : 560 * 38000 / 1000000 = 21 := by norm_num
  have h13 : 1000000 / 38000 / 2 = 13 := by norm_num
  simp only [IRModule.transmitNEC, hinit, Bool.not_true, Bool.false_eq_true, if_false, h13, h342,
    h21, IRModule.transmitNECBits_cells, necFrameTrace, IRModule.carrier_eq_carrierPulse]

theorem necFrameTrace_low_bits (lead pulse : List PinEvent) (a1 c1 a2 c2 : Nat)
    (ha : a1 % 2 ^ 16 = a2 % 2 ^ 16) (hc : c1 % 2 ^ 16 = c2 % 2 ^ 16) :
    necFrameTrace lead pulse a1 c1 = necFrameTrace lead pulse a2 c2 := by
  have key : ∀ x y : Nat, x % 2 ^ 16 = y % 2 ^ 16 →
      (List.range 16).map (fun i => necCellTrace pulse (x.testBit i))
        = (List.range 16).map (fun i => necCellTrace pulse (y.testBit i)) := by
    intro x y hxy
    apply List.map_congr_left
    intro i hi
    have hi16 : i < 16 := List.mem_range.mp hi
    have hx := Nat.testBit_mod_two_pow x 16 i
    have hy := Nat.testBit_mod_two_pow y 16 i
    rw [hxy] at hx
    simp only [hi16, decide_True, Bool.true_and] at hx hy
    rw [← hx, ← hy]
  unfold necFrameTrace
  rw [key a1 a2 ha, key c1 c2 hc]

theorem finalLevel_append_carrierPulse (xs : List PinEvent) (pin hp n : Nat) :
    finalLevel (xs ++ carrierPulse pin hp (n + 1)) = some false := by
  unfold finalLevel
  rw [List.foldl_append]
  generalize List.foldl _ none xs = acc
  induction n generalizing acc with
  | zero => simp [carrierPulse, carrierPeriod]
  | succ n ih =>
    rw [carrierPulse, List.foldl_append]
    exact ih _

/-- The waveform of a carrier pulse that starts with the pin low and is
followed by `rest`: for every period the pin is on for the half-period and off
for the half-period, the last off time running on into `rest`. -/
theorem waveformFrom_carrierPulse (pin hp : Nat) (hhp : 0 < hp) (rest : List PinEvent) :
    ∀ (n held : Nat),
      waveformFrom false held (carrierPulse pin hp (n + 1) ++ rest)
        = (if held = 0 then [] else [(false, held)]) ++
          (List.replicate n [(true, hp), (false, hp)]).flatten ++
          (true, hp) :: waveformFrom false hp rest := by
  have hne : hp ≠ 0 := by omega
  have step : ∀ (held : Nat) (tail : List PinEvent),
      waveformFrom false held (carrierPeriod pin hp ++ tail)
        = (if held = 0 then [] else [(false, held)]) ++ (true, hp) :: waveformFrom false hp tail := by
    intro held tail
    simp [carrierPeriod, waveformFrom, hne]
  intro n
  induction n with
  | zero =>
    intro held
    rw [carrierPulse, carrierPulse, List.append_nil, step]
    simp
  | succ n ih =>
    intro held
    rw [carrierPulse, List.append_assoc, step, ih hp]
    simp [hne, List.replicate_succ]

theorem waveform_carrierPulse (pin hp : Nat) (hhp : 0 < hp) (n : Nat) :
    waveform (carrierPulse pin hp n) = (List.replicate n [(true, hp), (false, hp)]).flatten := by
  cases n with
  | zero => rfl
  | succ n =>
    have h := waveformFrom_carrierPulse pin hp hhp [] n 0
    rw [List.append_nil] at h
    unfold waveform
    rw [h]
    have hne : hp ≠ 0 := by omega
    simp [waveformFrom, hne, List.replicate_succ' n]

theorem drivesHigh_carrierPulse (pin hp n : Nat) (rest : List PinEvent) :
    drivesHigh (carrierPulse pin hp (n + 1) ++ rest) = true := by
  rw [carrierPulse]
  simp [carrierPeriod, drivesHigh]

/-- C22. NEC transmit framing: on an initialised channel, for every address and
command, `transmitNEC` returns true and emits, in order, the lead pulse, the
space of 4500 microseconds, the cells of bits 0..15 of the address and then of
bits 0..15 of the command, least-significant bit first, each cell a pulse
followed by a space of 560 microseconds for a 0 and of 1690 for a 1, and the
final pulse.  Every pulse is carrier-modulated: in each of its periods (342 in
the lead pulse, 21 in the others) the pin is switched on for 13 microseconds
and off for 13 microseconds, so the call drives the pin high.  The last write
leaves the pin low, and arguments that agree in their low 16 bits give the same
output. -/
theorem C22_transmitNEC_framing (m : IRModule) (address command : Nat)
    (hinit : m.irInitialized = true) :
    m.transmitNEC address command
      = (true, necFrameTrace (carrierPulse IR_LED_PIN 13 342) (carrierPulse IR_LED_PIN 13 21)
          address command) ∧
    waveform (carrierPulse IR_LED_PIN 13 342)
      = (List.replicate 342 [(true, 13), (false, 13)]).flatten ∧
    waveform (carrierPulse IR_LED_PIN 13 21)
      = (List.replicate 21 [(true, 13), (false, 13)]).flatten ∧
    drivesHigh (m.transmitNEC address command).2 = true ∧
    finalLevel (m.transmitNEC address command).2 = some false ∧
    (∀ a2 c2 : Nat, a2 % 2 ^ 16 = address % 2 ^ 16 → c2 % 2 ^ 16 = command % 2 ^ 16 →
      m.transmitNEC a2 c2 = m.transmitNEC address command) := by
  refine ⟨IRModule.transmitNEC_trace m address command hinit,
    waveform_carrierPulse _ 13 (by decide) 342, waveform_carrierPulse _ 13 (by decide) 21,
    ?_, ?_, ?_⟩
  · rw [IRModule.transmitNEC_trace m address command hinit]
    unfold necFrameTrace
    rw [List.append_assoc, List.append_assoc, List.append_assoc]
    exact drivesHigh_carrierPulse IR_LED_PIN 13 341 _
  · rw [IRModule.transmitNEC_trace m address command hinit]
    exact finalLevel_append_carrierPulse _ IR_LED_PIN 13 20
  · intro a2 c2 ha hc
    rw [IRModule.transmitNEC_trace m address command hinit,
      IRModule.transmitNEC_trace m a2 c2 hinit,
      necFrameTrace_low_bits _ _ a2 c2 address command ha hc]

set_option maxRecDepth 100000 in
/-- C22 at address `0x00FF` and command `0x10EF` on an initialised module; the
address `0x500FF`, which differs above bit 15 only, gives the same output.  The
waveform of the frame starts with the pin on for 13 microseconds, off for 13,
on for 13. -/
theorem C22_transmitNEC_framing_witness :
    IRModule.ready.irInitialized = true ∧
    IRModule.ready.transmitNEC 0x00FF 0x10EF
      = (true, necFrameTrace (carrierPulse IR_LED_PIN 13 342) (carrierPulse IR_LED_PIN 13 21)
          0x00FF 0x10EF) ∧
    drivesHigh (IRModule.ready.transmitNEC 0x00FF 0x10EF).2 = true ∧
    finalLevel (IRModule.ready.transmitNEC 0x00FF 0x10EF).2 = some false ∧
    IRModule.ready.transmitNEC 0x500FF 0x10EF = IRModule.ready.transmitNEC 0x00FF 0x10EF ∧
    (waveform (IRModule.ready.transmitNEC 0x00FF 0x10EF).2).take 3
      = [(true, 13), (false, 13), (true, 13)] :=
  ⟨rfl, (C22_transmitNEC_framing IRModule.ready 0x00FF 0x10EF rfl).1,
   (C22_transmitNEC_framing IRModule.ready 0x00FF 0x10EF rfl).2.2.2.1,
   (C22_transmitNEC_framing IRModule.ready 0x00FF 0x10EF rfl).2.2.2.2.1,
   (C22_transmitNEC_framing IRModule.ready 0x00FF 0x10EF rfl).2.2.2.2.2 0x500FF 0x10EF
     (by decide) (by decide),
   by decide⟩

/-! ### The durations of the NEC pulses -/

theorem totalDelay_append (xs ys : List PinEvent) :
    totalDelay (xs ++ ys) = totalDelay xs + totalDelay ys := by
  induction xs with
  | nil => simp [totalDelay]
  | cons e rest ih =>
    cases e with
    | digitalWrite pin level => simpa [totalDelay] using ih
    | delayMicroseconds us => simp [totalDelay, ih]; omega

theorem totalDelay_carrier (n pw : Nat) : totalDelay (IRModule.carrier n pw) = n * (pw + pw) := by
  induction n with
  | zero => simp [IRModule.carrier, totalDelay]
  | succ n ih =>
    have := carrier_succ n pw []
    simp only [List.append_nil] at this
    rw [this]
    simp only [totalDelay, ih]
    ring

/-- C27 (as the code behaves). In `transmitNEC` the carrier half-period is
`1000000 / 38000 / 2` = 13 microseconds; the lead pulse is
`9000 * 38000 / 1000000` = 342 periods whose programmed delays sum to 8892
microseconds, and every bit pulse and the final pulse is
`560 * 38000 / 1000000` = 21 periods whose delays sum to 546 microseconds: in
the interval sequence of the frame entry 0 is 8892 and the entries
`2 + 2 * k` for `k <= 32` are 546. -/
theorem C27_nec_pulse_durations (m : IRModule) (address command : Nat)
    (hinit : m.irInitialized = true) :
    totalDelay (IRModule.carrier (9000 * 38000 / 1000000) (1000000 / 38000 / 2)) = 8892 ∧
    totalDelay (IRModule.carrier (560 * 38000 / 1000000) (1000000 / 38000 / 2)) = 546 ∧
    (intervals (m.transmitNEC address command).2).getD 0 0 = 8892 ∧
    (∀ k, k ≤ 32 → (intervals (m.transmitNEC address command).2).getD (2 + 2 * k) 0 = 546) := by
  refine ⟨by rw [totalDelay_carrier], by rw [totalDelay_carrier], ?_, ?_⟩
  · rw [(IRModule.transmitNEC_intervals m address command hinit).2]
    have := (necFrame_getD address command []).1
    rwa [List.append_nil] at this
  · intro k hk
    rw [(IRModule.transmitNEC_intervals m address command hinit).2]
    by_cases hk32 : k < 32
    · have := (necFrame_getD address command []).2.2.1 k hk32
      rwa [List.append_nil] at this
    · have hk' : k = 32 := by omega
      subst hk'
      have hshape : necFrame address command
          = (8892 :: 4500 :: (necCells address 16 ++ necCells command 16)) ++ [546] := by
        simp [necFrame]
      rw [hshape, List.getD_append_right _ _ _ _ (by simp [necCells_length])]
      simp [necCells_length]

set_option maxRecDepth 100000 in
/-- C27 at address `0x00FF` and command `0x10EF` on an initialised module. -/
theorem C27_nec_pulse_durations_witness :
    IRModule.ready.irInitialized = true ∧
    (intervals (IRModule.ready.transmitNEC 0x00FF 0x10EF).2).getD 0 0 = 8892 ∧
    (intervals (IRModule.ready.transmitNEC 0x00FF 0x10EF).2).getD 66 0 = 546 :=
  ⟨rfl, (C27_nec_pulse_durations IRModule.ready 0x00FF 0x10EF rfl).2.2.1,
   (C27_nec_pulse_durations IRModule.ready 0x00FF 0x10EF rfl).2.2.2 32 (by decide)⟩

set_option maxRecDepth 100000 in
/-- C27 as stated fails: in the frame sent for address `0x00FF` and command
`0x10EF` the delays of the lead pulse sum to 8892 microseconds, not 9000, and
those of the first bit pulse and of the final pulse to 546, not 560. -/
theorem C27_lead_pulse_is_8892 :
    (IRModule.ready.transmitNEC 0x00FF 0x10EF).1 = true ∧
    (intervals (IRModule.ready.transmitNEC 0x00FF 0x10EF).2).getD 0 0 = 8892 ∧
    (intervals (IRModule.ready.transmitNEC 0x00FF 0x10EF).2).getD 0 0 ≠ 9000 ∧
    (intervals (IRModule.ready.transmitNEC 0x00FF 0x10EF).2).getD 2 0 = 546 ∧
    (intervals (IRModule.ready.transmitNEC 0x00FF 0x10EF).2).getD 2 0 ≠ 560 ∧
    (intervals (IRModule.ready.transmitNEC 0x00FF 0x10EF).2).getD 66 0 = 546 ∧
    totalDelay (IRModule.carrier (9000 * 38000 / 1000000) (1000000 / 38000 / 2)) ≠ 9000 ∧
    totalDelay (IRModule.carrier (560 * 38000 / 1000000) (1000000 / 38000 / 2)) ≠ 560 := by
  decide

/-! ### An uninitialised channel -/

/-- C23. On an infrared or sub-GHz module whose `init()` has not run,
`update()`, `receiveSignal()`, `transmitSignal()` (whatever the signal, a null
pointer included) and, for sub-GHz, `startFrequencyScan()` return the module
with every field unchanged; `update()` calls no member function, the pin is not
written, and `receiveSignal()` and `transmitSignal()` return false. -/
theorem C23_uninitialized_inert (freqStr : Nat → String) (mi : IRModule) (mr : RFModule)
    (si : Option IRSignal) (sr : Option RFSignal) (now currentTime t1 t2 low high : Nat)
    (hi : mi.irInitialized = false) (hr : mr.rfInitialized = false) :
    (mi.update currentTime t1 t2 = (mi, []) ∧
      mi.receiveSignal now = (false, mi) ∧
      mi.transmitSignal si = some (false, [], mi)) ∧
    (RFModule.update freqStr mr currentTime t1 t2 = (mr, []) ∧
      mr.receiveSignal now = (false, mr) ∧
      mr.transmitSignal sr = some (false, [], mr) ∧
      mr.startFrequencyScan low high now = mr) := by
  refine ⟨⟨?_, ?_, ?_⟩, ⟨?_, ?_, ?_, ?_⟩⟩
  · simp [IRModule.update, hi]
  · simp [IRModule.receiveSignal, hi]
  · cases si with
    | none => rfl
    | some s => simp [IRModule.transmitSignal, hi]
  · simp [RFModule.update, hr]
  · simp [RFModule.receiveSignal, hr]
  · cases sr with
    | none => rfl
    | some s => simp [RFModule.transmitSignal, hr]
  · simp [RFModule.startFrequencyScan, hr]

set_option maxRecDepth 100000 in
/-- C23 at the freshly constructed modules, with an NEC signal, an ASK signal
and a scan request for 300 MHz .. 928 MHz. -/
theorem C23_uninitialized_inert_witness :
    IRModule.new.irInitialized = false ∧ RFModule.new.rfInitialized = false ∧
    IRModule.new.update 1000 1000 1000 = (IRModule.new, []) ∧
    IRModule.new.receiveSignal 1000 = (false, IRModule.new) ∧
    IRModule.new.transmitSignal
        (some { IRSignal.zero with protocol := IRProtocol.IR_NEC, address := 0x00FF,
                                   command := 0x10EF })
      = some (false, [], IRModule.new) ∧
    RFModule.update (fun _ => "") RFModule.new 1000 1000 1000 = (RFModule.new, []) ∧
    RFModule.new.receiveSignal 1000 = (false, RFModule.new) ∧
    RFModule.new.transmitSignal
        (some { RFSignal.zero with protocol := RFProtocol.RF_ASK_OOK, data := 5,
                                   frequency := 433920000 })
      = some (false, [], RFModule.new) ∧
    RFModule.new.startFrequencyScan 300000000 928000000 1000 = RFModule.new :=
  have h := C23_uninitialized_inert (fun _ => "") IRModule.new RFModule.new
    (some { IRSignal.zero with protocol := IRProtocol.IR_NEC, address := 0x00FF,
                               command := 0x10EF })
    (some { RFSignal.zero with protocol := RFProtocol.RF_ASK_OOK, data := 5,
                               frequency := 433920000 })
    1000 1000 1000 1000 300000000 928000000 rfl rfl
  ⟨rfl, rfl, h.1.1, h.1.2.1, h.1.2.2, h.2.1, h.2.2.1, h.2.2.2.1, h.2.2.2.2⟩

/-! ### Stopping a capture -/

/-- C24. From every state `stopReceiving()` leaves the channel idle
(`isReceiving()` is false) and changes nothing but the capturing flag: the
history ring, the raw buffer and its index are unchanged, and so are the
current signal and the free store, which a decode would have written; applying
it twice gives the same state as applying it once (infrared and sub-GHz). -/
theorem C24_stopReceiving_idempotent (mi : IRModule) (mr : RFModule) :
    (mi.stopReceiving.isReceiving = false ∧
      mi.stopReceiving = { mi with isReceivingSignal := false } ∧
      mi.stopReceiving.ring = mi.ring ∧
      mi.stopReceiving.rawBuffer = mi.rawBuffer ∧
      mi.stopReceiving.rawIndex = mi.rawIndex ∧
      mi.stopReceiving.currentSignal = mi.currentSignal ∧
      mi.stopReceiving.heap = mi.heap ∧
      mi.stopReceiving.stopReceiving = mi.stopReceiving) ∧
    (mr.stopReceiving.isReceiving = false ∧
      mr.stopReceiving = { mr with isReceivingSignal := false } ∧
      mr.stopReceiving.ring = mr.ring ∧
      mr.stopReceiving.rawBuffer = mr.rawBuffer ∧
      mr.stopReceiving.rawIndex = mr.rawIndex ∧
      mr.stopReceiving.currentSignal = mr.currentSignal ∧
      mr.stopReceiving.heap = mr.heap ∧
      mr.stopReceiving.stopReceiving = mr.stopReceiving) :=
  ⟨⟨rfl, rfl, rfl, rfl, rfl, rfl, rfl, rfl⟩, ⟨rfl, rfl, rfl, rfl, rfl, rfl, rfl, rfl⟩⟩

/-! ### The order of decode and stop in a tick -/

theorem IRModule.update_decodes_while_capturing (m : IRModule) (currentTime t1 t2 : Nat)
    (h : Call.decodeSignal ∈ (m.update currentTime t1 t2).2) :
    m.isReceivingSignal = true ∧
    (m.update currentTime t1 t2).2
      = [Call.decodeSignal, Call.addToHistory, Call.stopReceiving] := by
  by_cases hinit : m.irInitialized = true
  · by_cases hq : m.isReceivingSignal = true ∧ usub32 currentTime m.lastEdgeTime > 100
    · by_cases hl : 10 < m.rawIndex
      · obtain ⟨_, _, _, he⟩ := IRModule.update_long m currentTime t1 t2 hinit hq.1 hq.2 hl
        exact ⟨hq.1, by rw [he]⟩
      · rw [IRModule.update_short m currentTime t1 t2 hinit hq.1 hq.2 (by omega)] at h
        simp at h
    · have : m.update currentTime t1 t2 = (m, []) := by
        unfold IRModule.update
        rw [if_neg (by simp [hinit]), if_neg hq]
      rw [this] at h
      simp at h
  · have : m.update currentTime t1 t2 = (m, []) := by
      unfold IRModule.update
      rw [if_pos (by simpa using hinit)]
    rw [this] at h
    simp at h

set_option maxRecDepth 100000 in
/-- C25 fails at a session of eleven edges ended by the tick at
`millis() = 1300`: the tick calls `decodeSignal`, then `addToHistory`, and only
then `stopReceiving`, which clears the capturing flag and detaches the
interrupt.  The module the decoder reads is still capturing with index 11, and
an edge interrupt taken there (at `micros() = 1301000`) appends to the buffer:
the index becomes 12.  After the tick the channel is idle.  The sub-GHz tick
has the same order. -/
theorem C25_decode_precedes_stop :
    ((IRModule.session 11).update 1300 1300 1300).2
      = [Call.decodeSignal, Call.addToHistory, Call.stopReceiving] ∧
    List.indexOf Call.decodeSignal ((IRModule.session 11).update 1300 1300 1300).2
      < List.indexOf Call.stopReceiving ((IRModule.session 11).update 1300 1300 1300).2 ∧
    ({ IRModule.session 11 with signalReceived := true } : IRModule).isReceiving = true ∧
    ({ IRModule.session 11 with signalReceived := true } : IRModule).rawIndex = 11 ∧
    (({ IRModule.session 11 with signalReceived := true } : IRModule).irInterruptHandler
      1301000).rawIndex = 12 ∧
    ((IRModule.session 11).update 1300 1300 1300).1.isReceiving = false ∧
    (RFModule.update (fun _ => "") (RFModule.session 11) 1300 1300 1300).2
      = [Call.decodeSignal, Call.addToHistory, Call.stopReceiving] := by
  decide

/-! ### The entry an infrared edge stores -/

theorem IRModule.captureRawData_entry (m : IRModule) (now : Nat)
    (hrecv : m.isReceivingSignal = true) (hroom : m.rawIndex < IRModule.MAX_RAW_LENGTH - 1)
    (hlen : m.rawIndex < m.rawBuffer.length) (hle : m.lastEdgeTime ≤ now) (hnow : now < 2 ^ 32) :
    (m.irInterruptHandler now).rawIndex = m.rawIndex + 1 ∧
    (m.irInterruptHandler now).rawBuffer.getD m.rawIndex 0 = (now - m.lastEdgeTime) % 2 ^ 16 ∧
    (now - m.lastEdgeTime ≤ 65535 →
      (m.irInterruptHandler now).rawBuffer.getD m.rawIndex 0 = now - m.lastEdgeTime) := by
  have hu : usub32 now m.lastEdgeTime = now - m.lastEdgeTime :=
    usub32_of_le now m.lastEdgeTime hle hnow
  have hentry : (m.irInterruptHandler now).rawBuffer.getD m.rawIndex 0
      = (now - m.lastEdgeTime) % 2 ^ 16 := by
    unfold IRModule.irInterruptHandler IRModule.captureRawData
    rw [if_pos hrecv, if_pos hroom]
    simp only [hu]
    rw [List.getD_eq_getElem?_getD, List.getElem?_set_self hlen]
    rfl
  refine ⟨?_, hentry, ?_⟩
  · unfold IRModule.irInterruptHandler IRModule.captureRawData
    rw [if_pos hrecv, if_pos hroom]
  · intro hsmall
    rw [hentry]
    exact Nat.mod_eq_of_lt (by omega)

set_option maxRecDepth 100000 in
/-- C26 fails for a gap above 65535 microseconds: in an infrared session whose
last edge was at `micros() = 1000600`, with 299 cells free, the edge at
`micros() = 1070600`, 70000 microseconds later, stores 70000 mod 65536 = 4464,
not the cap 65535.  A gap of 600 microseconds is stored as 600. -/
theorem C26_long_gap_wraps :
    (IRModule.session 1).isReceiving = true ∧ (IRModule.session 1).rawIndex = 1 ∧
    (IRModule.session 1).lastEdgeTime = 1000600 ∧
    ((IRModule.session 1).irInterruptHandler 1070600).rawIndex = 2 ∧
    ((IRModule.session 1).irInterruptHandler 1070600).rawBuffer.getD 1 0 = 4464 ∧
    min (1070600 - 1000600) 65535 = 65535 ∧
    ((IRModule.session 1).irInterruptHandler 1001200).rawBuffer.getD 1 0 = 600 := by
  decide

/-! ### Raw replay on the sub-GHz channel -/

theorem totalDelay_transmitRawByte (byte n : Nat) :
    totalDelay (RFModule.transmitRawByte byte n) = 208 * n := by
  induction n with
  | zero => rfl
  | succ n ih =>
    show totalDelay (PinEvent.digitalWrite RF_TRANSMITTER_PIN _ ::
      PinEvent.delayMicroseconds 208 :: RFModule.transmitRawByte byte n) = _
    simp only [totalDelay, ih]
    ring

theorem totalDelay_rf_transmitRawLoop (data : List Nat) (n : Nat) :
    totalDelay (RFModule.transmitRawLoop data n) = 1664 * n := by
  induction n with
  | zero => rfl
  | succ n ih =>
    rw [RFModule.transmitRawLoop, totalDelay_append, ih, totalDelay_transmitRawByte]
    ring

theorem totalDelay_replayVerbatimFrom (pin unit : Nat) (d : List Nat) :
    ∀ i, totalDelay (replayVerbatimFrom pin unit i d) = unit * d.sum := by
  induction d with
  | nil => intro i; simp [replayVerbatimFrom, totalDelay]
  | cons x rest ih =>
    intro i
    simp only [replayVerbatimFrom, totalDelay, ih, List.sum_cons]
    ring

/-- Whatever the payload holds, the sub-GHz raw transmission of `n` entries
lasts `1664 * n` microseconds and returns true, while a verbatim replay of the
payload lasts `unit` times the sum of its entries. -/
theorem RFModule.transmitRaw_duration (m : RFModule) (p n frequency : Nat)
    (hinit : m.rfInitialized = true) (unit i : Nat) :
    (m.transmitRaw (some p) n frequency).1 = true ∧
    totalDelay (m.transmitRaw (some p) n frequency).2 = 1664 * n ∧
    totalDelay (replayVerbatimFrom RF_TRANSMITTER_PIN unit i (m.heap.getD p []))
      = unit * (m.heap.getD p []).sum := by
  refine ⟨by simp [RFModule.transmitRaw, hinit], ?_, totalDelay_replayVerbatimFrom _ _ _ _⟩
  simp only [RFModule.transmitRaw, hinit, Bool.not_true, Bool.false_eq_true, if_false]
  rw [totalDelay_append, totalDelay_rf_transmitRawLoop]
  simp [totalDelay]

set_option maxRecDepth 100000 in
/-- C21 fails at the payload `[60, 30]` (an on-interval of 60 and an
off-interval of 30, in the capture unit of 10 microseconds) sent by an
initialised sub-GHz channel at 433.92 MHz.  `transmitSignal` returns true and
leaves the pin low, but `transmitRaw` sends the two bytes as 16 bit cells of
208 microseconds, most significant bit first: the pin stays low for 416
microseconds, then high 832, low 1040, high 832, low 208, in all 3328
microseconds.  A verbatim replay is on for 60 units and off for 30 units
(waveforms for the unit 1 and the unit 10 microseconds). -/
theorem C21_rf_raw_sent_as_bits :
    (({ RFModule.ready with heap := [[60, 30]] } : RFModule).transmitSignal
        (some { RFSignal.zero with protocol := RFProtocol.RF_RAW, rawData := some 0,
                                   rawLength := 2, frequency := 433920000 })).map
        (fun r => (r.1, waveform r.2.1, totalDelay r.2.1, finalLevel r.2.1))
      = some (true, [(false, 416), (true, 832), (false, 1040), (true, 832), (false, 208)],
          3328, some false) ∧
    waveform (replayVerbatimFrom RF_TRANSMITTER_PIN 1 0 [60, 30]) = [(true, 60), (false, 30)] ∧
    waveform (replayVerbatimFrom RF_TRANSMITTER_PIN 10 0 [60, 30])
      = [(true, 600), (false, 300)] := by
  decide

/-! ### FSK transmission -/

theorem RFModule.transmitFSKBits_zero_period (data bitDuration n : Nat) :
    RFModule.transmitFSKBits data bitDuration 0 0 (n + 1) = none := by
  simp [RFModule.transmitFSKBits]

theorem RFModule.transmitFSK_faults (m : RFModule) (data frequency : Nat)
    (hinit : m.rfInitialized = true) (hlow : 1010000 < frequency)
    (hhigh : frequency + 10000 < 2 ^ 32) :
    1000000 / ((frequency + 10000) % 2 ^ 32) = 0 ∧
    1000000 / usub32 frequency 10000 = 0 ∧
    m.transmitFSK data 32 frequency = none := by
  have h1 : (frequency + 10000) % 2 ^ 32 = frequency + 10000 := Nat.mod_eq_of_lt hhigh
  have h2 : usub32 frequency 10000 = frequency - 10000 :=
    usub32_of_le frequency 10000 (by omega) (by omega)
  have p1 : 1000000 / (frequency + 10000) = 0 := Nat.div_eq_of_lt (by omega)
  have p2 : 1000000 / (frequency - 10000) = 0 := Nat.div_eq_of_lt (by omega)
  refine ⟨by rw [h1, p1], by rw [h2, p2], ?_⟩
  unfold RFModule.transmitFSK
  rw [if_neg (by simp [hinit]), if_neg (by rw [h1]; omega)]
  simp only []
  rw [if_neg (by rw [h2]; omega), h1, h2, p1, p2]
  rw [show (32 : Nat) = 31 + 1 from rfl, RFModule.transmitFSKBits_zero_period]

/-- For every carrier frequency above 1.01 MHz (with `frequency + 10000` below
`2 ^ 32`) both derived periods are zero and the FSK transmission divides by
zero in its first bit. -/
theorem RFModule.transmitSignal_fsk_faults (m : RFModule) (s : RFSignal)
    (hinit : m.rfInitialized = true) (hp : s.protocol = RFProtocol.RF_FSK)
    (hlow : 1010000 < s.frequency) (hhigh : s.frequency + 10000 < 2 ^ 32) :
    m.transmitSignal (some s) = none := by
  simp only [RFModule.transmitSignal, hinit, Bool.not_true, Bool.false_eq_true, if_false, hp]
  rw [(RFModule.transmitFSK_faults _ s.data s.frequency (by simp [RFModule.setFrequency])
    hlow hhigh).2.2]

set_option maxRecDepth 100000 in
/-- C28 fails at 433.92 MHz, inside the band, with payload `0xDEADBEEF` on an
initialised sub-GHz channel: both derived periods,
`1000000 / (frequency + 10000)` and `1000000 / (frequency - 10000)`, are 0, so
`bitDuration / period` divides by zero in the first bit and `transmitSignal`
does not return a value; likewise at the band edges 300 MHz and 928 MHz. -/
theorem C28_fsk_period_is_zero :
    RFModule.ready.rfInitialized = true ∧
    1000000 / ((433920000 + 10000) % 2 ^ 32) = 0 ∧
    1000000 / usub32 433920000 10000 = 0 ∧
    RFModule.ready.transmitFSK 0xDEADBEEF 32 433920000 = none ∧
    RFModule.ready.transmitSignal
        (some { RFSignal.zero with protocol := RFProtocol.RF_FSK, data := 0xDEADBEEF,
                                   frequency := 433920000 }) = none ∧
    RFModule.ready.transmitSignal
        (some { RFSignal.zero with protocol := RFProtocol.RF_FSK, data := 0,
                                   frequency := 300000000 }) = none ∧
    RFModule.ready.transmitSignal
        (some { RFSignal.zero with protocol := RFProtocol.RF_FSK, data := 0xFFFFFFFF,
                                   frequency := 928000000 }) = none := by
  decide

/-! ### Raw replay on the infrared channel -/

theorem toInt32_of_small (x : Int) (h0 : 0 ≤ x) (h1 : x < 2 ^ 31) : toInt32 x = x := by
  unfold toInt32
  omega

theorem toInt32_of_large (x : Int) (h0 : 2 ^ 31 ≤ x) (h1 : x < 2 ^ 32) :
    toInt32 x = x - 2 ^ 32 := by
  unfold toInt32
  omega

/-- The number of carrier periods `IRModule::transmitRaw` sends for an on
interval `v` at 38000 Hz: the mathematical quotient up to `v = 56512`, and none
from 56513 on, where the product no longer fits a 32-bit `int`. -/
theorem IRModule.transmitRaw_cycles (v : Nat) (hv : v ≤ 65535) :
    (v ≤ 56512 →
      ((toInt32 ((v : Int) * ((38000 : Nat) : Int))).tdiv 1000000).toNat = v * 38000 / 1000000) ∧
    (56513 ≤ v →
      (2 : Int) ^ 31 - 1 < (v : Int) * ((38000 : Nat) : Int) ∧
      ((toInt32 ((v : Int) * ((38000 : Nat) : Int))).tdiv 1000000).toNat = 0) := by
  constructor
  · intro h
    rw [toInt32_of_small _ (by omega) (by omega), Int.tdiv_eq_ediv (by omega) (by omega)]
    omega
  · intro h
    refine ⟨by omega, ?_⟩
    rw [toInt32_of_large _ (by omega) (by omega)]
    have hneg : ((v : Int) * ((38000 : Nat) : Int) - 2 ^ 32)
        = -((2 : Int) ^ 32 - (v : Int) * ((38000 : Nat) : Int)) := by ring
    rw [hneg, Int.neg_tdiv]
    have := Int.tdiv_nonneg (a := (2 : Int) ^ 32 - (v : Int) * ((38000 : Nat) : Int))
      (b := 1000000) (by omega) (by omega)
    omega

theorem IRModule.transmitRawLoop_one (v : Nat) (hv : v ≤ 65535) :
    (v ≤ 56512 →
      IRModule.transmitRawLoop [v] 38000 13 1 = IRModule.carrier (v * 38000 / 1000000) 13) ∧
    (56513 ≤ v → IRModule.transmitRawLoop [v] 38000 13 1 = []) := by
  have hstep : IRModule.transmitRawLoop [v] 38000 13 1
      = IRModule.carrier
          ((toInt32 ((v : Int) * ((38000 : Nat) : Int))).tdiv 1000000).toNat 13 := by
    show [] ++ (if 0 % 2 = 0 then _ else _) = _
    rw [if_pos (by decide), List.nil_append]
    rfl
  constructor
  · intro h
    rw [hstep, (IRModule.transmitRaw_cycles v hv).1 h]
  · intro h
    rw [hstep, ((IRModule.transmitRaw_cycles v hv).2 h).2]
    rfl

set_option maxRecDepth 100000 in
/-- C29 fails from the interval value 56513 on: at 38000 Hz the product
`56513 * 38000` = 2147494000 exceeds `2^31 - 1`, the quotient would be 2147
periods, and `transmitRaw` with the wrapped 32-bit product (-2147473296) sends
no carrier period at all: it returns true with an empty trace; likewise for
65535, whose quotient would be 2490.  The product of 56512, the largest value
that fits, is 2147456000. -/
theorem C29_cycle_product_overflows :
    (2 : Int) ^ 31 - 1 < (56513 : Int) * 38000 ∧
    56513 * 38000 / 1000000 = 2147 ∧
    65535 * 38000 / 1000000 = 2490 ∧
    toInt32 ((56513 : Int) * 38000) = -2147473296 ∧
    (56512 : Int) * 38000 ≤ 2 ^ 31 - 1 ∧
    ({ IRModule.ready with heap := [[56513]] } : IRModule).transmitRaw (some 0) 1 38000
      = some (true, []) ∧
    ({ IRModule.ready with heap := [[65535]] } : IRModule).transmitRaw (some 0) 1 38000
      = some (true, []) ∧
    (({ IRModule.ready with heap := [[56513]] } : IRModule).transmitSignal
        (some { IRSignal.zero with protocol := IRProtocol.IR_RAW, rawData := some 0,
                                   rawLength := 1, frequency := 38000 })).map
        (fun r => (r.1, r.2.1)) = some (true, []) := by
  decide

/-- A Raw signal with a non-null payload makes `transmitSignal` divide by zero
on an initialised channel exactly when its frequency field is 0. -/
theorem IRModule.transmitSignal_raw_faults_iff (m : IRModule) (s : IRSignal) (p : Nat)
    (hinit : m.irInitialized = true) (hraw : s.protocol = IRProtocol.IR_RAW)
    (hp : s.rawData = some p) :
    m.transmitSignal (some s) = none ↔ s.frequency = 0 := by
  simp only [IRModule.transmitSignal, hinit, Bool.not_true, Bool.false_eq_true, if_false, hraw,
    IRModule.transmitRaw, hp]
  by_cases hf : s.frequency = 0
  · simp [hf]
  · simp [hf]

set_option maxRecDepth 100000 in
/-- C30 fails for a Raw signal with the payload `[9000, 4500, 560]` and the
frequency field 0 on an initialised channel: `transmitSignal` reaches
`1000000 / frequency / 2` in `transmitRaw` with the divisor 0 and does not
return a value.  With the frequency 38000 the same signal is sent and the call
returns true. -/
theorem C30_zero_frequency_divides_by_zero :
    ({ IRModule.ready with heap := [[9000, 4500, 560]] } : IRModule).irInitialized = true ∧
    ({ IRModule.ready with heap := [[9000, 4500, 560]] } : IRModule).transmitRaw (some 0) 3 0
      = none ∧
    ({ IRModule.ready with heap := [[9000, 4500, 560]] } : IRModule).transmitSignal
        (some { IRSignal.zero with protocol := IRProtocol.IR_RAW, rawData := some 0,
                                   rawLength := 3, frequency := 0 }) = none ∧
    (({ IRModule.ready with heap := [[9000, 4500, 560]] } : IRModule).transmitSignal
        (some { IRSignal.zero with protocol := IRProtocol.IR_RAW, rawData := some 0,
                                   rawLength := 3, frequency := 38000 })).map
        (fun r => r.1) = some true := by
  decide

/-! ### The transmitting flag between calls -/

theorem IRModule.ir_decodeSignal_flag (m : IRModule) (sig : Option IRSignal) (t1 t2 : Nat) :
    (m.decodeSignal sig t1 t2).2.2.isTransmittingSignal = m.isTransmittingSignal := by
  cases sig with
  | none => rfl
  | some s =>
    obtain ⟨ext, he⟩ := IRModule.ir_decodeSignal_module m s t1 t2
    rw [he]

theorem IRModule.update_flag (m : IRModule) (currentTime t1 t2 : Nat) :
    (m.update currentTime t1 t2).1.isTransmittingSignal = m.isTransmittingSignal := by
  rcases IRModule.ir_update_cases m currentTime t1 t2 with h | h | ⟨_, out, m2, hd, h⟩
  · rw [h]
  · rw [h]
  · rw [h]
    have := IRModule.ir_decodeSignal_flag { m with signalReceived := true } (some m.currentSignal)
      t1 t2
    rw [hd] at this
    simpa [IRModule.addToHistory, IRModule.stopReceiving] using this

theorem IRModule.transmitSignal_flag (m : IRModule) (sig : Option IRSignal)
    (r : Bool × List PinEvent × IRModule) (h : m.transmitSignal sig = some r)
    (hf : m.isTransmittingSignal = false) : r.2.2.isTransmittingSignal = false := by
  cases sig with
  | none =>
    simp only [IRModule.transmitSignal, Option.some.injEq] at h
    rw [← h]
    exact hf
  | some s =>
    unfold IRModule.transmitSignal at h
    dsimp only at h
    split at h
    · simp only [Option.some.injEq] at h
      rw [← h]
      exact hf
    · split at h
      · exact absurd h (by simp)
      · simp only [Option.some.injEq] at h
        rw [← h]

theorem IRModule.call_flag (m m2 : IRModule) (c : IRCall) (h : m.call c = some m2)
    (hf : m.isTransmittingSignal = false) : m2.isTransmittingSignal = false := by
  cases c with
  | init =>
    simp only [IRModule.call, Option.some.injEq] at h
    rw [← h]
    exact hf
  | receiveSignal now =>
    simp only [IRModule.call, Option.some.injEq] at h
    rw [← h]
    simp only [IRModule.receiveSignal, IRModule.startReceiving]
    split <;> simp [hf]
  | edge now =>
    simp only [IRModule.call, Option.some.injEq] at h
    rw [← h]
    simp only [IRModule.irInterruptHandler, IRModule.captureRawData]
    split_ifs <;> simp [hf]
  | update currentTime t1 t2 =>
    simp only [IRModule.call, Option.some.injEq] at h
    rw [← h, IRModule.update_flag, hf]
  | clearHistory =>
    simp only [IRModule.call, Option.some.injEq] at h
    rw [← h]
    exact hf
  | decodeSignal sig t1 t2 =>
    simp only [IRModule.call, Option.some.injEq] at h
    rw [← h, IRModule.ir_decodeSignal_flag, hf]
  | addToHistory sig =>
    simp only [IRModule.call, Option.some.injEq] at h
    rw [← h]
    cases sig with
    | none => exact hf
    | some s => exact hf
  | transmitSignal sig =>
    simp only [IRModule.call, Option.map_eq_some'] at h
    obtain ⟨r, hr, he⟩ := h
    rw [← he]
    exact IRModule.transmitSignal_flag m sig r hr hf

theorem IRModule.calls_flag (cs : List IRCall) :
    ∀ (m m2 : IRModule), m.calls cs = some m2 → m.isTransmittingSignal = false →
      m2.isTransmittingSignal = false := by
  induction cs with
  | nil =>
    intro m m2 h hf
    simp only [IRModule.calls, Option.some.injEq] at h
    rw [← h]
    exact hf
  | cons c rest ih =>
    intro m m2 h hf
    simp only [IRModule.calls, Option.bind_eq_some] at h
    obtain ⟨m1, h1, h2⟩ := h
    exact ih m1 m2 h2 (IRModule.call_flag m m1 c h1 hf)

theorem RFModule.rf_decodeSignal_flag (freqStr : Nat → String) (m : RFModule)
    (sig : Option RFSignal) (t1 t2 : Nat) :
    (RFModule.decodeSignal freqStr m sig t1 t2).2.2.isTransmittingSignal
      = m.isTransmittingSignal := by
  obtain ⟨ext, he⟩ := RFModule.decodeSignal_module freqStr m sig t1 t2
  rw [he]

theorem RFModule.scanStep_flag (m : RFModule) :
    m.scanStep.isTransmittingSignal = m.isTransmittingSignal := by
  unfold RFModule.scanStep RFModule.setFrequency
  dsimp only
  split_ifs <;> simp

theorem RFModule.rf_update_flag (freqStr : Nat → String) (m : RFModule)
    (currentTime t1 t2 : Nat) :
    (RFModule.update freqStr m currentTime t1 t2).1.isTransmittingSignal
      = m.isTransmittingSignal := by
  have s0 := RFModule.scanStep_flag m
  generalize hm0 : m.scanStep = m0 at s0
  unfold RFModule.update
  by_cases hinit : m.rfInitialized = true
  · rw [if_neg (by simp [hinit]), hm0]
    dsimp only
    by_cases hq : m0.isReceivingSignal = true ∧ usub32 currentTime m0.lastEdgeTime > 200
    · rw [if_pos hq]
      by_cases hl : m0.rawIndex > 10
      · rw [if_pos hl]
        obtain ⟨ext, hext⟩ := RFModule.decodeSignal_module freqStr
          { m0 with signalReceived := true } (some m0.currentSignal) t1 t2
        rcases hres : RFModule.decodeSignal freqStr { m0 with signalReceived := true }
          (some m0.currentSignal) t1 t2 with ⟨ok, sig, m2⟩
        rw [hres] at hext
        simp only at hext
        subst hext
        cases ok <;> simp [RFModule.stopReceiving, RFModule.addToHistory, s0]
      · rw [if_neg hl]
        simp [RFModule.stopReceiving, s0]
    · rw [if_neg hq]
      exact s0
  · rw [if_pos (by simpa using hinit)]

theorem RFModule.rf_transmitSignal_flag (m : RFModule) (sig : Option RFSignal)
    (r : Bool × List PinEvent × RFModule) (h : m.transmitSignal sig = some r)
    (hf : m.isTransmittingSignal = false) : r.2.2.isTransmittingSignal = false := by
  cases sig with
  | none =>
    simp only [RFModule.transmitSignal, Option.some.injEq] at h
    rw [← h]
    exact hf
  | some s =>
    unfold RFModule.transmitSignal at h
    dsimp only at h
    split at h
    · simp only [Option.some.injEq] at h
      rw [← h]
      exact hf
    · split at h
      · exact absurd h (by simp)
      · simp only [Option.some.injEq] at h
        rw [← h]

theorem RFModule.rf_call_flag (freqStr : Nat → String) (m m2 : RFModule) (c : RFCall)
    (h : RFModule.call freqStr m c = some m2)
    (hf : m.isTransmittingSignal = false) : m2.isTransmittingSignal = false := by
  cases c with
  | init =>
    simp only [RFModule.call, Option.some.injEq] at h
    rw [← h]
    exact hf
  | receiveSignal now =>
    simp only [RFModule.call, Option.some.injEq] at h
    rw [← h]
    simp only [RFModule.receiveSignal, RFModule.startReceiving]
    split <;> simp [hf]
  | edge now =>
    simp only [RFModule.call, Option.some.injEq] at h
    rw [← h]
    simp only [RFModule.rfInterruptHandler, RFModule.captureRawData]
    split_ifs <;> simp [hf]
  | update currentTime t1 t2 =>
    simp only [RFModule.call, Option.some.injEq] at h
    rw [← h, RFModule.rf_update_flag, hf]
  | clearHistory =>
    simp only [RFModule.call, Option.some.injEq] at h
    rw [← h]
    exact hf
  | decodeSignal sig t1 t2 =>
    simp only [RFModule.call, Option.some.injEq] at h
    rw [← h, RFModule.rf_decodeSignal_flag, hf]
  | addToHistory sig =>
    simp only [RFModule.call, Option.some.injEq] at h
    rw [← h]
    cases sig with
    | none => exact hf
    | some s => exact hf
  | transmitSignal sig =>
    simp only [RFModule.call, Option.map_eq_some'] at h
    obtain ⟨r, hr, he⟩ := h
    rw [← he]
    exact RFModule.rf_transmitSignal_flag m sig r hr hf
  | startFrequencyScan startFreq endFreq now =>
    simp only [RFModule.call, Option.some.injEq] at h
    rw [← h]
    simp only [RFModule.startFrequencyScan, RFModule.startReceiving]
    split_ifs <;> simp_all
  | stopFrequencyScan =>
    simp only [RFModule.call, Option.some.injEq] at h
    rw [← h]
    exact hf

theorem RFModule.rf_calls_flag (freqStr : Nat → String) (cs : List RFCall) :
    ∀ (m m2 : RFModule), RFModule.calls freqStr m cs = some m2 →
      m.isTransmittingSignal = false → m2.isTransmittingSignal = false := by
  induction cs with
  | nil =>
    intro m m2 h hf
    simp only [RFModule.calls, Option.some.injEq] at h
    rw [← h]
    exact hf
  | cons c rest ih =>
    intro m m2 h hf
    simp only [RFModule.calls, Option.bind_eq_some] at h
    obtain ⟨m1, h1, h2⟩ := h
    exact ih m1 m2 h2 (RFModule.rf_call_flag freqStr m m1 c h1 hf)

/-! ### Transmissions that are refused -/

theorem IRModule.transmitSignal_refused (mi : IRModule) (si : IRSignal) :
    (mi.irInitialized = false →
      mi.transmitSignal (some si) = some (false, [], mi)) ∧
    (mi.transmitSignal none = some (false, [], mi)) ∧
    (mi.irInitialized = true →
      ((si.protocol = IRProtocol.IR_RAW ∧ si.rawData = none) ∨
       (si.protocol ≠ IRProtocol.IR_NEC ∧ si.protocol ≠ IRProtocol.IR_SONY ∧
        si.protocol ≠ IRProtocol.IR_RAW)) →
      mi.transmitSignal (some si)
        = some (false, [], { mi with isTransmittingSignal := false })) ∧
    (mi.irInitialized = true → si.protocol = IRProtocol.IR_RAW → si.rawData ≠ none →
      si.rawLength = 0 → si.frequency ≠ 0 →
      mi.transmitSignal (some si) = some (true, [], { mi with isTransmittingSignal := false })) := by
  refine ⟨?_, rfl, ?_, ?_⟩
  · intro h
    simp [IRModule.transmitSignal, h]
  · intro h hc
    rcases hc with ⟨hp, hd⟩ | ⟨h1, h2, h3⟩
    · simp [IRModule.transmitSignal, h, hp, hd, IRModule.transmitRaw]
    · cases hp : si.protocol <;> simp_all [IRModule.transmitSignal]
  · intro h hp hd hl hf
    obtain ⟨p, hp2⟩ := Option.ne_none_iff_exists'.mp hd
    simp [IRModule.transmitSignal, h, hp, hp2, hl, hf, IRModule.transmitRaw,
      IRModule.transmitRawLoop]

theorem RFModule.rf_transmitSignal_refused (mr : RFModule) (sr : RFSignal) :
    (mr.rfInitialized = false →
      mr.transmitSignal (some sr) = some (false, [], mr)) ∧
    (mr.transmitSignal none = some (false, [], mr)) ∧
    (mr.rfInitialized = true →
      ((sr.protocol = RFProtocol.RF_RAW ∧ sr.rawData = none) ∨
       (sr.protocol ≠ RFProtocol.RF_ASK_OOK ∧ sr.protocol ≠ RFProtocol.RF_FSK ∧
        sr.protocol ≠ RFProtocol.RF_RAW)) →
      mr.transmitSignal (some sr)
        = some (false, [],
            { mr with isTransmittingSignal := false, currentFrequency := sr.frequency })) ∧
    (mr.rfInitialized = true → sr.protocol = RFProtocol.RF_RAW → sr.rawData ≠ none →
      sr.rawLength = 0 →
      mr.transmitSignal (some sr)
        = some (true, [PinEvent.digitalWrite RF_TRANSMITTER_PIN false],
            { mr with isTransmittingSignal := false, currentFrequency := sr.frequency })) := by
  refine ⟨?_, rfl, ?_, ?_⟩
  · intro h
    simp [RFModule.transmitSignal, h]
  · intro h hc
    rcases hc with ⟨hp, hd⟩ | ⟨h1, h2, h3⟩
    · simp [RFModule.transmitSignal, h, hp, hd, RFModule.transmitRaw, RFModule.setFrequency]
    · cases hp : sr.protocol <;> simp_all [RFModule.transmitSignal, RFModule.setFrequency]
  · intro h hp hd hl
    obtain ⟨p, hp2⟩ := Option.ne_none_iff_exists'.mp hd
    simp [RFModule.transmitSignal, h, hp, hp2, hl, RFModule.transmitRaw,
      RFModule.transmitRawLoop, RFModule.setFrequency]

theorem IRModule.clear_flag_of_idle (m : IRModule) (h : m.isTransmittingSignal = false) :
    ({ m with isTransmittingSignal := false } : IRModule) = m := by
  cases m
  simp_all

theorem RFModule.rf_clear_flag_of_idle (m : RFModule) (f : Nat)
    (h : m.isTransmittingSignal = false) :
    ({ m with isTransmittingSignal := false, currentFrequency := f } : RFModule)
      = { m with currentFrequency := f } := by
  cases m
  simp_all

/-- C20 (amended). In every state reachable from construction by calls of the
module (`init`, `receiveSignal`, edge interrupts, `update`, `clearHistory`,
`decodeSignal`, `addToHistory`, `transmitSignal`, and for sub-GHz
`startFrequencyScan` and `stopFrequencyScan`), `transmitSignal` returns false
without any write to the output pin whenever the channel is uninitialised, or
the signal is Raw with a null raw payload, or the protocol tag is not a
transmittable one (infrared: other than NEC, Sony, Raw; sub-GHz: other than
ASK_OOK, FSK, Raw), and also for a null signal pointer; in every such case
`isTransmitting()` is false after the call.  A Raw signal with a non-null
payload of length zero is not a failure: on an initialised channel the call
returns true, without driving the pin high (infrared: for a non-zero
frequency), and `isTransmitting()` is false after it as well. -/
theorem C20_transmit_failures (freqStr : Nat → String) (ci : List IRCall) (cr : List RFCall)
    (mi : IRModule) (mr : RFModule) (si : IRSignal) (sr : RFSignal)
    (hi : IRModule.new.calls ci = some mi)
    (hr : RFModule.calls freqStr RFModule.new cr = some mr) :
    ((mi.irInitialized = false ∨
       (si.protocol = IRProtocol.IR_RAW ∧ si.rawData = none) ∨
       (si.protocol ≠ IRProtocol.IR_NEC ∧ si.protocol ≠ IRProtocol.IR_SONY ∧
        si.protocol ≠ IRProtocol.IR_RAW)) →
      ∃ m2, mi.transmitSignal (some si) = some (false, [], m2) ∧
        drivesHigh [] = false ∧ m2.isTransmitting = false ∧ m2 = mi) ∧
    (∃ m2, mi.transmitSignal none = some (false, [], m2) ∧ m2.isTransmitting = false ∧
      m2 = mi) ∧
    (mi.irInitialized = true → si.protocol = IRProtocol.IR_RAW → si.rawData ≠ none →
      si.rawLength = 0 → si.frequency ≠ 0 →
      ∃ m2, mi.transmitSignal (some si) = some (true, [], m2) ∧ m2.isTransmitting = false) ∧
    ((mr.rfInitialized = false ∨
       (sr.protocol = RFProtocol.RF_RAW ∧ sr.rawData = none) ∨
       (sr.protocol ≠ RFProtocol.RF_ASK_OOK ∧ sr.protocol ≠ RFProtocol.RF_FSK ∧
        sr.protocol ≠ RFProtocol.RF_RAW)) →
      ∃ m2, mr.transmitSignal (some sr) = some (false, [], m2) ∧
        drivesHigh [] = false ∧ m2.isTransmitting = false ∧
        (mr.rfInitialized = false → m2 = mr) ∧
        (mr.rfInitialized = true → m2 = { mr with currentFrequency := sr.frequency })) ∧
    (∃ m2, mr.transmitSignal none = some (false, [], m2) ∧ m2.isTransmitting = false ∧
      m2 = mr) ∧
    (mr.rfInitialized = true → sr.protocol = RFProtocol.RF_RAW → sr.rawData ≠ none →
      sr.rawLength = 0 →
      ∃ m2, mr.transmitSignal (some sr)
          = some (true, [PinEvent.digitalWrite RF_TRANSMITTER_PIN false], m2) ∧
        drivesHigh [PinEvent.digitalWrite RF_TRANSMITTER_PIN false] = false ∧
        m2.isTransmitting = false) := by
  have fi : mi.isTransmittingSignal = false := IRModule.calls_flag ci IRModule.new mi hi rfl
  have fr : mr.isTransmittingSignal = false :=
    RFModule.rf_calls_flag freqStr cr RFModule.new mr hr rfl
  obtain ⟨i1, i2, i3, i4⟩ := IRModule.transmitSignal_refused mi si
  obtain ⟨r1, r2, r3, r4⟩ := RFModule.rf_transmitSignal_refused mr sr
  refine ⟨?_, ⟨mi, i2, fi, rfl⟩, ?_, ?_, ⟨mr, r2, fr, rfl⟩, ?_⟩
  · intro hc
    by_cases hinit : mi.irInitialized = true
    · have hc2 : (si.protocol = IRProtocol.IR_RAW ∧ si.rawData = none) ∨
          (si.protocol ≠ IRProtocol.IR_NEC ∧ si.protocol ≠ IRProtocol.IR_SONY ∧
            si.protocol ≠ IRProtocol.IR_RAW) := by
        rcases hc with h | h | h
        · rw [hinit] at h; exact absurd h (by simp)
        · exact Or.inl h
        · exact Or.inr h
      refine ⟨mi, ?_, rfl, fi, rfl⟩
      rw [i3 hinit hc2, IRModule.clear_flag_of_idle mi fi]
    · have hfalse : mi.irInitialized = false := by simpa using hinit
      exact ⟨mi, i1 hfalse, rfl, fi, rfl⟩
  · intro hinit hp hd hl hf
    exact ⟨_, i4 hinit hp hd hl hf, rfl⟩
  · intro hc
    by_cases hinit : mr.rfInitialized = true
    · have hc2 : (sr.protocol = RFProtocol.RF_RAW ∧ sr.rawData = none) ∨
          (sr.protocol ≠ RFProtocol.RF_ASK_OOK ∧ sr.protocol ≠ RFProtocol.RF_FSK ∧
            sr.protocol ≠ RFProtocol.RF_RAW) := by
        rcases hc with h | h | h
        · rw [hinit] at h; exact absurd h (by simp)
        · exact Or.inl h
        · exact Or.inr h
      refine ⟨_, r3 hinit hc2, rfl, rfl, ?_, fun _ => RFModule.rf_clear_flag_of_idle mr _ fr⟩
      intro h
      rw [hinit] at h
      exact absurd h (by simp)
    · have hfalse : mr.rfInitialized = false := by simpa using hinit
      exact ⟨mr, r1 hfalse, rfl, fr, fun _ => rfl, fun h => absurd h hinit⟩
  · intro hinit hp hd hl
    exact ⟨_, r4 hinit hp hd hl, rfl, rfl⟩

set_option maxRecDepth 100000 in
/-- C20 at concrete signals: an NEC signal on the freshly constructed infrared
module, an RC5 signal and a Raw signal with a null payload on the infrared
module after `init()`, a Manchester signal on the sub-GHz module after
`init()`: every call returns false with an empty pin trace and leaves
`isTransmitting()` false. -/
theorem C20_transmit_failures_witness :
    IRModule.new.calls [] = some IRModule.new ∧
    IRModule.new.calls [IRCall.init] = some IRModule.ready ∧
    RFModule.calls (fun _ => "") RFModule.new [RFCall.init] = some RFModule.ready ∧
    (∃ m2, IRModule.new.transmitSignal
        (some { IRSignal.zero with protocol := IRProtocol.IR_NEC }) = some (false, [], m2) ∧
      drivesHigh [] = false ∧ m2.isTransmitting = false ∧ m2 = IRModule.new) ∧
    (∃ m2, IRModule.ready.transmitSignal
        (some { IRSignal.zero with protocol := IRProtocol.IR_RC5 }) = some (false, [], m2) ∧
      drivesHigh [] = false ∧ m2.isTransmitting = false ∧ m2 = IRModule.ready) ∧
    (∃ m2, IRModule.ready.transmitSignal
        (some { IRSignal.zero with protocol := IRProtocol.IR_RAW }) = some (false, [], m2) ∧
      drivesHigh [] = false ∧ m2.isTransmitting = false ∧ m2 = IRModule.ready) ∧
    (∃ m2, RFModule.ready.transmitSignal
        (some { RFSignal.zero with protocol := RFProtocol.RF_MANCHESTER,
                                   frequency := 315000000 }) = some (false, [], m2) ∧
      drivesHigh [] = false ∧ m2.isTransmitting = false ∧
      (RFModule.ready.rfInitialized = false → m2 = RFModule.ready) ∧
      (RFModule.ready.rfInitialized = true →
        m2 = { RFModule.ready with currentFrequency := 315000000 })) :=
  ⟨rfl, rfl, rfl,
   (C20_transmit_failures (fun _ => "") [] [RFCall.init] IRModule.new RFModule.ready
      { IRSignal.zero with protocol := IRProtocol.IR_NEC } RFSignal.zero rfl rfl).1
      (Or.inl rfl),
   (C20_transmit_failures (fun _ => "") [IRCall.init] [RFCall.init] IRModule.ready RFModule.ready
      { IRSignal.zero with protocol := IRProtocol.IR_RC5 } RFSignal.zero rfl rfl).1
      (Or.inr (Or.inr (by decide))),
   (C20_transmit_failures (fun _ => "") [IRCall.init] [RFCall.init] IRModule.ready RFModule.ready
      { IRSignal.zero with protocol := IRProtocol.IR_RAW } RFSignal.zero rfl rfl).1
      (Or.inr (Or.inl (by decide))),
   (C20_transmit_failures (fun _ => "") [IRCall.init] [RFCall.init] IRModule.ready RFModule.ready
      IRSignal.zero
      { RFSignal.zero with protocol := RFProtocol.RF_MANCHESTER, frequency := 315000000 }
      rfl rfl).2.2.2.1 (Or.inr (Or.inr (by decide)))⟩
